import Mathlib

/-!
# PolyMTD Keccak variants: seed pipeline, state initialisation and step variants

A shallow embedding of `seed_generation.c` and of the theta, rho-pi, chi and iota
variants of `Keccak_All_Updated_Variants.c`.  Bytes, 32-bit words, 64-bit lanes
and `size_t` values are natural numbers; every operation that can leave its
machine width is followed by an explicit reduction modulo `2 ^ w`.  Byte
buffers are lists of naturals.
-/

namespace PolyMTD

/-! ## Memory helpers -/

/-- The C library call `memset(buf + off, c, n)` on a buffer held as a list. -/
def memset (buf : List Nat) (off c n : Nat) : List Nat :=
  buf.take off ++ List.replicate n c ++ buf.drop (off + n)

/-- The C library call `memcpy(dst + off, src, n)` on buffers held as lists. -/
def memcpy (dst : List Nat) (off : Nat) (src : List Nat) (n : Nat) : List Nat :=
  dst.take off ++ src.take n ++ dst.drop (off + n)

/-- Width of `size_t` and `uint64_t` arithmetic. -/
def SIZE_MOD : Nat := 2 ^ 64

/-! ## SHA3-256 padding (`apply_sha3_padding`) -/

/-- The constant `rate_bytes` of `apply_sha3_padding`. -/
def rate_bytes : Nat := 136

/-- The local `padded_len` of `apply_sha3_padding`:
`((msg_len + 1 + 8) / rate_bytes + 1) * rate_bytes` in `size_t` arithmetic. -/
def padded_len (msg_len : Nat) : Nat :=
  ((((msg_len + 1 + 8) % SIZE_MOD) / rate_bytes + 1) * rate_bytes) % SIZE_MOD

/-- The function `apply_sha3_padding(message, msg_len, padded, max_padded_len)`.
The argument `padded` is the content of the output buffer before the call; the
result is the returned length together with the content of the buffer after
the call. -/
def apply_sha3_padding (message : List Nat) (padded : List Nat) (max_padded_len : Nat) :
    Nat × List Nat :=
  let msg_len := message.length
  let plen := padded_len msg_len
  if plen > max_padded_len then
    (0, padded)
  else
    let p1 := memset padded 0 0 plen
    let p2 := memcpy p1 0 message msg_len
    let p3 := p2.set msg_len 0x06
    let p4 := p3.set (plen - 1) ((p3.getD (plen - 1) 0 ||| 0x80) % 256)
    (plen, p4)

/-- The padded length as the specification words it: the ceiling of
`(n + 9) / 136`, times `136`. -/
def spec_padded_len (n : Nat) : Nat :=
  ((n + 9 + 135) / 136) * 136

/-! ## SHA-256 -/

/-- The table `K` of SHA-256 round constants. -/
def K : List Nat := [
  0x428A2F98, 0x71374491, 0xB5C0FBCF, 0xE9B5DBA5, 0x3956C25B, 0x59F111F1, 0x923F82A4, 0xAB1C5ED5,
  0xD807AA98, 0x12835B01, 0x243185BE, 0x550C7DC3, 0x72BE5D74, 0x80DEB1FE, 0x9BDC06A7, 0xC19BF174,
  0xE49B69C1, 0xEFBE4786, 0x0FC19DC6, 0x240CA1CC, 0x2DE92C6F, 0x4A7484AA, 0x5CB0A9DC, 0x76F988DA,
  0x983E5152, 0xA831C66D, 0xB00327C8, 0xBF597FC7, 0xC6E00BF3, 0xD5A79147, 0x06CA6351, 0x14292967,
  0x27B70A85, 0x2E1B2138, 0x4D2C6DFC, 0x53380D13, 0x650A7354, 0x766A0ABB, 0x81C2C92E, 0x92722C85,
  0xA2BFE8A1, 0xA81A664B, 0xC24B8B70, 0xC76C51A3, 0xD192E819, 0xD6990624, 0xF40E3585, 0x106AA070,
  0x19A4C116, 0x1E376C08, 0x2748774C, 0x34B0BCB5, 0x391C0CB3, 0x4ED8AA4A, 0x5B9CCA4F, 0x682E6FF3,
  0x748F82EE, 0x78A5636F, 0x84C87814, 0x8CC70208, 0x90BEFFFA, 0xA4506CEB, 0xBEF9A3F7, 0xC67178F2]

/-- Width of `uint32_t` arithmetic. -/
def WORD_MOD : Nat := 2 ^ 32

/-- Bitwise complement of a `uint32_t`. -/
def not32 (x : Nat) : Nat := x ^^^ 0xffffffff

/-- The macro `ROTR(x, n)` on `uint32_t`. -/
def ROTR (x n : Nat) : Nat := ((x >>> n) ||| ((x <<< (32 - n)) % WORD_MOD))

/-- The macro `CH(x, y, z)`. -/
def CH (x y z : Nat) : Nat := (x &&& y) ^^^ (not32 x &&& z)

/-- The macro `MAJ(x, y, z)`. -/
def MAJ (x y z : Nat) : Nat := (x &&& y) ^^^ (x &&& z) ^^^ (y &&& z)

/-- The macro `SIG0(x)`. -/
def SIG0 (x : Nat) : Nat := ROTR x 2 ^^^ ROTR x 13 ^^^ ROTR x 22

/-- The macro `SIG1(x)`. -/
def SIG1 (x : Nat) : Nat := ROTR x 6 ^^^ ROTR x 11 ^^^ ROTR x 25

/-- The macro `GAMMA0(x)`. -/
def GAMMA0 (x : Nat) : Nat := ROTR x 7 ^^^ ROTR x 18 ^^^ (x >>> 3)

/-- The macro `GAMMA1(x)`. -/
def GAMMA1 (x : Nat) : Nat := ROTR x 17 ^^^ ROTR x 19 ^^^ (x >>> 10)

/-- The initial hash value `H` of `sha256`. -/
def sha256_H0 : List Nat :=
  [0x6a09e667, 0xbb67ae85, 0x3c6ef372, 0xa54ff53a,
   0x510e527f, 0x9b05688c, 0x1f83d9ab, 0x5be0cd19]

/-- The local `pad_len` of `sha256`, in `size_t` arithmetic. -/
def sha256_pad_len (len : Nat) : Nat :=
  if ((len + 8) % SIZE_MOD) % 64 < 56 then 56 - ((len + 8) % SIZE_MOD) % 64
  else 120 - ((len + 8) % SIZE_MOD) % 64

/-- The local `total_len` of `sha256`: the size of the allocation `padded`. -/
def sha256_total_len (len : Nat) : Nat :=
  (len + 1 + sha256_pad_len len + 8) % SIZE_MOD

/-- The content of the allocation `padded` of `sha256` when the block loop
starts.  The allocation has `total_len` bytes; each of them is written by the
`memcpy`, the `0x80` store, the `memset` or the length loop, so the initial
content of the allocation (zero here) has no influence. -/
def sha256_padded (input : List Nat) : List Nat :=
  let len := input.length
  let bit_len := (len * 8) % SIZE_MOD
  let pad_len := sha256_pad_len len
  let total_len := sha256_total_len len
  let p0 := List.replicate total_len 0
  let p1 := memcpy p0 0 input len
  let p2 := p1.set len 0x80
  let p3 := memset p2 (len + 1) 0 pad_len
  (List.range 8).foldl
    (fun p i => p.set (total_len - 1 - i) ((bit_len >>> (i * 8)) &&& 0xff)) p3

/-- The expression that loads `W[t]` (for `t < 16`) from the bytes at
`offset + 4 t .. offset + 4 t + 3`.  A read outside `mem` has no value. -/
def sha256_load_word (mem : List Nat) (offset t : Nat) : Option Nat :=
  match mem[offset + t * 4]?, mem[offset + t * 4 + 1]?,
        mem[offset + t * 4 + 2]?, mem[offset + t * 4 + 3]? with
  | some b0, some b1, some b2, some b3 =>
      some ((b0 <<< 24) ||| (b1 <<< 16) ||| (b2 <<< 8) ||| b3)
  | _, _, _, _ => none

/-- The first loop of the block body: `W[0..15]`. -/
def sha256_load_block (mem : List Nat) (offset : Nat) : Option (List Nat) :=
  (List.range 16).foldl
    (fun acc t =>
      match acc, sha256_load_word mem offset t with
      | some W, some w => some (W ++ [w])
      | _, _ => none)
    (some [])

/-- The second loop of the block body: `W[16..63]`. -/
def sha256_extend (W16 : List Nat) : List Nat :=
  (List.range 48).foldl
    (fun W k =>
      let t := k + 16
      W ++ [(GAMMA1 (W.getD (t - 2) 0) + W.getD (t - 7) 0
              + GAMMA0 (W.getD (t - 15) 0) + W.getD (t - 16) 0) % WORD_MOD])
    W16

/-- The working variables `a .. h` of the main loop. -/
structure SHA256_Vars where
  a : Nat
  b : Nat
  c : Nat
  d : Nat
  e : Nat
  f : Nat
  g : Nat
  h : Nat
deriving DecidableEq, Repr

/-- One iteration of the main loop of `sha256`. -/
def sha256_round (W : List Nat) (v : SHA256_Vars) (t : Nat) : SHA256_Vars :=
  let T1 := (v.h + SIG1 v.e + CH v.e v.f v.g + K.getD t 0 + W.getD t 0) % WORD_MOD
  let T2 := (SIG0 v.a + MAJ v.a v.b v.c) % WORD_MOD
  { h := v.g, g := v.f, f := v.e, e := (v.d + T1) % WORD_MOD,
    d := v.c, c := v.b, b := v.a, a := (T1 + T2) % WORD_MOD }

/-- The update of `H[0..7]` by one 64-byte block whose words are `W[0..15]`. -/
def sha256_compress (H : List Nat) (W16 : List Nat) : List Nat :=
  let W := sha256_extend W16
  let v0 : SHA256_Vars :=
    { a := H.getD 0 0, b := H.getD 1 0, c := H.getD 2 0, d := H.getD 3 0,
      e := H.getD 4 0, f := H.getD 5 0, g := H.getD 6 0, h := H.getD 7 0 }
  let v := (List.range 64).foldl (sha256_round W) v0
  [(H.getD 0 0 + v.a) % WORD_MOD, (H.getD 1 0 + v.b) % WORD_MOD,
   (H.getD 2 0 + v.c) % WORD_MOD, (H.getD 3 0 + v.d) % WORD_MOD,
   (H.getD 4 0 + v.e) % WORD_MOD, (H.getD 5 0 + v.f) % WORD_MOD,
   (H.getD 6 0 + v.g) % WORD_MOD, (H.getD 7 0 + v.h) % WORD_MOD]

/-- The block loop of `sha256`: `for (offset = 0; offset < total_len; offset += 64)`,
run on the memory `mem` that starts at `padded`.  The loop has
`(total_len + 63) / 64` iterations; one that reads outside `mem` has no value. -/
def sha256_blocks (mem : List Nat) (total_len : Nat) : Option (List Nat) :=
  (List.range ((total_len + 63) / 64)).foldl
    (fun acc k =>
      match acc with
      | none => none
      | some H =>
        match sha256_load_block mem (64 * k) with
        | none => none
        | some W16 => some (sha256_compress H W16))
    (some sha256_H0)

/-- The final loop of `sha256`: the digest bytes, big-endian word by word. -/
def sha256_output (H : List Nat) : List Nat :=
  (List.range 8).foldl
    (fun out i =>
      out ++ [(H.getD i 0 >>> 24) &&& 0xff, (H.getD i 0 >>> 16) &&& 0xff,
              (H.getD i 0 >>> 8) &&& 0xff, H.getD i 0 &&& 0xff])
    []

/-- The function `sha256(input, len, output)`, with `len = input.length`.
The block loop reads `padded[offset + 4 t + j]`; `beyond` lists the bytes of
memory that follow the allocation `padded` and can be read (none, when the
list is empty).  The result is the 32 bytes of `output`, or nothing when a
read falls outside `padded ++ beyond`. -/
def sha256 (beyond : List Nat) (input : List Nat) : Option (List Nat) :=
  (sha256_blocks (sha256_padded input ++ beyond) (sha256_total_len input.length)).map
    sha256_output

/-- Length of a NUL-terminated string that starts at `s`. -/
def strlen (s : List Nat) : Nat := (s.takeWhile (fun b => b != 0)).length

/-- The function `sha256_string(input, output)`: hashes the `strlen(input)`
bytes before the terminator. -/
def sha256_string (beyond : List Nat) (input : List Nat) : Option (List Nat) :=
  sha256 beyond (input.take (strlen input))

/-- Reference definition, from the words of the specification (not a function
of the source): the padding of FIPS 180-4 as section 4.5 words it
(append `0x80`, zero-pad until the length is `56 mod 64`, append the bit length
as a big-endian 64-bit integer).  Used as the reference for `sha256`. -/
def fips180_pad (m : List Nat) : List Nat :=
  let zeros := ((List.range 64).find? (fun k => (m.length + 1 + k) % 64 == 56)).getD 0
  m ++ [0x80] ++ List.replicate zeros 0
    ++ (List.range 8).map (fun i => ((m.length * 8) >>> ((7 - i) * 8)) % 256)

/-- Reference definition, from the words of the specification (not a function
of the source): the FIPS 180-4 SHA-256 digest, the block function
of section 6.2.2 run over the message padded by `fips180_pad`. -/
def fips180_sha256 (m : List Nat) : Option (List Nat) :=
  (sha256_blocks (fips180_pad m) (fips180_pad m).length).map sha256_output

/-! ## AES-256 in counter mode -/

/-- The table `AES_SBOX`. -/
def AES_SBOX : List Nat := [
  0x63, 0x7c, 0x77, 0x7b, 0xf2, 0x6b, 0x6f, 0xc5, 0x30, 0x01, 0x67, 0x2b, 0xfe, 0xd7, 0xab, 0x76,
  0xca, 0x82, 0xc9, 0x7d, 0xfa, 0x59, 0x47, 0xf0, 0xad, 0xd4, 0xa2, 0xaf, 0x9c, 0xa4, 0x72, 0xc0,
  0xb7, 0xfd, 0x93, 0x26, 0x36, 0x3f, 0xf7, 0xcc, 0x34, 0xa5, 0xe5, 0xf1, 0x71, 0xd8, 0x31, 0x15,
  0x04, 0xc7, 0x23, 0xc3, 0x18, 0x96, 0x05, 0x9a, 0x07, 0x12, 0x80, 0xe2, 0xeb, 0x27, 0xb2, 0x75,
  0x09, 0x83, 0x2c, 0x1a, 0x1b, 0x6e, 0x5a, 0xa0, 0x52, 0x3b, 0xd6, 0xb3, 0x29, 0xe3, 0x2f, 0x84,
  0x53, 0xd1, 0x00, 0xed, 0x20, 0xfc, 0xb1, 0x5b, 0x6a, 0xcb, 0xbe, 0x39, 0x4a, 0x4c, 0x58, 0xcf,
  0xd0, 0xef, 0xaa, 0xfb, 0x43, 0x4d, 0x33, 0x85, 0x45, 0xf9, 0x02, 0x7f, 0x50, 0x3c, 0x9f, 0xa8,
  0x51, 0xa3, 0x40, 0x8f, 0x92, 0x9d, 0x38, 0xf5, 0xbc, 0xb6, 0xda, 0x21, 0x10, 0xff, 0xf3, 0xd2,
  0xcd, 0x0c, 0x13, 0xec, 0x5f, 0x97, 0x44, 0x17, 0xc4, 0xa7, 0x7e, 0x3d, 0x64, 0x5d, 0x19, 0x73,
  0x60, 0x81, 0x4f, 0xdc, 0x22, 0x2a, 0x90, 0x88, 0x46, 0xee, 0xb8, 0x14, 0xde, 0x5e, 0x0b, 0xdb,
  0xe0, 0x32, 0x3a, 0x0a, 0x49, 0x06, 0x24, 0x5c, 0xc2, 0xd3, 0xac, 0x62, 0x91, 0x95, 0xe4, 0x79,
  0xe7, 0xc8, 0x37, 0x6d, 0x8d, 0xd5, 0x4e, 0xa9, 0x6c, 0x56, 0xf4, 0xea, 0x65, 0x7a, 0xae, 0x08,
  0xba, 0x78, 0x25, 0x2e, 0x1c, 0xa6, 0xb4, 0xc6, 0xe8, 0xdd, 0x74, 0x1f, 0x4b, 0xbd, 0x8b, 0x8a,
  0x70, 0x3e, 0xb5, 0x66, 0x48, 0x03, 0xf6, 0x0e, 0x61, 0x35, 0x57, 0xb9, 0x86, 0xc1, 0x1d, 0x9e,
  0xe1, 0xf8, 0x98, 0x11, 0x69, 0xd9, 0x8e, 0x94, 0x9b, 0x1e, 0x87, 0xe9, 0xce, 0x55, 0x28, 0xdf,
  0x8c, 0xa1, 0x89, 0x0d, 0xbf, 0xe6, 0x42, 0x68, 0x41, 0x99, 0x2d, 0x0f, 0xb0, 0x54, 0xbb, 0x16]

/-- The table `AES_RCON`. -/
def AES_RCON : List Nat :=
  [0x01, 0x02, 0x04, 0x08, 0x10, 0x20, 0x40, 0x80, 0x1b, 0x36, 0x6c, 0xd8, 0xab, 0x4d, 0x9a]

/-- The expression `AES_SBOX[b]`. -/
def sbox (b : Nat) : Nat := AES_SBOX.getD b 0

/-- The four S-box lookups that `aes_expand_key` applies to a word (SubWord). -/
def aes_sub_word (w : Nat) : Nat :=
  (sbox ((w >>> 24) &&& 0xff) <<< 24) ||| (sbox ((w >>> 16) &&& 0xff) <<< 16)
    ||| (sbox ((w >>> 8) &&& 0xff) <<< 8) ||| sbox (w &&& 0xff)

/-- The body of the second loop of `aes_expand_key`: the word `expanded[i]`
from the words before it. -/
def aes_expand_word (expanded : List Nat) (i : Nat) : Nat :=
  let temp := expanded.getD (i - 1) 0
  let temp :=
    if i % 8 = 0 then
      let rotated := ((temp <<< 8) % WORD_MOD) ||| (temp >>> 24)
      aes_sub_word rotated ^^^ (AES_RCON.getD (i / 8 - 1) 0 <<< 24)
    else if i % 8 = 4 then
      aes_sub_word temp
    else temp
  expanded.getD (i - 8) 0 ^^^ temp

/-- The function `aes_expand_key(key, expanded)`: the 60 words of `expanded`. -/
def aes_expand_key (key : List Nat) : List Nat :=
  let first := (List.range 8).map (fun i =>
    (key.getD (i * 4) 0 <<< 24) ||| (key.getD (i * 4 + 1) 0 <<< 16)
      ||| (key.getD (i * 4 + 2) 0 <<< 8) ||| key.getD (i * 4 + 3) 0)
  (List.range 52).foldl (fun expanded k => expanded ++ [aes_expand_word expanded (k + 8)]) first

/-- The AddRoundKey loop of `aes_encrypt_block` with the words
`expanded_key[base .. base + 3]`. -/
def aes_add_round_key (state : List Nat) (expanded_key : List Nat) (base : Nat) : List Nat :=
  (List.range 4).foldl
    (fun st i =>
      let word := expanded_key.getD (base + i) 0
      let st := st.set (i * 4) (st.getD (i * 4) 0 ^^^ ((word >>> 24) &&& 0xff))
      let st := st.set (i * 4 + 1) (st.getD (i * 4 + 1) 0 ^^^ ((word >>> 16) &&& 0xff))
      let st := st.set (i * 4 + 2) (st.getD (i * 4 + 2) 0 ^^^ ((word >>> 8) &&& 0xff))
      st.set (i * 4 + 3) (st.getD (i * 4 + 3) 0 ^^^ (word &&& 0xff)))
    state

/-- The block "SubBytes + ShiftRows" of `aes_encrypt_block`: the array `temp`. -/
def aes_sub_shift (state : List Nat) : List Nat :=
  [sbox (state.getD 0 0), sbox (state.getD 5 0), sbox (state.getD 10 0), sbox (state.getD 15 0),
   sbox (state.getD 4 0), sbox (state.getD 9 0), sbox (state.getD 14 0), sbox (state.getD 3 0),
   sbox (state.getD 8 0), sbox (state.getD 13 0), sbox (state.getD 2 0), sbox (state.getD 7 0),
   sbox (state.getD 12 0), sbox (state.getD 1 0), sbox (state.getD 6 0), sbox (state.getD 11 0)]

/-- The subexpression `(a << 1) ^ ((a >> 7) * 0x1b)` of the MixColumns loop,
computed in `int`. -/
def aes_xt (a : Nat) : Nat := (a <<< 1) ^^^ ((a >>> 7) * 0x1b)

/-- The MixColumns loop of `aes_encrypt_block`: it stores into `state` from
`temp`, each store truncated to `uint8_t`. -/
def aes_mix_columns (state temp : List Nat) : List Nat :=
  (List.range 4).foldl
    (fun st c =>
      let a0 := temp.getD (c * 4) 0
      let a1 := temp.getD (c * 4 + 1) 0
      let a2 := temp.getD (c * 4 + 2) 0
      let a3 := temp.getD (c * 4 + 3) 0
      let st := st.set (c * 4) ((aes_xt a0 ^^^ aes_xt a1 ^^^ a1 ^^^ a2 ^^^ a3) % 256)
      let st := st.set (c * 4 + 1) ((a0 ^^^ aes_xt a1 ^^^ aes_xt a2 ^^^ a2 ^^^ a3) % 256)
      let st := st.set (c * 4 + 2) ((a0 ^^^ a1 ^^^ aes_xt a2 ^^^ aes_xt a3 ^^^ a3) % 256)
      st.set (c * 4 + 3) ((aes_xt a0 ^^^ a0 ^^^ a1 ^^^ a2 ^^^ aes_xt a3) % 256))
    state

/-- The body of the round loop of `aes_encrypt_block` for the value `round`. -/
def aes_round (expanded_key : List Nat) (state : List Nat) (round : Nat) : List Nat :=
  let temp := aes_sub_shift state
  let state := if round < 13 then aes_mix_columns state temp else memcpy state 0 temp 16
  aes_add_round_key state expanded_key (round * 4)

/-- The function `aes_encrypt_block(input, output, expanded_key)`: the 16 bytes
of `output`.  The round loop is `for (round = 1; round < 14; round++)`. -/
def aes_encrypt_block (input : List Nat) (expanded_key : List Nat) : List Nat :=
  let state := memcpy (List.replicate 16 0) 0 input 16
  let state := aes_add_round_key state expanded_key 0
  (List.range 13).foldl (fun st k => aes_round expanded_key st (k + 1)) state

/-- Auxiliary to the proofs: the doubling that the MixColumns loop computes on a
byte, `((a << 1) ^ ((a >> 7) * 0x1b))` truncated to `uint8_t`. -/
def gm2 (a : Nat) : Nat := aes_xt (a % 256) % 256

/-- Auxiliary to the proofs: the first byte that the MixColumns loop stores for
the column `(a0, a1, a2, a3)`; the other three are the same expression on the
rotated column. -/
def mix_byte (a0 a1 a2 a3 : Nat) : Nat := gm2 a0 ^^^ gm2 a1 ^^^ a1 ^^^ a2 ^^^ a3

/-- Auxiliary to the proofs: the byte that undoes `mix_byte`.  Mixing a column
four times gives it back, so the inverse is three more mixings; written here
through the twice-mixed bytes `s0`, `s2`. -/
def inv_mix_byte (b0 b1 b2 b3 : Nat) : Nat :=
  let s0 := mix_byte b0 b1 b2 b3
  let s2 := mix_byte b2 b3 b0 b1
  gm2 (gm2 s0) ^^^ s0 ^^^ gm2 (gm2 s2)

/-- The struct `AES_CTR_PRNG`. -/
structure AES_CTR_PRNG where
  key : List Nat
  counter : List Nat
  keystream : List Nat
  pos : Nat
  expanded_key : List Nat
deriving DecidableEq, Repr

/-- The function `aes_ctr_init(prng, seed)`. -/
def aes_ctr_init (seed : List Nat) : AES_CTR_PRNG :=
  let key := seed.take 32
  { key := key
    counter := List.replicate 16 0
    keystream := List.replicate 16 0
    pos := 16
    expanded_key := aes_expand_key key }

/-- The counter loop of `aes_ctr_next`:
`for (j = 15; j >= 0; j--) if (++counter[j] != 0) break;`, entered with `n = j + 1`. -/
def aes_ctr_increment : Nat → List Nat → List Nat
  | 0, counter => counter
  | j + 1, counter =>
    let v := (counter.getD j 0 + 1) % 256
    if v ≠ 0 then counter.set j v else aes_ctr_increment j (counter.set j v)

/-- One iteration (index `i`) of the byte loop of `aes_ctr_next`, on the pair
of the generator and the local `result`. -/
def aes_ctr_next_byte (st : AES_CTR_PRNG × Nat) (i : Nat) : AES_CTR_PRNG × Nat :=
  let prng := st.1
  let prng :=
    if prng.pos ≥ 16 then
      { prng with
        keystream := aes_encrypt_block prng.counter prng.expanded_key
        pos := 0
        counter := aes_ctr_increment 16 prng.counter }
    else prng
  let result := (st.2 ||| (prng.keystream.getD prng.pos 0 <<< (i * 8))) % SIZE_MOD
  ({ prng with pos := prng.pos + 1 }, result)

/-- The function `aes_ctr_next(prng)`: the returned word and the generator
after the call. -/
def aes_ctr_next (prng : AES_CTR_PRNG) : Nat × AES_CTR_PRNG :=
  let r := (List.range 8).foldl aes_ctr_next_byte (prng, 0)
  (r.2, r.1)

/-- The first `n` words that `aes_ctr_next` returns, and the generator after. -/
def aes_ctr_words : Nat → AES_CTR_PRNG → List Nat × AES_CTR_PRNG
  | 0, prng => ([], prng)
  | n + 1, prng =>
    let r := aes_ctr_next prng
    let rest := aes_ctr_words n r.2
    (r.1 :: rest.1, rest.2)

/-- Reference definition, from the words of the specification (not a function
of the source): the AES-256 cipher of FIPS-197 (Nr = 14): the
initial AddRoundKey, thirteen rounds with MixColumns, and a fourteenth round
without it, under the round keys `w[4 r .. 4 r + 3]`, `r = 0 .. 14`. -/
def fips197_cipher (input : List Nat) (w : List Nat) : List Nat :=
  let state := aes_add_round_key (input.take 16) w 0
  let state := (List.range 13).foldl
    (fun st k => aes_add_round_key (aes_mix_columns st (aes_sub_shift st)) w ((k + 1) * 4)) state
  aes_add_round_key (aes_sub_shift state) w 56

/-- Auxiliary to the proofs: the value of a byte list read as a big-endian
number. -/
def be_val (c : List Nat) : Nat := c.foldl (fun acc b => acc * 256 + b) 0

/-- Reference definition: the big-endian 128-bit encoding of a counter value. -/
def counter_block (n : Nat) : List Nat :=
  (List.range 16).map (fun i => (n >>> ((15 - i) * 8)) % 256)

/-- Reference definition, from the words of the specification: the keystream
of section 8, the concatenation of
the AES-256 encryptions of the counters `0, 1, .., blocks - 1` under `key`. -/
def fips197_ctr_stream (key : List Nat) (blocks : Nat) : List Nat :=
  (List.range blocks).foldl
    (fun acc n => acc ++ fips197_cipher (counter_block n) (aes_expand_key key)) []

/-- Reference definition, from the words of the specification: the
little-endian value of the bytes `8 k .. 8 k + 7` of a byte stream, that is
word `k` of the stream when eight bytes are packed with
the first byte as the low byte. -/
def pack_word (stream : List Nat) (k : Nat) : Nat :=
  (List.range 8).foldl (fun acc j => acc + stream.getD (8 * k + j) 0 * 256 ^ j) 0

/-- Reference definition: the first `n` words of the AES-256-CTR stream. -/
def fips197_ctr_words (key : List Nat) (n : Nat) : List Nat :=
  (List.range n).map (pack_word (fips197_ctr_stream key ((n + 1) / 2)))

/-! ## Schedule generation -/

/-- The struct `RoundSchedule`: two arrays of four `int`. -/
structure RoundSchedule where
  step_order : List Int
  variants : List Int
deriving DecidableEq, Repr

/-- The enum `ScheduleMode`. -/
inductive ScheduleMode where
  | MODE_PLAINTEXT
  | MODE_KEY
deriving DecidableEq, Repr

/-- The struct `KeccakSchedule`. -/
structure KeccakSchedule where
  rounds : List RoundSchedule
  mode : ScheduleMode
  seed : List Nat
deriving DecidableEq, Repr

/-- The inner loop `for (s = 0; s < 4; s++)` of `generate_schedule_internal`:
one draw per position, stored as `(int)(variant_val % 7)`. -/
def generate_variants (prng : AES_CTR_PRNG) : List Int × AES_CTR_PRNG :=
  (List.range 4).foldl
    (fun (acc : List Int × AES_CTR_PRNG) _ =>
      let r := aes_ctr_next acc.2
      (acc.1 ++ [Int.ofNat (r.1 % 7)], r.2))
    ([], prng)

/-- The body of the round loop of `generate_schedule_internal`: the record
written to `schedule->rounds[r]` and the generator after its five draws. -/
def generate_round (prng : AES_CTR_PRNG) : RoundSchedule × AES_CTR_PRNG :=
  let step_order : List Int := [0, 1, 2, 3]
  let r := aes_ctr_next prng
  let shuffle_val := r.1
  let step_order :=
    if shuffle_val % 2 = 1 then
      let temp := step_order.getD 0 0
      (step_order.set 0 (step_order.getD 1 0)).set 1 temp
    else step_order
  let vs := generate_variants r.2
  ({ step_order := step_order, variants := vs.1 }, vs.2)

/-- The round loop `for (r = 0; r < 24; r++)` run `n` times. -/
def generate_rounds : Nat → AES_CTR_PRNG → List RoundSchedule
  | 0, _ => []
  | n + 1, prng =>
    let r := generate_round prng
    r.1 :: generate_rounds n r.2

/-- The generator after `n` iterations of the round loop. -/
def generate_rounds_prng : Nat → AES_CTR_PRNG → AES_CTR_PRNG
  | 0, prng => prng
  | n + 1, prng => generate_rounds_prng n (generate_round prng).2

/-- The function `generate_schedule_internal(seed, schedule)`: the schedule
after the call.  Every entry of `rounds` and of `seed` is overwritten; `mode`
is not touched. -/
def generate_schedule_internal (seed : List Nat) (schedule : KeccakSchedule) : KeccakSchedule :=
  let prng := aes_ctr_init seed
  { schedule with
    seed := seed.take 32
    rounds := generate_rounds 24 prng }

/-- The invariant of one `RoundSchedule`. -/
def RoundSchedule.wellFormed (rs : RoundSchedule) : Prop :=
  rs.step_order[2]? = some 2 ∧ rs.step_order[3]? = some 3
    ∧ ((rs.step_order[0]? = some 0 ∧ rs.step_order[1]? = some 1)
        ∨ (rs.step_order[0]? = some 1 ∧ rs.step_order[1]? = some 0))
    ∧ ∀ k, k < 4 → ∃ v : Int, rs.variants[k]? = some v ∧ 0 ≤ v ∧ v ≤ 6

/-- The string literal `DOMAIN_SEPARATOR_MSG`, with its terminator. -/
def DOMAIN_SEPARATOR_MSG : List Nat :=
  "KECCAK_VARIANT_MSG_PSJ".toList.map Char.toNat ++ [0]

/-- The string literal `DOMAIN_SEPARATOR_KEY`, with its terminator. -/
def DOMAIN_SEPARATOR_KEY : List Nat :=
  "KECCAK_VARIANT_KEY_PSJ".toList.map Char.toNat ++ [0]

/-- The C library call `strcpy(dst, src)`: the bytes of `src` up to and
including its terminator, stored at the start of `dst`. -/
def strcpy (dst src : List Nat) : List Nat := memcpy dst 0 src (strlen src + 1)

/-- The C library call `strcat(dst, src)`: the bytes of `src` up to and
including its terminator, stored from the terminator of `dst` on. -/
def strcat (dst src : List Nat) : List Nat := memcpy dst (strlen dst) src (strlen src + 1)

/-- The function `generate_schedule_from_plaintext(plaintext, schedule)`.
`plaintext` is the memory from the pointer on, `beyond` the readable bytes
after the allocation inside `sha256`. -/
def generate_schedule_from_plaintext (beyond : List Nat) (plaintext : List Nat)
    (schedule : KeccakSchedule) : Option KeccakSchedule :=
  let sep_len := strlen DOMAIN_SEPARATOR_MSG
  let msg_len := strlen plaintext
  let combined := List.replicate ((sep_len + msg_len + 1) % SIZE_MOD) 0
  let combined := strcpy combined DOMAIN_SEPARATOR_MSG
  let combined := strcat combined plaintext
  match sha256_string beyond combined with
  | none => none
  | some seed =>
    some (generate_schedule_internal seed { schedule with mode := ScheduleMode.MODE_PLAINTEXT })

/-- The function `generate_schedule_from_binary(data, data_len, schedule)`,
with `data_len = data.length`. -/
def generate_schedule_from_binary (beyond : List Nat) (data : List Nat)
    (schedule : KeccakSchedule) : Option KeccakSchedule :=
  let sep_len := strlen DOMAIN_SEPARATOR_MSG
  let combined_len := (sep_len + data.length) % SIZE_MOD
  let combined := List.replicate combined_len 0
  let combined := memcpy combined 0 DOMAIN_SEPARATOR_MSG sep_len
  let combined := memcpy combined sep_len data data.length
  match sha256 beyond (combined.take combined_len) with
  | none => none
  | some seed =>
    some (generate_schedule_internal seed { schedule with mode := ScheduleMode.MODE_PLAINTEXT })

/-- The function `generate_schedule_from_key(key, schedule)`. -/
def generate_schedule_from_key (beyond : List Nat) (key : List Nat)
    (schedule : KeccakSchedule) : Option KeccakSchedule :=
  let sep_len := strlen DOMAIN_SEPARATOR_KEY
  let key_len := strlen key
  let combined := List.replicate ((sep_len + key_len + 1) % SIZE_MOD) 0
  let combined := strcpy combined DOMAIN_SEPARATOR_KEY
  let combined := strcat combined key
  match sha256_string beyond combined with
  | none => none
  | some seed =>
    some (generate_schedule_internal seed { schedule with mode := ScheduleMode.MODE_KEY })

/-! ## State initialisation -/

/-- The inner loop of `init_state_from_message`: lane `i` assembled from the
bytes `8 i .. 8 i + 7` of `padded` that lie below `padded_len`. -/
def load_lane (padded : List Nat) (plen : Nat) (i : Nat) : Nat :=
  (List.range 8).foldl
    (fun lane j =>
      let byte_idx := i * 8 + j
      if byte_idx < plen then (lane ||| (padded.getD byte_idx 0 <<< (j * 8))) % SIZE_MOD
      else lane)
    0

/-- The function `init_state_from_message(message, msg_len, state)`, with
`msg_len = message.length`.  `stack` is the content of the local array
`padded[1088]` on entry, `state` the 25 lanes on entry; the result is the 25
lanes on return. -/
def init_state_from_message (message : List Nat) (stack : List Nat) (state : List Nat) :
    List Nat :=
  let state := memset state 0 0 25
  let r := apply_sha3_padding message stack 1088
  if r.1 = 0 then state
  else (List.range 17).foldl (fun st i => st.set i (load_lane r.2 r.1 i)) state

/-- The function `init_state_from_plaintext(plaintext, state)`. -/
def init_state_from_plaintext (plaintext : List Nat) (stack : List Nat) (state : List Nat) :
    List Nat :=
  init_state_from_message (plaintext.take (strlen plaintext)) stack state

/-! ## Keccak step variants (`Keccak_All_Updated_Variants.c`)

A state `u64 A[25]` is a list of 25 lanes; lane `(x, y)` is entry `x + 5 y`. -/

/-- A 25-lane state of 64-bit lanes. -/
def IsState (A : List Nat) : Prop := A.length = 25 ∧ ∀ a ∈ A, a < SIZE_MOD

/-- A 16-byte block. -/
def IsBlock (b : List Nat) : Prop := b.length = 16 ∧ ∀ x ∈ b, x < 256

/-- The function `rol64(x, n)`: `(x << n) | (x >> (64 - n))` on `uint64_t`.
For `n = 0` the right operand shifts by the full width; it is taken as zero
here, so that `rol64 x 0 = x`, the convention of the specification. -/
def rol64 (x n : Nat) : Nat := ((x <<< n) % SIZE_MOD) ||| (x >>> (64 - n))

/-- Bitwise complement of a `uint64_t`. -/
def not64 (x : Nat) : Nat := x ^^^ 0xFFFFFFFFFFFFFFFF

/-- The table `PILN`. -/
def PILN : List Nat :=
  [10, 7, 11, 17, 18, 3, 5, 16, 8, 21, 24, 4, 15, 23, 19, 13, 12, 2, 20, 14, 22, 9, 6, 1]

/-- The table `ROTC`. -/
def ROTC : List Nat :=
  [1, 3, 6, 10, 15, 21, 28, 36, 45, 55, 2, 14, 27, 41, 56, 8, 25, 43, 62, 18, 39, 61, 20, 44]

/-- The lane-by-lane XOR of two states (or of two rows of lanes). -/
def state_xor (A B : List Nat) : List Nat := List.zipWith (fun a b => a ^^^ b) A B

/-! ### Theta -/

/-- The first loop of `theta_v0` (and of `theta_v2 .. theta_v5`): the column
parities `C[0..4]`. -/
def theta_C (A : List Nat) : List Nat :=
  (List.range 5).map (fun x =>
    A.getD x 0 ^^^ A.getD (x + 5) 0 ^^^ A.getD (x + 10) 0 ^^^ A.getD (x + 15) 0
      ^^^ A.getD (x + 20) 0)

/-- The first loop of `theta_v1` and `theta_v6`: the weighted column parities. -/
def theta_C_weighted (A : List Nat) : List Nat :=
  (List.range 5).map (fun x =>
    A.getD x 0 ^^^ rol64 (A.getD (x + 5) 0) 7 ^^^ rol64 (A.getD (x + 10) 0) 13
      ^^^ A.getD (x + 15) 0 ^^^ rol64 (A.getD (x + 20) 0) 19)

/-- The second loop of `theta_v0` (and `theta_v1`, and with `k = 2, 3` of
`theta_v3`, `theta_v4`): `D[x] = C[l] ^ rol64(C[r], k)`, `l = (x+4)%5`, `r = (x+1)%5`. -/
def theta_D (k : Nat) (C : List Nat) : List Nat :=
  (List.range 5).map (fun x =>
    let l := (x + 4) % 5
    let r := (x + 1) % 5
    C.getD l 0 ^^^ rol64 (C.getD r 0) k)

/-- The second loop of `theta_v5`: `D[x] = rol64(C[l], 1) ^ rol64(C[r], 1)`. -/
def theta_D_v5 (C : List Nat) : List Nat :=
  (List.range 5).map (fun x =>
    let l := (x + 4) % 5
    let r := (x + 1) % 5
    rol64 (C.getD l 0) 1 ^^^ rol64 (C.getD r 0) 1)

/-- The second loop of `theta_v6`:
`D[x] = C[l] ^ rol64(C[r], 1) ^ rol64(C[(x+2)%5], 5)`. -/
def theta_D_v6 (C : List Nat) : List Nat :=
  (List.range 5).map (fun x =>
    let l := (x + 4) % 5
    let r := (x + 1) % 5
    C.getD l 0 ^^^ rol64 (C.getD r 0) 1 ^^^ rol64 (C.getD ((x + 2) % 5) 0) 5)

/-- The last loop of the theta variants: `for (i = 0; i < 25; i++) A[i] ^= D[i%5]`. -/
def theta_apply (A D : List Nat) : List Nat :=
  (List.range 25).foldl (fun A i => A.set i (A.getD i 0 ^^^ D.getD (i % 5) 0)) A

/-- The function `theta_v0`. -/
def theta_v0 (A : List Nat) : List Nat := theta_apply A (theta_D 1 (theta_C A))

/-- The function `theta_v1`. -/
def theta_v1 (A : List Nat) : List Nat := theta_apply A (theta_D 1 (theta_C_weighted A))

/-- The second loop of `theta_v2`: the row parities `R[0..4]`. -/
def theta_R (A : List Nat) : List Nat :=
  (List.range 5).map (fun y =>
    A.getD (y * 5) 0 ^^^ A.getD (y * 5 + 1) 0 ^^^ A.getD (y * 5 + 2) 0 ^^^ A.getD (y * 5 + 3) 0
      ^^^ A.getD (y * 5 + 4) 0)

/-- The double loop of `theta_v2`: for `x`, `y` in `0 .. 4`,
`A[x + 5*y] ^= Dx ^ rol64(R[(y+1)%5], 1)` with
`Dx = C[(x+4)%5] ^ rol64(C[(x+1)%5], 1)`. -/
def theta_v2_apply (A C R : List Nat) : List Nat :=
  (List.range 5).foldl
    (fun A x =>
      let Dx := C.getD ((x + 4) % 5) 0 ^^^ rol64 (C.getD ((x + 1) % 5) 0) 1
      (List.range 5).foldl
        (fun A y =>
          A.set (x + 5 * y) (A.getD (x + 5 * y) 0 ^^^ (Dx ^^^ rol64 (R.getD ((y + 1) % 5) 0) 1)))
        A)
    A

/-- The function `theta_v2`: column parities `C`, row parities `R` (both of the
state on entry), then the double loop. -/
def theta_v2 (A : List Nat) : List Nat := theta_v2_apply A (theta_C A) (theta_R A)

/-- The function `theta_v3`. -/
def theta_v3 (A : List Nat) : List Nat := theta_apply A (theta_D 2 (theta_C A))

/-- The function `theta_v4`. -/
def theta_v4 (A : List Nat) : List Nat := theta_apply A (theta_D 3 (theta_C A))

/-- The function `theta_v5`. -/
def theta_v5 (A : List Nat) : List Nat := theta_apply A (theta_D_v5 (theta_C A))

/-- The function `theta_v6`. -/
def theta_v6 (A : List Nat) : List Nat := theta_apply A (theta_D_v6 (theta_C_weighted A))

/-! ### Rho-Pi -/

/-- The function `rhopi_v0`: the walk along `PILN` with the running lane `t`,
then `B[0] = A[0]` and the copy of `B` into `A`.  The pair is `(B, t)`. -/
def rhopi_v0 (A : List Nat) : List Nat :=
  let r := (List.range 24).foldl
    (fun (st : List Nat × Nat) i =>
      let j := PILN.getD i 0
      (st.1.set j (rol64 st.2 (ROTC.getD i 0)), A.getD j 0))
    (List.replicate 25 0, A.getD 1 0)
  memcpy A 0 (r.1.set 0 (A.getD 0 0)) 25

/-- The double loop shared by `rhopi_v1 .. rhopi_v6`: for `x`, `y` in `0 .. 4`,
`B[newX + 5*newY] = rol64(A[x + 5*y], rot)` with `newX = y` and `newY`, `rot`
given per variant; then the copy of `B` into `A`. -/
def rhopi_loop (newY rot : Nat → Nat → Nat) (A : List Nat) : List Nat :=
  let B := (List.range 5).foldl
    (fun B x =>
      (List.range 5).foldl
        (fun B y =>
          let newX := y
          let idx := x + 5 * y
          let destIdx := newX + 5 * newY x y
          B.set destIdx (rol64 (A.getD idx 0) (rot x y)))
        B)
    (List.replicate 25 0)
  memcpy A 0 B 25

/-- The table `fib_offsets` of `rhopi_v1`. -/
def fib_offsets : List (List Nat) :=
  [[0, 1, 1, 2, 3], [5, 8, 13, 21, 34], [55, 25, 16, 41, 57], [34, 27, 61, 24, 21],
   [45, 18, 63, 7, 14]]

/-- The table `prime_offsets` of `rhopi_v2`. -/
def prime_offsets : List (List Nat) :=
  [[0, 2, 3, 5, 7], [11, 13, 17, 19, 23], [29, 31, 37, 41, 43], [47, 53, 59, 61, 1],
   [7, 11, 13, 17, 19]]

/-- The table `uniform_offsets` of `rhopi_v3`. -/
def uniform_offsets : List (List Nat) :=
  [[0, 3, 5, 8, 10], [13, 15, 18, 21, 23], [26, 28, 31, 33, 36], [38, 41, 44, 46, 49],
   [51, 54, 56, 59, 62]]

/-- The table `rho` of `rhopi_v4`. -/
def rho : List (List Nat) :=
  [[0, 36, 3, 41, 18], [1, 44, 10, 45, 2], [62, 6, 43, 15, 61], [28, 55, 25, 21, 56],
   [27, 20, 39, 8, 14]]

/-- The table `row_major_offsets` of `rhopi_v6`. -/
def row_major_offsets : List (List Nat) :=
  [[0, 1, 2, 3, 5], [8, 13, 21, 34, 55], [25, 16, 9, 4, 2], [35, 39, 44, 50, 57],
   [15, 22, 30, 39, 49]]

/-- The expression `table[x][y]`. -/
def table_at (table : List (List Nat)) (x y : Nat) : Nat := (table.getD x []).getD y 0

/-- The expression `newY = (2*x + 3*y) % 5` of `rhopi_v1 .. v3, v5, v6`. -/
def newY_std (x y : Nat) : Nat := (2 * x + 3 * y) % 5

/-- The expression `newY = (x + y) % 5` of `rhopi_v4`. -/
def newY_v4 (x y : Nat) : Nat := (x + y) % 5

/-- The expression `rot` of `rhopi_v5`. -/
def rot_v5 (x y : Nat) : Nat := ((x * 7 + y * 11) + (y * 13 + newY_std x y * 17)) % 64

/-- The function `rhopi_v1`. -/
def rhopi_v1 (A : List Nat) : List Nat := rhopi_loop newY_std (table_at fib_offsets) A

/-- The function `rhopi_v2`. -/
def rhopi_v2 (A : List Nat) : List Nat := rhopi_loop newY_std (table_at prime_offsets) A

/-- The function `rhopi_v3`. -/
def rhopi_v3 (A : List Nat) : List Nat := rhopi_loop newY_std (table_at uniform_offsets) A

/-- The function `rhopi_v4`. -/
def rhopi_v4 (A : List Nat) : List Nat := rhopi_loop newY_v4 (table_at rho) A

/-- The function `rhopi_v5`. -/
def rhopi_v5 (A : List Nat) : List Nat := rhopi_loop newY_std rot_v5 A

/-- The function `rhopi_v6`. -/
def rhopi_v6 (A : List Nat) : List Nat := rhopi_loop newY_std (table_at row_major_offsets) A

/-! ### Chi -/

/-- The body of the row loop shared by the chi variants: the snapshot
`temp[0..4]` of row `y`, then `A[x + 5*y] = f temp x` for `x = 0 .. 4`. -/
def chi_row (f : List Nat → Nat → Nat) (A : List Nat) (y : Nat) : List Nat :=
  let temp := (List.range 5).map (fun x => A.getD (x + 5 * y) 0)
  (List.range 5).foldl (fun A x => A.set (x + 5 * y) (f temp x)) A

/-- The right-hand side of `chi_v0`: `temp[x] ^ (~temp[(x+1)%5] & temp[(x+2)%5])`. -/
def chi_v0_lane (temp : List Nat) (x : Nat) : Nat :=
  temp.getD x 0 ^^^ (not64 (temp.getD ((x + 1) % 5) 0) &&& temp.getD ((x + 2) % 5) 0)

/-- The function `chi_v0`. -/
def chi_v0 (A : List Nat) : List Nat := (List.range 5).foldl (chi_row chi_v0_lane) A

/-- The right-hand side of `chi_v1`: `temp[x] ^ (~temp[(x+2)%5] & temp[(x+3)%5])`. -/
def chi_v1_lane (temp : List Nat) (x : Nat) : Nat :=
  temp.getD x 0 ^^^ (not64 (temp.getD ((x + 2) % 5) 0) &&& temp.getD ((x + 3) % 5) 0)

/-- The function `chi_v1`. -/
def chi_v1 (A : List Nat) : List Nat := (List.range 5).foldl (chi_row chi_v1_lane) A

/-! ### Iota -/

/-- The table `canonical_rc` of `iota_v0`. -/
def canonical_rc : List Nat := [
  0x0000000000000001, 0x0000000000008082, 0x800000000000808a,
  0x8000000080008000, 0x000000000000808b, 0x0000000080000001,
  0x8000000080008081, 0x8000000000008009, 0x000000000000008a,
  0x0000000000000088, 0x0000000080008009, 0x000000008000000a,
  0x000000008000808b, 0x800000000000008b, 0x8000000000008089,
  0x8000000000008003, 0x8000000000008002, 0x8000000000000080,
  0x000000000000800a, 0x800000008000000a, 0x8000000080008081,
  0x8000000000008080, 0x0000000080000001, 0x8000000080008008]

/-- The table `iota_phi_constants` of `iota_v1`. -/
def iota_phi_constants : List Nat := [
  0x06BC5545CFC8F594, 0xA4F3CEFF4F1371A9, 0x432B48B8CE5DEDBE, 0xE162C2724DA869D3,
  0x7F9A3C2BCCF2E5E8, 0x1DD1B5E54C3D61FD, 0xBC092F9ECB87DE12, 0x5A40A9584AD25A27,
  0xF8782311CA1CD63C, 0x96AF9CCB49675251, 0x34E71684C8B1CE66, 0xD31E903E47FC4A7B,
  0x715609F7C746C690, 0x0F8D83B1469142A5, 0xADC4FD6AC5DBBEBA, 0x4BFC772445263ACF,
  0xEA33F0DDC470B6E4, 0x886B6A9743BB32F9, 0x26A2E450C305AF0E, 0xC4DA5E0A42502B23,
  0x6311D7C3C19AA738, 0x0149517D40E5234D, 0x9F80CB36C02F9F62, 0x3DB844F03F7A1B77]

/-- The table `ca_constants` of `iota_v2`. -/
def ca_constants : List Nat := [
  0xDCC593AE756195AB, 0xF0F15C12C71B6808, 0xFBA71D7064679F81,
  0xFD96E0B1B18ED95F, 0xDADBDCBB100372CB, 0xC987C0B67909F069,
  0x64BAC1A452EBEC40, 0xF51E968D1E10F1E8, 0x4A2AC120270D9DF9,
  0x03B893064E487D12, 0x0374C9C06FA50F63, 0xA1611E8A0B618D79,
  0x5EA41C38037E4E84, 0xE1409E0CB3EE025F, 0x9048AD54BC95DF4F,
  0xCC8940DA3D0FC244, 0x80383A87FC613D0F, 0x77438338845FAF78,
  0xB94C598B703659EC, 0xCA6F5BBCF1DA3800, 0x5C9DEC36444E0AA3,
  0x1010402D5F031AA6, 0x2DD1A27321830397, 0x58FEFD9FAA23983B]

/-- The table `sha256_style_constants` of `iota_v3`. -/
def sha256_style_constants : List Nat := [
  0x428A2F98D728AE22, 0x7137449123EF65CD, 0xB5C0FBCFEC4D3B2F,
  0xE9B5DBA58189DBBC, 0x3956C25BF348B538, 0x59F111F1B605D019,
  0x923F82A4AF194F9B, 0xAB1C5ED5DA6D8118, 0xD807AA98A3030242,
  0x12835B0145706FBE, 0x243185BE4EE4B28C, 0x550C7DC3D5FFB4E2,
  0x72BE5D74F27B896F, 0x80DEB1FE3B1696B1, 0x9BDC06A725C71235,
  0xC19BF174CF692694, 0xE49B69C19EF14AD2, 0xEFBE4786384F25E3,
  0x0FC19DC68B8CD5B5, 0x240CA1CC77AC9C65, 0x2DE92C6F592B0275,
  0x4A7484AA6EA6E483, 0x5CB0A9DCBD41FBD4, 0x76F988DA831153B5]

/-- The table `pi_constants` of `iota_v4`. -/
def pi_constants : List Nat := [
  0x243F6A8885A308D3, 0x13198A2E03707344, 0xA4093822299F31D0,
  0x082EFA98EC4E6C89, 0x452821E638D01377, 0xBE5466CF34E90C6C,
  0xC0AC29B7C97C50DD, 0x3F84D5B5B5470917, 0x9216D5D98979FB1B,
  0xD1310BA698DFB5AC, 0x2FFD72DBD01ADFB7, 0xB8E1AFED6A267E96,
  0xBA7C9045F12C7F99, 0x24A19947B3916CF7, 0x0801F2E2858EFC16,
  0x636920D871574E69, 0xA458FEA3F4933D7E, 0x0D95748F728EB658,
  0x718BCD5882154AEE, 0x7B54A41DC25A59B5, 0x9C30D5392AF26013,
  0xC5D1B023286085F0, 0xCA417918B8DB38EF, 0x8E79DCB0603A180E]

/-- The table `e_constants` of `iota_v5`. -/
def e_constants : List Nat := [
  0x2B7E151628AED2A6, 0xABF7158809CF4F3C, 0x762E7160F38B4DA5,
  0x6A784D9045190CFE, 0xF324E7738926CFBE, 0x5F4BF8D8D8C31D76,
  0x3DA06C80ABB1185E, 0xB4F7C7B5757F5958, 0x490CFD47D7C19BB4,
  0x2158D9554F7B46BC, 0xED55C4D79FD5F24D, 0x6613C31C3839A2DD,
  0xF8A9A276BCFBFA1C, 0x877C56284DAB79CD, 0x4C2B3293D20E9E5E,
  0xA0248876229C6C1D, 0xD41244D6DA212011, 0x19A4C58DC8544D65,
  0xD19D99D435061763, 0x3E1F0E42D76632C0, 0x24AA23A41031E7E4,
  0xE08F11559139D499, 0x1C8340A5A3068E4C, 0x5466861D07C09362]

/-- Reference definition, from FIPS 202 (Algorithm 5, step 3): one step of the
LFSR on `R[0..7]`: prepend a zero bit, XOR `R[8]` into `R[0]`, `R[4]`, `R[5]`,
`R[6]`, and truncate to eight bits. -/
def fips202_rc_step (R : List Bool) : List Bool :=
  let R9 := false :: R
  let r8 := R9.getD 8 false
  [xor (R9.getD 0 false) r8, R9.getD 1 false, R9.getD 2 false, R9.getD 3 false,
   xor (R9.getD 4 false) r8, xor (R9.getD 5 false) r8, xor (R9.getD 6 false) r8,
   R9.getD 7 false]

/-- Reference definition, from FIPS 202 (Algorithm 5): the bit `rc(t)`. -/
def fips202_rc (t : Nat) : Bool :=
  if t % 255 = 0 then true
  else
    ((List.range (t % 255)).foldl (fun R _ => fips202_rc_step R)
      [true, false, false, false, false, false, false, false]).getD 0 false

/-- The row of five lanes that one row step of `chi_v0` stores, from the
snapshot `temp`. -/
def chi_v0_row (temp : List Nat) : List Nat := (List.range 5).map (chi_v0_lane temp)

/-- Auxiliary to the proofs: the destination index `newX + 5*newY` of the
source index `idx = x + 5*y` in the rho-pi loop. -/
def rhopi_dest (newY : Nat → Nat → Nat) (idx : Nat) : Nat :=
  idx / 5 + 5 * newY (idx % 5) (idx / 5)

/-- The statement `A[0] ^= c` that ends every iota variant. -/
def iota_xor (A : List Nat) (c : Nat) : List Nat := A.set 0 (A.getD 0 0 ^^^ c)

/-- The function `iota_v0`. -/
def iota_v0 (A : List Nat) (round : Nat) : List Nat := iota_xor A (canonical_rc.getD round 0)

/-- The function `iota_v1`. -/
def iota_v1 (A : List Nat) (round : Nat) : List Nat :=
  iota_xor A (iota_phi_constants.getD round 0)

/-- The function `iota_v2`. -/
def iota_v2 (A : List Nat) (round : Nat) : List Nat := iota_xor A (ca_constants.getD round 0)

/-- The function `iota_v3`. -/
def iota_v3 (A : List Nat) (round : Nat) : List Nat :=
  iota_xor A (sha256_style_constants.getD round 0)

/-- The function `iota_v4`. -/
def iota_v4 (A : List Nat) (round : Nat) : List Nat := iota_xor A (pi_constants.getD round 0)

/-- The function `iota_v5`. -/
def iota_v5 (A : List Nat) (round : Nat) : List Nat := iota_xor A (e_constants.getD round 0)

/-- One iteration of the loop of `iota_v6`. -/
def lfsr_step (lfsr : Nat) : Nat :=
  if lfsr &&& 0x8000000000000000 ≠ 0 then ((lfsr <<< 1) % SIZE_MOD) ^^^ 0x000000000000001B
  else (lfsr <<< 1) % SIZE_MOD

/-- The value of `lfsr` when the loop `for (i = 0; i <= round; i++)` of
`iota_v6` ends. -/
def iota_v6_lfsr (round : Nat) : Nat :=
  (List.range (round + 1)).foldl (fun lfsr _ => lfsr_step lfsr) 0x243F6A8885A308D3

/-- The function `iota_v6`. -/
def iota_v6 (A : List Nat) (round : Nat) : List Nat := iota_xor A (iota_v6_lfsr round)

/-! ## Reference definitions for the key expansion (FIPS-197) -/

/-- Reference definition, from the words of FIPS-197 (section 4.2.1): `xtime`, the
product of a byte and `x` in GF(2^8) modulo `m(x) = x^8 + x^4 + x^3 + x + 1`: the
byte shifted left by one bit, XORed with `0x1b` when bit 7 of the byte was set. -/
def fips197_xtime (b : Nat) : Nat := ((2 * b) % 256) ^^^ ((b / 128) * 0x1b)

/-- Reference definition, from the words of FIPS-197 (section 4.2.1): the product
of two bytes in GF(2^8), the sum (XOR) of the multiples `x^i a` over the bits `i`
set in `b`, each multiple obtained by `i` applications of `xtime`. -/
def fips197_gf_mul (a b : Nat) : Nat :=
  (List.range 8).foldl (fun acc i => acc ^^^ ((b / 2 ^ i) % 2) * fips197_xtime^[i] a) 0

/-- Reference definition, from the words of FIPS-197 (section 5.1.1): the
multiplicative inverse of a byte in GF(2^8), with `0` sent to itself. The
non-zero bytes form a group of order 255, so the inverse of `b` is
`b^254 = b^2 b^4 b^8 b^16 b^32 b^64 b^128`. -/
def fips197_gf_inv (b : Nat) : Nat :=
  let b2 := fips197_gf_mul b b
  let b4 := fips197_gf_mul b2 b2
  let b8 := fips197_gf_mul b4 b4
  let b16 := fips197_gf_mul b8 b8
  let b32 := fips197_gf_mul b16 b16
  let b64 := fips197_gf_mul b32 b32
  let b128 := fips197_gf_mul b64 b64
  fips197_gf_mul b2 (fips197_gf_mul b4 (fips197_gf_mul b8 (fips197_gf_mul b16
    (fips197_gf_mul b32 (fips197_gf_mul b64 b128)))))

/-- Reference definition, from the words of FIPS-197 (section 5.1.1): the affine
transformation `b'_i = b_i + b_(i+4) + b_(i+5) + b_(i+6) + b_(i+7) + c_i` over
GF(2), indices modulo 8, with `c = 0x63`. -/
def fips197_affine (b : Nat) : Nat :=
  (List.range 8).foldl
    (fun acc i =>
      if xor (b.testBit i) (xor (b.testBit ((i + 4) % 8)) (xor (b.testBit ((i + 5) % 8))
          (xor (b.testBit ((i + 6) % 8)) (xor (b.testBit ((i + 7) % 8))
            (Nat.testBit 0x63 i)))))
      then acc + 2 ^ i else acc)
    0

/-- Reference definition, from the words of FIPS-197 (section 5.1.1): the S-box,
the inverse in GF(2^8) followed by the affine transformation. -/
def fips197_sbox (b : Nat) : Nat := fips197_affine (fips197_gf_inv b)

/-- Reference definition: the word `[a0, a1, a2, a3]` of FIPS-197 as a 32-bit
number, `a0` being the most significant byte. -/
def fips197_word (a0 a1 a2 a3 : Nat) : Nat := a0 * 2 ^ 24 + a1 * 2 ^ 16 + a2 * 2 ^ 8 + a3

/-- Reference definition: byte `a_k` (`k = 0 .. 3`) of a word `[a0, a1, a2, a3]`. -/
def fips197_byte (w k : Nat) : Nat := (w / 2 ^ (8 * (3 - k))) % 256

/-- Reference definition, from the words of FIPS-197 (section 5.2): `RotWord`
sends `[a0, a1, a2, a3]` to `[a1, a2, a3, a0]`. -/
def fips197_rot_word (w : Nat) : Nat :=
  fips197_word (fips197_byte w 1) (fips197_byte w 2) (fips197_byte w 3) (fips197_byte w 0)

/-- Reference definition, from the words of FIPS-197 (section 5.2): `SubWord`
applies the S-box to each of the four bytes of a word. -/
def fips197_sub_word (w : Nat) : Nat :=
  fips197_word (fips197_sbox (fips197_byte w 0)) (fips197_sbox (fips197_byte w 1))
    (fips197_sbox (fips197_byte w 2)) (fips197_sbox (fips197_byte w 3))

/-- Reference definition, from the words of FIPS-197 (section 5.2): the byte
`x^(j-1)` of GF(2^8), the first byte of the round constant `Rcon[j]`, whose other
three bytes are zero. -/
def fips197_rcon (j : Nat) : Nat := fips197_xtime^[j - 1] 1

/-! # Theorems -/

/-! ## Padding -/

theorem padded_len_eq (n : Nat) (h : n + 145 < SIZE_MOD) :
    padded_len n = ((n + 9) / 136 + 1) * 136 := by
  unfold padded_len rate_bytes
  unfold SIZE_MOD at *
  have h1 : (n + 1 + 8) % 2 ^ 64 = n + 9 := Nat.mod_eq_of_lt (by omega)
  rw [h1]
  apply Nat.mod_eq_of_lt
  have := Nat.div_mul_le_self (n + 9) 136
  omega

theorem padded_len_bounds (n : Nat) (h : n + 145 < SIZE_MOD) :
    n + 10 ≤ padded_len n ∧ padded_len n ≤ n + 145 ∧ padded_len n % 136 = 0 := by
  rw [padded_len_eq n h]
  refine ⟨?_, ?_, ?_⟩
  · have := Nat.div_add_mod (n + 9) 136
    have := Nat.mod_lt (n + 9) (show 136 > 0 by norm_num)
    omega
  · have := Nat.div_mul_le_self (n + 9) 136
    omega
  · exact Nat.mul_mod_left _ _

theorem set_append_cons (xs ys : List Nat) (a b : Nat) :
    (xs ++ a :: ys).set xs.length b = xs ++ b :: ys := by
  induction xs with
  | nil => rfl
  | cons x xs ih => simp [ih]

theorem getD_append_cons (xs ys : List Nat) (a d : Nat) :
    (xs ++ a :: ys).getD xs.length d = a := by
  induction xs with
  | nil => rfl
  | cons x xs ih => simpa using ih

theorem replicate_two_ends (m : Nat) (a : Nat) :
    List.replicate (m + 2) a = a :: (List.replicate m a ++ [a]) := by
  rw [List.replicate_succ]
  congr 1
  exact List.replicate_succ' m a

/-- The buffer that a successful call of `apply_sha3_padding` leaves, in closed form. -/
theorem apply_sha3_padding_buffer (message padded : List Nat) (max_padded_len : Nat)
    (hn : message.length + 145 < SIZE_MOD)
    (hfit : padded_len message.length ≤ max_padded_len) :
    apply_sha3_padding message padded max_padded_len =
      (padded_len message.length,
        message ++ 0x06 :: (List.replicate (padded_len message.length - message.length - 2) 0
          ++ 0x80 :: padded.drop (padded_len message.length))) := by
  obtain ⟨h1, h2, -⟩ := padded_len_bounds message.length hn
  generalize hL : padded_len message.length = L at *
  obtain ⟨m, hm⟩ : ∃ m, L = message.length + (m + 2) := ⟨L - message.length - 2, by omega⟩
  have hm2 : L - message.length - 2 = m := by omega
  have hp2 : memcpy (memset padded 0 0 L) 0 message message.length
      = message ++ 0 :: (List.replicate m 0 ++ 0 :: padded.drop L) := by
    simp only [memset, memcpy, List.take_zero, List.nil_append, Nat.zero_add, List.take_length]
    congr 1
    rw [List.drop_append_of_le_length (by simp; omega), List.drop_replicate]
    have : L - message.length = m + 2 := by omega
    rw [this, replicate_two_ends]
    simp
  have hlast : L - 1 = (message ++ 6 :: List.replicate m 0).length := by
    simp; omega
  unfold apply_sha3_padding
  simp only [hL, gt_iff_lt, Nat.not_lt.mpr hfit, if_false, hp2, hm2]
  congr 1
  rw [set_append_cons]
  have e : message ++ 6 :: (List.replicate m 0 ++ 0 :: List.drop L padded)
      = (message ++ 6 :: List.replicate m 0) ++ 0 :: List.drop L padded := by simp
  rw [e, hlast, getD_append_cons, set_append_cons]
  simp

theorem apply_sha3_padding_fail (message padded : List Nat) (max_padded_len : Nat)
    (h : padded_len message.length > max_padded_len) :
    apply_sha3_padding message padded max_padded_len = (0, padded) := by
  unfold apply_sha3_padding
  simp only [h, if_true]

/-- Entry `i` of a buffer of the form message, `0x06`, zeros, `0x80`, rest. -/
theorem padded_form_getElem? (message rest : List Nat) (m i : Nat) :
    (message ++ 0x06 :: (List.replicate m 0 ++ 0x80 :: rest))[i]?
      = if i < message.length then message[i]?
        else if i = message.length then some 0x06
        else if i < message.length + 1 + m then some 0
        else if i = message.length + 1 + m then some 0x80
        else rest[i - (message.length + 2 + m)]? := by
  by_cases c1 : i < message.length
  · rw [List.getElem?_append_left c1, if_pos c1]
  · rw [List.getElem?_append_right (by omega), if_neg c1]
    obtain ⟨k, rfl⟩ : ∃ k, i = message.length + k := ⟨i - message.length, by omega⟩
    rw [Nat.add_sub_cancel_left]
    cases k with
    | zero => simp
    | succ k =>
      rw [if_neg (by omega), List.getElem?_cons_succ]
      by_cases c2 : k < m
      · rw [List.getElem?_append_left (by simpa using c2), if_pos (by omega)]
        simp [List.getElem?_replicate, c2]
      · rw [List.getElem?_append_right (by simpa using c2), if_neg (by omega)]
        simp only [List.length_replicate]
        obtain ⟨j, rfl⟩ : ∃ j, k = m + j := ⟨k - m, by omega⟩
        rw [Nat.add_sub_cancel_left]
        cases j with
        | zero => rw [if_pos (by omega)]; simp
        | succ j =>
          rw [if_neg (by omega), List.getElem?_cons_succ]
          congr 1
          omega

/-! ## Claims on `apply_sha3_padding` -/

/-- C1, on the code: for a 127-byte message (127 + 9 = 136) and a buffer of 272
bytes the function returns 272, while the ceiling formula of the specification
gives 136, the length of the one-block SHA3-256 padding; with a buffer of 136
bytes, which holds that padding, the function fails and returns 0. -/
theorem C1_length_is_not_the_ceiling :
    (apply_sha3_padding (List.replicate 127 0) (List.replicate 272 0) 272).1 = 272
      ∧ spec_padded_len 127 = 136
      ∧ apply_sha3_padding (List.replicate 127 0) (List.replicate 136 0) 136
          = (0, List.replicate 136 0) := by
  decide!

/-- The length that the code returns: for every message of length `n` and every
buffer that holds the result, `apply_sha3_padding` returns
`(floor((n + 9) / 136) + 1) * 136`; this departs from the ceiling formula of the
specification exactly when `n + 9` is a multiple of 136. -/
theorem padded_length_floor_formula (message padded : List Nat) (max_padded_len : Nat)
    (hn : message.length + 145 < SIZE_MOD)
    (hfit : padded_len message.length ≤ max_padded_len) :
    (apply_sha3_padding message padded max_padded_len).1
        = ((message.length + 9) / 136 + 1) * 136
      ∧ ((apply_sha3_padding message padded max_padded_len).1 = spec_padded_len message.length
          ↔ ¬ 136 ∣ message.length + 9) := by
  rw [apply_sha3_padding_buffer message padded max_padded_len hn hfit]
  simp only [padded_len_eq message.length hn, spec_padded_len]
  refine ⟨trivial, ?_⟩
  rw [Nat.dvd_iff_mod_eq_zero]
  omega

/-- The returned length at a 3-byte message: 136, as the ceiling formula says. -/
theorem padded_length_floor_formula_at_3 :
    (apply_sha3_padding [1, 2, 3] (List.replicate 136 0) 136).1 = ((3 + 9) / 136 + 1) * 136
      ∧ ((apply_sha3_padding [1, 2, 3] (List.replicate 136 0) 136).1 = spec_padded_len 3
          ↔ ¬ 136 ∣ 3 + 9) :=
  padded_length_floor_formula [1, 2, 3] (List.replicate 136 0) 136 (by decide) (by decide)

/-- C6: the code at a 135-byte message.  The returned length is 272, not 136;
byte 135 is `0x06`, not `0x86`; the final `0x80` is byte 271. -/
theorem C6_padding_of_135_bytes :
    (apply_sha3_padding (List.replicate 135 0x61) (List.replicate 1088 0) 1088).1 = 272
      ∧ (apply_sha3_padding (List.replicate 135 0x61) (List.replicate 1088 0) 1088).2[135]?
          = some 0x06
      ∧ (apply_sha3_padding (List.replicate 135 0x61) (List.replicate 1088 0) 1088).2[271]?
          = some 0x80 := by
  decide!

/-- C7: for every message of length `n` and every buffer that holds the
returned length `L`, after `apply_sha3_padding` the bytes `0 .. n-1` are the
message, byte `n` is `0x06`, the bytes `n+1 .. L-2` are `0x00`, byte `L-1` is
`0x80`; the buffer keeps its size and its bytes from `L` on. -/
theorem C7_padding_contents (message padded : List Nat) (max_padded_len : Nat)
    (hn : message.length + 145 < SIZE_MOD)
    (hfit : padded_len message.length ≤ max_padded_len)
    (hbuf : max_padded_len ≤ padded.length) :
    (apply_sha3_padding message padded max_padded_len).1 = padded_len message.length
      ∧ (∀ i, i < message.length →
          (apply_sha3_padding message padded max_padded_len).2[i]? = message[i]?)
      ∧ (apply_sha3_padding message padded max_padded_len).2[message.length]? = some 0x06
      ∧ (∀ i, message.length < i → i + 1 < padded_len message.length →
          (apply_sha3_padding message padded max_padded_len).2[i]? = some 0x00)
      ∧ (apply_sha3_padding message padded max_padded_len).2[padded_len message.length - 1]?
          = some 0x80
      ∧ (apply_sha3_padding message padded max_padded_len).2.length = padded.length
      ∧ (∀ i, padded_len message.length ≤ i →
          (apply_sha3_padding message padded max_padded_len).2[i]? = padded[i]?) := by
  obtain ⟨h1, h2, -⟩ := padded_len_bounds message.length hn
  rw [apply_sha3_padding_buffer message padded max_padded_len hn hfit]
  simp only [padded_form_getElem?]
  refine ⟨trivial, ?_, ?_, ?_, ?_, ?_, ?_⟩
  · intro i hi
    rw [if_pos hi]
  · simp
  · intro i hi1 hi2
    rw [if_neg (by omega), if_neg (by omega), if_pos (by omega)]
  · rw [if_neg (by omega), if_neg (by omega), if_neg (by omega), if_pos (by omega)]
  · simp only [List.length_append, List.length_cons, List.length_replicate, List.length_drop]
    omega
  · intro i hi
    rw [if_neg (by omega), if_neg (by omega), if_neg (by omega), if_neg (by omega),
      List.getElem?_drop]
    congr 1
    omega

/-- C7 at the empty message (length 136, byte 0 is `0x06`, byte 135 is `0x80`,
the bytes between are zero) and at a 136-byte message (length 272). -/
theorem C7_padding_contents_witness :
    ((apply_sha3_padding [] (List.replicate 136 0xff) 136).1 = 136
      ∧ (apply_sha3_padding [] (List.replicate 136 0xff) 136).2[0]? = some 0x06
      ∧ (∀ i, 0 < i → i + 1 < 136 →
          (apply_sha3_padding [] (List.replicate 136 0xff) 136).2[i]? = some 0x00)
      ∧ (apply_sha3_padding [] (List.replicate 136 0xff) 136).2[135]? = some 0x80)
    ∧ (apply_sha3_padding (List.replicate 136 0x61) (List.replicate 272 0xff) 272).1 = 272 := by
  have h0 := C7_padding_contents [] (List.replicate 136 0xff) 136
    (by decide!) (by decide!) (by decide!)
  have h136 := C7_padding_contents (List.replicate 136 0x61) (List.replicate 272 0xff) 272
    (by decide!) (by decide!) (by decide!)
  have e0 : padded_len ([] : List Nat).length = 136 := by decide!
  have e136 : padded_len (List.replicate 136 0x61).length = 272 := by decide!
  rw [e0] at h0
  rw [e136] at h136
  exact ⟨⟨h0.1, h0.2.2.1, h0.2.2.2.1, h0.2.2.2.2.1⟩, h136.1⟩

/-- C8: `apply_sha3_padding` returns 0 if and only if the padded length it
computes exceeds `max_padded_len`; when it does, the buffer is unchanged; when
it does not, the returned length is a positive multiple of 136 that does not
exceed `max_padded_len`. -/
theorem C8_padding_failure (message padded : List Nat) (max_padded_len : Nat)
    (hn : message.length + 145 < SIZE_MOD) :
    ((apply_sha3_padding message padded max_padded_len).1 = 0
        ↔ padded_len message.length > max_padded_len)
      ∧ (padded_len message.length > max_padded_len →
          (apply_sha3_padding message padded max_padded_len).2 = padded)
      ∧ (padded_len message.length ≤ max_padded_len →
          0 < (apply_sha3_padding message padded max_padded_len).1
          ∧ 136 ∣ (apply_sha3_padding message padded max_padded_len).1
          ∧ (apply_sha3_padding message padded max_padded_len).1 ≤ max_padded_len) := by
  obtain ⟨h1, h2, h3⟩ := padded_len_bounds message.length hn
  refine ⟨⟨?_, ?_⟩, ?_, ?_⟩
  · intro h0
    by_contra hle
    rw [apply_sha3_padding_buffer message padded max_padded_len hn (by omega)] at h0
    simp only at h0
    omega
  · intro h
    rw [apply_sha3_padding_fail message padded max_padded_len h]
  · intro h
    rw [apply_sha3_padding_fail message padded max_padded_len h]
  · intro h
    rw [apply_sha3_padding_buffer message padded max_padded_len hn h]
    exact ⟨by simp only; omega, Nat.dvd_of_mod_eq_zero h3, h⟩

/-- C8 at a 3-byte message: a 100-byte buffer is refused and left as it was, a
136-byte buffer is accepted. -/
theorem C8_padding_failure_witness :
    apply_sha3_padding [1, 2, 3] (List.replicate 100 0xff) 100 = (0, List.replicate 100 0xff)
      ∧ (apply_sha3_padding [1, 2, 3] (List.replicate 136 0xff) 136).1 = 136 := by
  have h100 := C8_padding_failure [1, 2, 3] (List.replicate 100 0xff) 100 (by decide!)
  have h136 := C8_padding_failure [1, 2, 3] (List.replicate 136 0xff) 136 (by decide!)
  have e : padded_len ([1, 2, 3] : List Nat).length = 136 := by decide!
  rw [e] at h100 h136
  refine ⟨Prod.ext (h100.1.mpr (by decide!)) (h100.2.1 (by decide!)), ?_⟩
  have h := h136.2.2 (by decide!)
  have hd := h.2.1
  have hp := h.1
  have hl := h.2.2
  omega

/-! ## State initialisation -/

/-- One step of the lane loop: OR-ing a byte above the bits already set adds it. -/
theorem lane_or_step (acc b j : Nat) (hacc : acc < 2 ^ (8 * j)) (hb : b < 256) (hj : j < 8) :
    (acc ||| (b <<< (j * 8))) % SIZE_MOD = acc + b * 256 ^ j
      ∧ acc + b * 256 ^ j < 2 ^ (8 * (j + 1)) := by
  have e256 : (256 : Nat) ^ j = 2 ^ (8 * j) := by
    rw [show (256 : Nat) = 2 ^ 8 by norm_num, ← Nat.pow_mul]
  have hor : acc ||| (b <<< (j * 8)) = acc + b * 256 ^ j := by
    rw [Nat.shiftLeft_eq, Nat.mul_comm j 8, Nat.or_comm, Nat.mul_comm b,
      ← Nat.mul_add_lt_is_or hacc b, e256]
    ring
  have hlt : acc + b * 256 ^ j < 2 ^ (8 * (j + 1)) := by
    rw [e256, show 8 * (j + 1) = 8 * j + 8 by ring, Nat.pow_add]
    have : b * 2 ^ (8 * j) ≤ 255 * 2 ^ (8 * j) := Nat.mul_le_mul_right _ (by omega)
    norm_num
    omega
  refine ⟨?_, hlt⟩
  rw [hor]
  apply Nat.mod_eq_of_lt
  apply lt_of_lt_of_le hlt
  unfold SIZE_MOD
  apply Nat.pow_le_pow_right (by norm_num)
  omega

/-- The lane loop of `init_state_from_message` computes the little-endian
value of its eight bytes. -/
theorem load_lane_upto (padded : List Nat) (plen i : Nat)
    (hb : ∀ j, j < 8 → padded.getD (i * 8 + j) 0 < 256) (hp : i * 8 + 8 ≤ plen) (n : Nat)
    (hn : n ≤ 8) :
    (List.range n).foldl
        (fun lane j =>
          let byte_idx := i * 8 + j
          if byte_idx < plen then (lane ||| (padded.getD byte_idx 0 <<< (j * 8))) % SIZE_MOD
          else lane) 0
      = (List.range n).foldl (fun acc j => acc + padded.getD (8 * i + j) 0 * 256 ^ j) 0
    ∧ (List.range n).foldl (fun acc j => acc + padded.getD (8 * i + j) 0 * 256 ^ j) 0
        < 2 ^ (8 * n) := by
  induction n with
  | zero => simp
  | succ n ih =>
    obtain ⟨ih1, ih2⟩ := ih (by omega)
    simp only [List.range_succ, List.foldl_append, List.foldl_cons, List.foldl_nil]
    rw [ih1]
    have hlt : i * 8 + n < plen := by omega
    simp only [hlt, if_true]
    have e : 8 * i + n = i * 8 + n := by ring
    rw [e]
    obtain ⟨s1, s2⟩ := lane_or_step _ (padded.getD (i * 8 + n) 0) n ih2 (hb n (by omega)) (by omega)
    exact ⟨s1, s2⟩

theorem load_lane_eq_pack_word (padded : List Nat) (plen i : Nat)
    (hb : ∀ j, j < 8 → padded.getD (i * 8 + j) 0 < 256) (hp : i * 8 + 8 ≤ plen) :
    load_lane padded plen i = pack_word padded i :=
  (load_lane_upto padded plen i hb hp 8 (le_refl 8)).1

/-- Entry `i` after the loop `for (k = 0; k < n; k++) st[k] = f k`. -/
theorem foldl_set_range_getElem? (f : Nat → Nat) (st : List Nat) (n i : Nat) :
    ((List.range n).foldl (fun s k => s.set k (f k)) st)[i]?
      = if i < n ∧ i < st.length then some (f i) else st[i]? := by
  induction n with
  | zero => simp
  | succ n ih =>
    simp only [List.range_succ, List.foldl_append, List.foldl_cons, List.foldl_nil,
      List.getElem?_set, ih]
    have hl : ((List.range n).foldl (fun s k => s.set k (f k)) st).length = st.length := by
      clear ih
      induction n with
      | zero => simp
      | succ n ih2 => simp [List.range_succ, List.foldl_append, ih2]
    rw [hl]
    by_cases c1 : n = i
    · subst c1
      by_cases c2 : n < st.length
      · simp [c2]
      · simp [c2]
        omega
    · simp only [c1, if_false]
      by_cases c3 : i < n
      · have : i < n + 1 := by omega
        simp [c3, this]
      · have : ¬ i < n + 1 := by omega
        simp [c3, this]

theorem foldl_set_range_length (f : Nat → Nat) (st : List Nat) (n : Nat) :
    ((List.range n).foldl (fun s k => s.set k (f k)) st).length = st.length := by
  induction n with
  | zero => simp
  | succ n ih => simp [List.range_succ, List.foldl_append, ih]

/-- The bytes of the first rate block that `apply_sha3_padding` leaves are bytes. -/
theorem padding_output_byte_lt (message padded : List Nat) (max_padded_len : Nat)
    (hbytes : ∀ b ∈ message, b < 256)
    (hn : message.length + 145 < SIZE_MOD)
    (hfit : padded_len message.length ≤ max_padded_len) (i : Nat)
    (hi : i < padded_len message.length) :
    (apply_sha3_padding message padded max_padded_len).2.getD i 0 < 256 := by
  obtain ⟨h1, h2, -⟩ := padded_len_bounds message.length hn
  rw [apply_sha3_padding_buffer message padded max_padded_len hn hfit]
  simp only [List.getD_eq_getElem?_getD, padded_form_getElem?]
  by_cases c1 : i < message.length
  · rw [if_pos c1, List.getElem?_eq_getElem c1, Option.getD_some]
    exact hbytes _ (List.getElem_mem _)
  · rw [if_neg c1]
    by_cases c2 : i = message.length
    · rw [if_pos c2]; simp
    · rw [if_neg c2]
      by_cases c3 : i < message.length + 1 + (padded_len message.length - message.length - 2)
      · rw [if_pos c3]; simp
      · rw [if_neg c3, if_pos (by omega)]; simp

/-- C5: for every message (of bytes) whose padded length fits the 1088-byte
array, whatever the array holds on entry, `init_state_from_message` returns 25
lanes of which lane `i`, for `i ≤ 16`, is the little-endian value of the bytes
`8 i .. 8 i + 7` of the output of `apply_sha3_padding`, and the lanes
`17 .. 24` are zero. -/
theorem C5_absorbed_state (message stack state : List Nat)
    (hbytes : ∀ b ∈ message, b < 256)
    (hn : message.length + 145 < SIZE_MOD)
    (hfit : padded_len message.length ≤ 1088) (hstate : state.length = 25) :
    (init_state_from_message message stack state).length = 25
      ∧ (∀ i, i ≤ 16 → (init_state_from_message message stack state)[i]?
          = some (pack_word (apply_sha3_padding message stack 1088).2 i))
      ∧ (∀ i, 17 ≤ i → i < 25 → (init_state_from_message message stack state)[i]? = some 0) := by
  obtain ⟨h1, h2, h3⟩ := padded_len_bounds message.length hn
  have hL : (apply_sha3_padding message stack 1088).1 = padded_len message.length := by
    rw [apply_sha3_padding_buffer message stack 1088 hn hfit]
  have h136 : 136 ≤ padded_len message.length := by omega
  have hzero : memset state 0 0 25 = List.replicate 25 0 := by
    simp [memset, List.drop_of_length_le (le_of_eq hstate)]
  have hne : ¬ padded_len message.length = 0 := by omega
  unfold init_state_from_message
  simp only [hL, hne, if_false, hzero]
  refine ⟨?_, ?_, ?_⟩
  · rw [foldl_set_range_length]; simp
  · intro i hi
    rw [foldl_set_range_getElem?, if_pos ⟨by omega, by simp; omega⟩]
    congr 1
    apply load_lane_eq_pack_word
    · intro j hj
      exact padding_output_byte_lt message stack 1088 hbytes hn hfit _ (by omega)
    · omega
  · intro i hi1 hi2
    rw [foldl_set_range_getElem?, if_neg (by omega), List.getElem?_replicate, if_pos hi2]

/-- C5 at the empty message: lane 0 is `0x06`, lane 16 is
`0x8000000000000000`, every other lane is zero. -/
theorem C5_absorbed_state_witness :
    (init_state_from_message [] (List.replicate 1088 0xff) (List.replicate 25 0xff)).length = 25
      ∧ (∀ i, i ≤ 16 →
          (init_state_from_message [] (List.replicate 1088 0xff) (List.replicate 25 0xff))[i]?
            = some (pack_word (apply_sha3_padding [] (List.replicate 1088 0xff) 1088).2 i))
      ∧ init_state_from_message [] (List.replicate 1088 0xff) (List.replicate 25 0xff)
          = [0x06, 0, 0, 0, 0, 0, 0, 0, 0, 0, 0, 0, 0, 0, 0, 0, 0x8000000000000000,
             0, 0, 0, 0, 0, 0, 0, 0] := by
  have h := C5_absorbed_state [] (List.replicate 1088 0xff) (List.replicate 25 0xff)
    (by simp) (by decide!) (by decide!) (by decide!)
  exact ⟨h.1, h.2.1, by decide!⟩

/-! ## Schedule -/

/-- The four variants of a round are the four draws reduced modulo 7. -/
theorem generate_variants_eq (prng : AES_CTR_PRNG) :
    (generate_variants prng).1 =
      [Int.ofNat ((aes_ctr_next prng).1 % 7),
       Int.ofNat ((aes_ctr_next (aes_ctr_next prng).2).1 % 7),
       Int.ofNat ((aes_ctr_next (aes_ctr_next (aes_ctr_next prng).2).2).1 % 7),
       Int.ofNat ((aes_ctr_next (aes_ctr_next (aes_ctr_next (aes_ctr_next prng).2).2).2).1 % 7)] := by
  simp [generate_variants, List.range, List.range.loop]

theorem generate_round_wellFormed (prng : AES_CTR_PRNG) :
    (generate_round prng).1.wellFormed := by
  unfold RoundSchedule.wellFormed generate_round
  simp only [generate_variants_eq]
  refine ⟨?_, ?_, ?_, ?_⟩
  · split <;> rfl
  · split <;> rfl
  · by_cases h : (aes_ctr_next prng).1 % 2 = 1
    · right; simp [h]
    · left; simp [h]
  · intro k hk
    have h7 : ∀ w : Nat, (0 : Int) ≤ Int.ofNat (w % 7) ∧ Int.ofNat (w % 7) ≤ 6 := by
      intro w
      have := Nat.mod_lt w (show 7 > 0 by norm_num)
      constructor
      · exact Int.ofNat_nonneg _
      · simp only [Int.ofNat_eq_coe]; omega
    interval_cases k
    · exact ⟨_, rfl, h7 _⟩
    · exact ⟨_, rfl, h7 _⟩
    · exact ⟨_, rfl, h7 _⟩
    · exact ⟨_, rfl, h7 _⟩

theorem generate_rounds_wellFormed (n : Nat) (prng : AES_CTR_PRNG) (r : Nat) (hr : r < n) :
    ∃ rs, (generate_rounds n prng)[r]? = some rs ∧ rs.wellFormed := by
  induction n generalizing prng r with
  | zero => omega
  | succ n ih =>
    cases r with
    | zero => exact ⟨(generate_round prng).1, by simp [generate_rounds], generate_round_wellFormed prng⟩
    | succ r =>
      obtain ⟨rs, h1, h2⟩ := ih (generate_round prng).2 r (by omega)
      exact ⟨rs, by simpa [generate_rounds] using h1, h2⟩

/-- C4: for every seed and every round `r < 24`, the schedule that
`generate_schedule_internal` produces has a round `r` with `step_order[2] = 2`
(CHI), `step_order[3] = 3` (IOTA), `(step_order[0], step_order[1])` equal to
`(0, 1)` or `(1, 0)`, and every `variants[k]`, `k < 4`, in `0 .. 6`. -/
theorem C4_round_schedule_invariant (seed : List Nat) (schedule : KeccakSchedule) (r : Nat)
    (hr : r < 24) :
    ∃ rs, (generate_schedule_internal seed schedule).rounds[r]? = some rs
      ∧ rs.step_order[2]? = some 2 ∧ rs.step_order[3]? = some 3
      ∧ ((rs.step_order[0]? = some 0 ∧ rs.step_order[1]? = some 1)
          ∨ (rs.step_order[0]? = some 1 ∧ rs.step_order[1]? = some 0))
      ∧ ∀ k, k < 4 → ∃ v : Int, rs.variants[k]? = some v ∧ 0 ≤ v ∧ v ≤ 6 :=
  generate_rounds_wellFormed 24 (aes_ctr_init seed) r hr

/-- C4 at the all-zero seed, round 23. -/
theorem C4_round_schedule_invariant_witness :
    ∃ rs, (generate_schedule_internal (List.replicate 32 0)
              ⟨[], ScheduleMode.MODE_KEY, []⟩).rounds[23]? = some rs
      ∧ rs.step_order[2]? = some 2 ∧ rs.step_order[3]? = some 3
      ∧ ((rs.step_order[0]? = some 0 ∧ rs.step_order[1]? = some 1)
          ∨ (rs.step_order[0]? = some 1 ∧ rs.step_order[1]? = some 0))
      ∧ ∀ k, k < 4 → ∃ v : Int, rs.variants[k]? = some v ∧ 0 ≤ v ∧ v ≤ 6 :=
  C4_round_schedule_invariant (List.replicate 32 0) ⟨[], ScheduleMode.MODE_KEY, []⟩ 23
    (by decide)

/-! ## SHA-256 and AES at concrete inputs -/

/-- C2: the code at the input "abc".  The allocation has 57 bytes and the
block loop reads the bytes 57 .. 63 after it: with nothing readable there the
call has no value, and with seven zero bytes there the digest is
`3859a4ec...`, not the FIPS 180-4 digest `ba7816bf...` that the reference
gives. -/
theorem C2_sha256_abc :
    sha256_total_len 3 = 57
      ∧ sha256 [] [0x61, 0x62, 0x63] = none
      ∧ sha256 [0, 0, 0, 0, 0, 0, 0] [0x61, 0x62, 0x63] = some
          [0x38, 0x59, 0xa4, 0xec, 0x00, 0xdc, 0xbe, 0xd7, 0xc0, 0x1d, 0x4a, 0x46, 0x2d, 0x18,
           0xc1, 0xf4, 0x09, 0x7a, 0x69, 0x0a, 0x1d, 0x4d, 0x45, 0x9b, 0xe4, 0xe5, 0xb6, 0xf5,
           0xa5, 0x94, 0xee, 0x68]
      ∧ fips180_sha256 [0x61, 0x62, 0x63] = some
          [0xba, 0x78, 0x16, 0xbf, 0x8f, 0x01, 0xcf, 0xea, 0x41, 0x41, 0x40, 0xde, 0x5d, 0xae,
           0x22, 0x23, 0xb0, 0x03, 0x61, 0xa3, 0x96, 0x17, 0x7a, 0x9c, 0xb4, 0x10, 0xff, 0x61,
           0xf2, 0x00, 0x15, 0xad] := by
  decide!

/-- C9: the code at the empty input.  The allocation has 57 bytes and the
block loop reads the bytes 57 .. 63 after it: with nothing readable there the
call has no value; with a non-zero byte there the digest is not `e3b0c442...`;
only with seven zero bytes there it is. -/
theorem C9_sha256_empty :
    sha256_total_len 0 = 57
      ∧ sha256 [] [] = none
      ∧ sha256 [1, 0, 0, 0, 0, 0, 0] [] ≠ some
          [0xe3, 0xb0, 0xc4, 0x42, 0x98, 0xfc, 0x1c, 0x14, 0x9a, 0xfb, 0xf4, 0xc8, 0x99, 0x6f,
           0xb9, 0x24, 0x27, 0xae, 0x41, 0xe4, 0x64, 0x9b, 0x93, 0x4c, 0xa4, 0x95, 0x99, 0x1b,
           0x78, 0x52, 0xb8, 0x55]
      ∧ sha256 [0, 0, 0, 0, 0, 0, 0] [] = some
          [0xe3, 0xb0, 0xc4, 0x42, 0x98, 0xfc, 0x1c, 0x14, 0x9a, 0xfb, 0xf4, 0xc8, 0x99, 0x6f,
           0xb9, 0x24, 0x27, 0xae, 0x41, 0xe4, 0x64, 0x9b, 0x93, 0x4c, 0xa4, 0x95, 0x99, 0x1b,
           0x78, 0x52, 0xb8, 0x55] := by
  decide!

/-- C3: the code at the all-zero key.  The first word that `aes_ctr_next`
returns is `0x0d57a27a297480f0`: `aes_encrypt_block` runs 13 rounds and gives
`f08074297aa2570d...` for the zero block, where AES-256 of FIPS-197 (14
rounds) gives `dc95c078a2408989ad48a21492842087`, that is the word
`0x898940a278c095dc`. -/
theorem C3_first_word_zero_key :
    (aes_ctr_next (aes_ctr_init (List.replicate 32 0))).1 = 0x0d57a27a297480f0
      ∧ aes_encrypt_block (List.replicate 16 0) (aes_expand_key (List.replicate 32 0))
          = [0xf0, 0x80, 0x74, 0x29, 0x7a, 0xa2, 0x57, 0x0d,
             0x35, 0x3a, 0xe7, 0x27, 0xcb, 0x3a, 0x66, 0x76]
      ∧ fips197_cipher (List.replicate 16 0) (aes_expand_key (List.replicate 32 0))
          = [0xdc, 0x95, 0xc0, 0x78, 0xa2, 0x40, 0x89, 0x89,
             0xad, 0x48, 0xa2, 0x14, 0x92, 0x84, 0x20, 0x87]
      ∧ fips197_ctr_words (List.replicate 32 0) 1 = [0x898940a278c095dc] := by
  decide!

/-! ## Entry points -/

theorem strlen_of_nul_free (s rest : List Nat) (hs : ∀ b ∈ s, b ≠ 0) :
    strlen (s ++ 0 :: rest) = s.length := by
  unfold strlen
  induction s with
  | nil => simp
  | cons x xs ih =>
    have hx : x ≠ 0 := hs x (List.mem_cons_self _ _)
    have hxs : ∀ b ∈ xs, b ≠ 0 := fun b hb => hs b (List.mem_cons_of_mem _ hb)
    simp [List.takeWhile_cons, hx, ih hxs]

/-- The buffer `combined` after `strcpy(combined, sep); strcat(combined, s)`,
cut at its terminator, is `sep` followed by `s`. -/
theorem strcpy_strcat_take (sep s rest : List Nat)
    (hsep : ∀ b ∈ sep, b ≠ 0) (hs : ∀ b ∈ s, b ≠ 0)
    (hlen : sep.length + s.length + 1 < SIZE_MOD) :
    (strcat (strcpy (List.replicate
        ((strlen (sep ++ [0]) + strlen (s ++ 0 :: rest) + 1) % SIZE_MOD) 0) (sep ++ [0]))
        (s ++ 0 :: rest)).take
      (strlen (strcat (strcpy (List.replicate
        ((strlen (sep ++ [0]) + strlen (s ++ 0 :: rest) + 1) % SIZE_MOD) 0) (sep ++ [0]))
        (s ++ 0 :: rest)))
      = sep ++ s := by
  rw [strlen_of_nul_free sep [] hsep, strlen_of_nul_free s rest hs, Nat.mod_eq_of_lt hlen]
  have h1 : strcpy (List.replicate (sep.length + s.length + 1) 0) (sep ++ [0])
      = sep ++ 0 :: List.replicate s.length 0 := by
    unfold strcpy memcpy
    rw [strlen_of_nul_free sep [] hsep]
    have e : List.take (sep.length + 1) (sep ++ [0]) = sep ++ [0] := by
      apply List.take_of_length_le; simp
    rw [e]
    simp only [List.take_zero, List.nil_append, Nat.zero_add, List.drop_replicate]
    have : sep.length + s.length + 1 - (sep.length + 1) = s.length := by omega
    rw [this]
    simp
  rw [h1]
  have h2 : strcat (sep ++ 0 :: List.replicate s.length 0) (s ++ 0 :: rest)
      = sep ++ (s ++ [0]) := by
    unfold strcat memcpy
    rw [strlen_of_nul_free sep _ hsep, strlen_of_nul_free s rest hs]
    have e1 : List.take sep.length (sep ++ 0 :: List.replicate s.length 0) = sep := by
      rw [List.take_append_of_le_length (le_refl _), List.take_length]
    have e2 : List.take (s.length + 1) (s ++ 0 :: rest) = s ++ [0] := by
      rw [List.take_append_eq_append_take, List.take_of_length_le (by omega)]
      simp
    have e3 : List.drop (sep.length + (s.length + 1)) (sep ++ 0 :: List.replicate s.length 0)
        = [] := by
      apply List.drop_of_length_le; simp
    rw [e1, e2, e3]
    simp
  rw [h2]
  have h3 : sep ++ (s ++ [0]) = (sep ++ s) ++ 0 :: [] := by simp
  have hall : ∀ b ∈ sep ++ s, b ≠ 0 := by
    intro b hb
    rcases List.mem_append.mp hb with h | h
    · exact hsep b h
    · exact hs b h
  rw [h3, strlen_of_nul_free (sep ++ s) [] hall, List.take_append_of_le_length (le_refl _),
    List.take_length]

/-- The buffer `combined` of `generate_schedule_from_binary`. -/
theorem memcpy_memcpy_take (sep data : List Nat) (hsep : ∀ b ∈ sep, b ≠ 0)
    (hlen : sep.length + data.length < SIZE_MOD) :
    (memcpy (memcpy (List.replicate ((strlen (sep ++ [0]) + data.length) % SIZE_MOD) 0) 0
        (sep ++ [0]) (strlen (sep ++ [0]))) (strlen (sep ++ [0])) data data.length).take
      ((strlen (sep ++ [0]) + data.length) % SIZE_MOD)
      = sep ++ data := by
  rw [strlen_of_nul_free sep [] hsep, Nat.mod_eq_of_lt hlen]
  unfold memcpy
  simp only [List.take_zero, List.nil_append, Nat.zero_add, List.drop_replicate,
    List.take_length]
  rw [List.take_append_of_le_length (le_refl _), List.take_length]
  have e1 : List.take sep.length (sep ++ List.replicate (sep.length + data.length - sep.length) 0)
      = sep := by
    rw [List.take_append_of_le_length (le_refl _), List.take_length]
  have e2 : List.drop (sep.length + data.length)
      (sep ++ List.replicate (sep.length + data.length - sep.length) 0) = [] := by
    apply List.drop_of_length_le; simp
  rw [e1, e2]
  simp only [List.append_nil]
  apply List.take_of_length_le
  simp

/-- The digest that `sha256` returns has 32 bytes. -/
theorem sha256_length (beyond input seed : List Nat) (h : sha256 beyond input = some seed) :
    seed.length = 32 := by
  unfold sha256 at h
  rcases hb : sha256_blocks (sha256_padded input ++ beyond) (sha256_total_len input.length)
    with _ | H
  · rw [hb] at h; simp at h
  · rw [hb] at h
    simp only [Option.map_some', Option.some.injEq] at h
    subst h
    simp [sha256_output, List.range, List.range.loop]

/-- The entry points, call by call: for every NUL-free string `s` (stored with
its terminator, whatever follows it) and every byte string `d`, each of the three
entry points returns what `generate_schedule_internal` returns on the value of
its call of `sha256` on the domain separator followed by the input bytes, with
mode PLAINTEXT for the plaintext and binary entry points and KEY for the key
one; the `seed` field of the schedule is that value.  `beyond` is the readable
memory after the allocation of that call of `sha256`. -/
theorem entry_points_compose (beyond s rest d : List Nat) (schedule : KeccakSchedule)
    (hs : ∀ b ∈ s, b ≠ 0) (hslen : s.length + 23 < SIZE_MOD) (hdlen : d.length + 22 < SIZE_MOD) :
    generate_schedule_from_plaintext beyond (s ++ 0 :: rest) schedule
        = (sha256 beyond ("KECCAK_VARIANT_MSG_PSJ".toList.map Char.toNat ++ s)).map
            (fun seed => generate_schedule_internal seed
              { schedule with mode := ScheduleMode.MODE_PLAINTEXT })
      ∧ generate_schedule_from_binary beyond d schedule
        = (sha256 beyond ("KECCAK_VARIANT_MSG_PSJ".toList.map Char.toNat ++ d)).map
            (fun seed => generate_schedule_internal seed
              { schedule with mode := ScheduleMode.MODE_PLAINTEXT })
      ∧ generate_schedule_from_key beyond (s ++ 0 :: rest) schedule
        = (sha256 beyond ("KECCAK_VARIANT_KEY_PSJ".toList.map Char.toNat ++ s)).map
            (fun seed => generate_schedule_internal seed
              { schedule with mode := ScheduleMode.MODE_KEY })
      ∧ ∀ input seed sch, sha256 beyond input = some seed →
          (generate_schedule_internal seed sch).seed = seed
            ∧ (generate_schedule_internal seed sch).mode = sch.mode := by
  have hmsg : ∀ b ∈ "KECCAK_VARIANT_MSG_PSJ".toList.map Char.toNat, b ≠ 0 := by decide
  have hkey : ∀ b ∈ "KECCAK_VARIANT_KEY_PSJ".toList.map Char.toNat, b ≠ 0 := by decide
  have lmsg : ("KECCAK_VARIANT_MSG_PSJ".toList.map Char.toNat).length = 22 := by decide
  have lkey : ("KECCAK_VARIANT_KEY_PSJ".toList.map Char.toNat).length = 22 := by decide
  refine ⟨?_, ?_, ?_, ?_⟩
  · unfold generate_schedule_from_plaintext sha256_string DOMAIN_SEPARATOR_MSG
    simp only []
    rw [strcpy_strcat_take _ s rest hmsg hs (by rw [lmsg]; omega)]
    cases sha256 beyond ("KECCAK_VARIANT_MSG_PSJ".toList.map Char.toNat ++ s) <;> rfl
  · unfold generate_schedule_from_binary DOMAIN_SEPARATOR_MSG
    simp only []
    rw [memcpy_memcpy_take _ d hmsg (by rw [lmsg]; omega)]
    cases sha256 beyond ("KECCAK_VARIANT_MSG_PSJ".toList.map Char.toNat ++ d) <;> rfl
  · unfold generate_schedule_from_key sha256_string DOMAIN_SEPARATOR_KEY
    simp only []
    rw [strcpy_strcat_take _ s rest hkey hs (by rw [lkey]; omega)]
    cases sha256 beyond ("KECCAK_VARIANT_KEY_PSJ".toList.map Char.toNat ++ s) <;> rfl
  · intro input seed sch h
    have hl := sha256_length beyond input seed h
    exact ⟨List.take_of_length_le (le_of_eq hl), rfl⟩

/-- Claim C10, on the code: the seed of the entry points is not the SHA-256 digest
of the separator followed by the input, and the input does not determine it. For
the input `abc`, with seven zero bytes after the buffer of `sha256` the plaintext
entry point returns a schedule with mode PLAINTEXT and seed `fe1b9bd5...`; the
binary entry point on the same three bytes, with the first byte after the buffer
equal to 1, returns a schedule with seed `5db7c8e5...`, so the two entry points
disagree on the same bytes; with equal bytes after the buffer they agree; the
SHA-256 digest of the 25 bytes is `49f41893...`, which neither seed equals; and
when no byte after the buffer can be read the call has no value. -/
theorem C10_seed_depends_on_memory_after_buffer :
    (generate_schedule_from_plaintext [0, 0, 0, 0, 0, 0, 0] [0x61, 0x62, 0x63, 0]
        ⟨[], ScheduleMode.MODE_KEY, []⟩).map (fun ks => (ks.seed, ks.mode))
      = some ([254, 27, 155, 213, 213, 140, 183, 30, 93, 227, 113, 221, 174, 164, 211, 57,
            95, 25, 132, 85, 0, 242, 6, 158, 178, 124, 202, 7, 86, 151, 111, 212],
          ScheduleMode.MODE_PLAINTEXT)
    ∧ (generate_schedule_from_binary [1, 0, 0, 0, 0, 0, 0] [0x61, 0x62, 0x63]
        ⟨[], ScheduleMode.MODE_KEY, []⟩).map (fun ks => (ks.seed, ks.mode))
      = some ([93, 183, 200, 229, 203, 197, 213, 131, 168, 153, 11, 251, 252, 175, 199, 193,
            198, 50, 50, 78, 240, 4, 57, 49, 62, 182, 242, 48, 168, 197, 223, 131],
          ScheduleMode.MODE_PLAINTEXT)
    ∧ generate_schedule_from_plaintext [0, 0, 0, 0, 0, 0, 0] [0x61, 0x62, 0x63, 0]
        ⟨[], ScheduleMode.MODE_KEY, []⟩
      ≠ generate_schedule_from_binary [1, 0, 0, 0, 0, 0, 0] [0x61, 0x62, 0x63]
        ⟨[], ScheduleMode.MODE_KEY, []⟩
    ∧ generate_schedule_from_plaintext [0, 0, 0, 0, 0, 0, 0] [0x61, 0x62, 0x63, 0]
        ⟨[], ScheduleMode.MODE_KEY, []⟩
      = generate_schedule_from_binary [0, 0, 0, 0, 0, 0, 0] [0x61, 0x62, 0x63]
        ⟨[], ScheduleMode.MODE_KEY, []⟩
    ∧ fips180_sha256 ("KECCAK_VARIANT_MSG_PSJ".toList.map Char.toNat ++ [0x61, 0x62, 0x63])
      = some [73, 244, 24, 147, 107, 154, 20, 16, 100, 22, 139, 121, 77, 192, 172, 170, 91,
            251, 231, 150, 222, 119, 138, 102, 55, 56, 86, 253, 13, 224, 46, 197]
    ∧ generate_schedule_from_plaintext [] [0x61, 0x62, 0x63, 0]
        ⟨[], ScheduleMode.MODE_KEY, []⟩ = none := by
  have hz := entry_points_compose [0, 0, 0, 0, 0, 0, 0] [0x61, 0x62, 0x63] [] [0x61, 0x62, 0x63]
    ⟨[], ScheduleMode.MODE_KEY, []⟩ (by decide) (by decide) (by decide)
  have hr := entry_points_compose [1, 0, 0, 0, 0, 0, 0] [0x61, 0x62, 0x63] [] [0x61, 0x62, 0x63]
    ⟨[], ScheduleMode.MODE_KEY, []⟩ (by decide) (by decide) (by decide)
  have hn := entry_points_compose [] [0x61, 0x62, 0x63] [] [0x61, 0x62, 0x63]
    ⟨[], ScheduleMode.MODE_KEY, []⟩ (by decide) (by decide) (by decide)
  have ez : sha256 [0, 0, 0, 0, 0, 0, 0]
        ("KECCAK_VARIANT_MSG_PSJ".toList.map Char.toNat ++ [0x61, 0x62, 0x63])
      = some [254, 27, 155, 213, 213, 140, 183, 30, 93, 227, 113, 221, 174, 164, 211, 57,
            95, 25, 132, 85, 0, 242, 6, 158, 178, 124, 202, 7, 86, 151, 111, 212] := by decide!
  have er : sha256 [1, 0, 0, 0, 0, 0, 0]
        ("KECCAK_VARIANT_MSG_PSJ".toList.map Char.toNat ++ [0x61, 0x62, 0x63])
      = some [93, 183, 200, 229, 203, 197, 213, 131, 168, 153, 11, 251, 252, 175, 199, 193,
            198, 50, 50, 78, 240, 4, 57, 49, 62, 182, 242, 48, 168, 197, 223, 131] := by decide!
  have en : sha256 [] ("KECCAK_VARIANT_MSG_PSJ".toList.map Char.toNat ++ [0x61, 0x62, 0x63])
      = none := by decide!
  have h1 := hz.1
  have h2 := hr.2.1
  have h3 := hn.1
  simp only [List.cons_append, List.nil_append] at h1 h3
  have p1 : (generate_schedule_from_plaintext [0, 0, 0, 0, 0, 0, 0] [0x61, 0x62, 0x63, 0]
      ⟨[], ScheduleMode.MODE_KEY, []⟩).map (fun ks => (ks.seed, ks.mode))
      = some ([254, 27, 155, 213, 213, 140, 183, 30, 93, 227, 113, 221, 174, 164, 211, 57,
            95, 25, 132, 85, 0, 242, 6, 158, 178, 124, 202, 7, 86, 151, 111, 212],
          ScheduleMode.MODE_PLAINTEXT) := by
    rw [h1, ez]
    simp only [Option.map_some', Option.some.injEq, Prod.mk.injEq]
    exact hz.2.2.2 _ _ _ ez
  have p2 : (generate_schedule_from_binary [1, 0, 0, 0, 0, 0, 0] [0x61, 0x62, 0x63]
      ⟨[], ScheduleMode.MODE_KEY, []⟩).map (fun ks => (ks.seed, ks.mode))
      = some ([93, 183, 200, 229, 203, 197, 213, 131, 168, 153, 11, 251, 252, 175, 199, 193,
            198, 50, 50, 78, 240, 4, 57, 49, 62, 182, 242, 48, 168, 197, 223, 131],
          ScheduleMode.MODE_PLAINTEXT) := by
    rw [h2, er]
    simp only [Option.map_some', Option.some.injEq, Prod.mk.injEq]
    exact hr.2.2.2 _ _ _ er
  refine ⟨p1, p2, ?_, h1.trans hz.2.1.symm, by decide!, ?_⟩
  · intro h
    rw [h, p2] at p1
    revert p1
    decide
  · rw [h3, en]
    rfl

/-! ## The word stream of the generator -/

theorem aes_ctr_words_state_succ (n : Nat) (prng : AES_CTR_PRNG) :
    (aes_ctr_words (n + 1) prng).2 = (aes_ctr_next (aes_ctr_words n prng).2).2 := by
  induction n generalizing prng with
  | zero => rfl
  | succ n ih =>
    have h := ih (aes_ctr_next prng).2
    simp only [aes_ctr_words] at h ⊢
    exact h

/-- Word `k` of the stream is what `aes_ctr_next` returns after `k` calls. -/
theorem aes_ctr_words_getD (n k : Nat) (prng : AES_CTR_PRNG) (hk : k < n) :
    (aes_ctr_words n prng).1.getD k 0 = (aes_ctr_next (aes_ctr_words k prng).2).1 := by
  induction n generalizing prng k with
  | zero => omega
  | succ n ih =>
    cases k with
    | zero => rfl
    | succ k =>
      have h := ih k (aes_ctr_next prng).2 (by omega)
      simp only [aes_ctr_words, List.getD_cons_succ]
      exact h

theorem aes_ctr_words_state_add (m n : Nat) (prng : AES_CTR_PRNG) :
    (aes_ctr_words (m + n) prng).2 = (aes_ctr_words n (aes_ctr_words m prng).2).2 := by
  induction n with
  | zero => rfl
  | succ n ih =>
    rw [← Nat.add_assoc, aes_ctr_words_state_succ, ih, ← aes_ctr_words_state_succ]

theorem generate_variants_state (prng : AES_CTR_PRNG) :
    (generate_variants prng).2 = (aes_ctr_words 4 prng).2 := by
  simp [generate_variants, List.range, List.range.loop, aes_ctr_words]

/-- One round of the schedule in terms of the five words it draws. -/
theorem generate_round_eq (prng : AES_CTR_PRNG) :
    generate_round prng =
      ({ step_order :=
           if (aes_ctr_words 5 prng).1.getD 0 0 % 2 = 1 then [1, 0, 2, 3] else [0, 1, 2, 3]
         variants :=
           [Int.ofNat ((aes_ctr_words 5 prng).1.getD 1 0 % 7),
            Int.ofNat ((aes_ctr_words 5 prng).1.getD 2 0 % 7),
            Int.ofNat ((aes_ctr_words 5 prng).1.getD 3 0 % 7),
            Int.ofNat ((aes_ctr_words 5 prng).1.getD 4 0 % 7)] },
       (aes_ctr_words 5 prng).2) := by
  unfold generate_round
  simp only [generate_variants_eq, generate_variants_state, aes_ctr_words,
    List.getD_cons_zero, List.getD_cons_succ]
  rfl

theorem generate_rounds_prng_eq (n : Nat) (prng : AES_CTR_PRNG) :
    generate_rounds_prng n prng = (aes_ctr_words (5 * n) prng).2 := by
  induction n generalizing prng with
  | zero => rfl
  | succ n ih =>
    rw [generate_rounds_prng, ih, generate_round_eq, show 5 * (n + 1) = 5 + 5 * n by ring,
      aes_ctr_words_state_add]

theorem generate_rounds_getElem? (n r : Nat) (prng : AES_CTR_PRNG) (hr : r < n) :
    (generate_rounds n prng)[r]? = some (generate_round (aes_ctr_words (5 * r) prng).2).1 := by
  induction n generalizing prng r with
  | zero => omega
  | succ n ih =>
    cases r with
    | zero => simp [generate_rounds, aes_ctr_words]
    | succ r =>
      have h := ih r (generate_round prng).2 (by omega)
      simp only [generate_rounds, List.getElem?_cons_succ, h]
      rw [generate_round_eq prng, show 5 * (r + 1) = 5 + 5 * r by ring, aes_ctr_words_state_add]

theorem generate_rounds_length (n : Nat) (prng : AES_CTR_PRNG) :
    (generate_rounds n prng).length = n := by
  induction n generalizing prng with
  | zero => rfl
  | succ n ih => simp [generate_rounds, ih]

/-- Word `5 r + j` of the stream is word `j` of the five drawn in round `r`. -/
theorem aes_ctr_words_round (prng : AES_CTR_PRNG) (n r j : Nat) (hj : j < 5) (hn : 5 * r + j < n) :
    (aes_ctr_words 5 (aes_ctr_words (5 * r) prng).2).1.getD j 0
      = (aes_ctr_words n prng).1.getD (5 * r + j) 0 := by
  rw [aes_ctr_words_getD 5 j _ hj, aes_ctr_words_getD n (5 * r + j) prng hn,
    aes_ctr_words_state_add]

/-- C11: for every seed, with `w` the first 120 values that `aes_ctr_next`
returns after `aes_ctr_init(seed)`: the schedule has 24 rounds; round `r < 24`
has `step_order = (1, 0, 2, 3)` if `w[5 r]` is odd and `(0, 1, 2, 3)` otherwise,
and `variants[k] = w[5 r + 1 + k] mod 7` for `k = 0 .. 3`; the generator after
the round loop is the generator after exactly 120 draws. -/
theorem C11_schedule_from_words (seed : List Nat) (schedule : KeccakSchedule) (r : Nat)
    (hr : r < 24) :
    (generate_schedule_internal seed schedule).rounds[r]? = some
        { step_order :=
            if (aes_ctr_words 120 (aes_ctr_init seed)).1.getD (5 * r) 0 % 2 = 1
            then [1, 0, 2, 3] else [0, 1, 2, 3]
          variants :=
            [Int.ofNat ((aes_ctr_words 120 (aes_ctr_init seed)).1.getD (5 * r + 1) 0 % 7),
             Int.ofNat ((aes_ctr_words 120 (aes_ctr_init seed)).1.getD (5 * r + 1 + 1) 0 % 7),
             Int.ofNat ((aes_ctr_words 120 (aes_ctr_init seed)).1.getD (5 * r + 1 + 2) 0 % 7),
             Int.ofNat ((aes_ctr_words 120 (aes_ctr_init seed)).1.getD (5 * r + 1 + 3) 0 % 7)] }
      ∧ (generate_schedule_internal seed schedule).rounds.length = 24
      ∧ generate_rounds_prng 24 (aes_ctr_init seed)
          = (aes_ctr_words 120 (aes_ctr_init seed)).2 := by
  refine ⟨?_, generate_rounds_length 24 _, generate_rounds_prng_eq 24 _⟩
  show (generate_rounds 24 (aes_ctr_init seed))[r]? = _
  rw [generate_rounds_getElem? 24 r _ hr, generate_round_eq]
  have h0 := aes_ctr_words_round (aes_ctr_init seed) 120 r 0 (by omega) (by omega)
  have h1 := aes_ctr_words_round (aes_ctr_init seed) 120 r 1 (by omega) (by omega)
  have h2 := aes_ctr_words_round (aes_ctr_init seed) 120 r 2 (by omega) (by omega)
  have h3 := aes_ctr_words_round (aes_ctr_init seed) 120 r 3 (by omega) (by omega)
  have h4 := aes_ctr_words_round (aes_ctr_init seed) 120 r 4 (by omega) (by omega)
  simp only [Nat.add_zero] at h0
  simp only [h0, h1, h2, h3, h4, Nat.add_assoc]

/-- C11 at the all-zero seed, round 1: the words 5 .. 9 of the stream give the
order `(1, 0, 2, 3)` and the variants `(5, 4, 5, 3)`. -/
theorem C11_schedule_from_words_witness :
    (generate_schedule_internal (List.replicate 32 0)
        ⟨[], ScheduleMode.MODE_KEY, []⟩).rounds[1]? = some
        { step_order :=
            if (aes_ctr_words 120 (aes_ctr_init (List.replicate 32 0))).1.getD (5 * 1) 0 % 2 = 1
            then [1, 0, 2, 3] else [0, 1, 2, 3]
          variants :=
            [Int.ofNat ((aes_ctr_words 120 (aes_ctr_init (List.replicate 32 0))).1.getD
                (5 * 1 + 1) 0 % 7),
             Int.ofNat ((aes_ctr_words 120 (aes_ctr_init (List.replicate 32 0))).1.getD
                (5 * 1 + 1 + 1) 0 % 7),
             Int.ofNat ((aes_ctr_words 120 (aes_ctr_init (List.replicate 32 0))).1.getD
                (5 * 1 + 1 + 2) 0 % 7),
             Int.ofNat ((aes_ctr_words 120 (aes_ctr_init (List.replicate 32 0))).1.getD
                (5 * 1 + 1 + 3) 0 % 7)] }
      ∧ (generate_schedule_internal (List.replicate 32 0)
          ⟨[], ScheduleMode.MODE_KEY, []⟩).rounds.length = 24
      ∧ (generate_schedule_internal (List.replicate 32 0)
          ⟨[], ScheduleMode.MODE_KEY, []⟩).rounds[1]?
          = some { step_order := [1, 0, 2, 3], variants := [5, 4, 5, 3] }
      ∧ (aes_ctr_words 120 (aes_ctr_init (List.replicate 32 0))).1.getD 5 0
          = 16198670282642705373 :=
  ⟨(C11_schedule_from_words (List.replicate 32 0) ⟨[], ScheduleMode.MODE_KEY, []⟩ 1
      (by decide)).1,
   (C11_schedule_from_words (List.replicate 32 0) ⟨[], ScheduleMode.MODE_KEY, []⟩ 1
      (by decide)).2.1, by decide!, by decide!⟩

/-! ## Finite sets of bounded lists -/

/-- The lists of a given length with entries below a bound form a finite set. -/
theorem bounded_lists_finite (n B : Nat) :
    {l : List Nat | l.length = n ∧ ∀ b ∈ l, b < B}.Finite := by
  have hfin : {l : List (Fin B) | l.length = n}.Finite := List.finite_length_eq (Fin B) n
  apply (hfin.image (List.map Fin.val)).subset
  rintro l ⟨hlen, hb⟩
  refine ⟨l.pmap (fun x h => (⟨x, h⟩ : Fin B)) hb, ?_, ?_⟩
  · simpa using hlen
  · rw [List.map_pmap]
    simp

/-- A map of a finite set into itself that is injective on it reaches every
element of it. -/
theorem surj_of_inj_on_finite (S : Set (List Nat)) (hS : S.Finite) (f : List Nat → List Nat)
    (hmap : ∀ l, l ∈ S → f l ∈ S) (hinj : ∀ l m, l ∈ S → m ∈ S → f l = f m → l = m) :
    ∀ m, m ∈ S → ∃ l, l ∈ S ∧ f l = m := by
  have hbij := (hS.injOn_iff_bijOn_of_mapsTo (f := f) hmap).mp
    (fun l hl m hm h => hinj l m hl hm h)
  intro m hm
  exact hbij.surjOn hm

theorem sbox_nodup : AES_SBOX.Nodup := by decide!

theorem xor_mod_256 (a b : Nat) : (a ^^^ b) % 256 = (a % 256) ^^^ (b % 256) := by
  apply Nat.eq_of_testBit_eq
  intro i
  have h : (256 : Nat) = 2 ^ 8 := by norm_num
  simp only [h, Nat.testBit_mod_two_pow, Nat.testBit_xor]
  by_cases hi : i < 8 <;> simp [hi]

theorem top_bit_mul (s t : Nat) (hs : s < 2) (ht : t < 2) :
    (s ^^^ t) * 0x1b = (s * 0x1b) ^^^ (t * 0x1b) := by
  interval_cases s <;> interval_cases t <;> rfl

theorem gm2_xor_bytes (a : Nat) (ha : a < 256) (b : Nat) (hb : b < 256) :
    aes_xt (a ^^^ b) % 256 = (aes_xt a % 256) ^^^ (aes_xt b % 256) := by
  unfold aes_xt
  have h1 : (a ^^^ b) <<< 1 = (a <<< 1) ^^^ (b <<< 1) := by
    apply Nat.eq_of_testBit_eq
    intro i
    simp only [Nat.testBit_shiftLeft, Nat.testBit_xor]
    by_cases hi : i ≥ 1 <;> simp [hi]
  have h2 : (a ^^^ b) >>> 7 = (a >>> 7) ^^^ (b >>> 7) := by
    apply Nat.eq_of_testBit_eq
    intro i
    simp only [Nat.testBit_shiftRight, Nat.testBit_xor]
  have ha7 : a >>> 7 < 2 := by rw [Nat.shiftRight_eq_div_pow]; omega
  have hb7 : b >>> 7 < 2 := by rw [Nat.shiftRight_eq_div_pow]; omega
  rw [h1, h2, top_bit_mul _ _ ha7 hb7, ← xor_mod_256]
  congr 1
  ac_rfl

theorem xor_left_comm (a b c : Nat) : a ^^^ (b ^^^ c) = b ^^^ (a ^^^ c) := by
  ac_rfl

theorem gm2_xor (a b : Nat) : gm2 (a ^^^ b) = gm2 a ^^^ gm2 b := by
  unfold gm2
  rw [xor_mod_256]
  exact gm2_xor_bytes _ (Nat.mod_lt _ (by norm_num)) _ (Nat.mod_lt _ (by norm_num))


/-! ## AES: bytes, columns, blocks -/

theorem range4 : List.range 4 = [0, 1, 2, 3] := rfl

theorem sbox_lt (x : Nat) : sbox x < 256 := by
  unfold sbox
  rw [List.getD_eq_getElem?_getD]
  rcases h : AES_SBOX[x]? with _ | v
  · simp
  · have hall : ∀ b ∈ AES_SBOX, b < 256 := by decide!
    exact hall v (List.getElem?_mem h)

theorem sbox_inj (a b : Nat) (ha : a < 256) (hb : b < 256) (h : sbox a = sbox b) : a = b := by
  have hl : AES_SBOX.length = 256 := by decide!
  have ha2 : a < AES_SBOX.length := by omega
  have hb2 : b < AES_SBOX.length := by omega
  unfold sbox at h
  rw [List.getD_eq_getElem AES_SBOX 0 ha2, List.getD_eq_getElem AES_SBOX 0 hb2] at h
  exact (sbox_nodup.getElem_inj_iff).mp h

/-- The byte that the MixColumns loop stores, for a column of bytes. -/
theorem mix_code_eq (a0 a1 a2 a3 : Nat) (h0 : a0 < 256) (h1 : a1 < 256) (h2 : a2 < 256)
    (h3 : a3 < 256) :
    (aes_xt a0 ^^^ aes_xt a1 ^^^ a1 ^^^ a2 ^^^ a3) % 256 = mix_byte a0 a1 a2 a3
      ∧ (a0 ^^^ aes_xt a1 ^^^ aes_xt a2 ^^^ a2 ^^^ a3) % 256 = mix_byte a1 a2 a3 a0
      ∧ (a0 ^^^ a1 ^^^ aes_xt a2 ^^^ aes_xt a3 ^^^ a3) % 256 = mix_byte a2 a3 a0 a1
      ∧ (aes_xt a0 ^^^ a0 ^^^ a1 ^^^ a2 ^^^ aes_xt a3) % 256 = mix_byte a3 a0 a1 a2 := by
  refine ⟨?_, ?_, ?_, ?_⟩ <;>
    simp only [mix_byte, gm2, xor_mod_256, Nat.mod_eq_of_lt h0, Nat.mod_eq_of_lt h1,
      Nat.mod_eq_of_lt h2, Nat.mod_eq_of_lt h3, Nat.mod_mod] <;> ac_rfl

/-- Mixing a column twice, first byte: `5 a0 + 4 a2` in doublings. -/
theorem mix_byte_twice (a0 a1 a2 a3 : Nat) :
    mix_byte (mix_byte a0 a1 a2 a3) (mix_byte a1 a2 a3 a0) (mix_byte a2 a3 a0 a1)
      (mix_byte a3 a0 a1 a2) = gm2 (gm2 a0) ^^^ a0 ^^^ gm2 (gm2 a2) := by
  simp only [mix_byte, gm2_xor, Nat.xor_assoc, Nat.xor_comm, xor_left_comm,
    Nat.xor_self, Nat.xor_zero, Nat.zero_xor, Nat.xor_cancel_left]

/-- The inverse column recovers the first byte, whatever the column. -/
theorem inv_mix_byte_mix (a0 a1 a2 a3 : Nat) :
    inv_mix_byte (mix_byte a0 a1 a2 a3) (mix_byte a1 a2 a3 a0) (mix_byte a2 a3 a0 a1)
      (mix_byte a3 a0 a1 a2) = a0 := by
  simp only [inv_mix_byte]
  rw [mix_byte_twice a0 a1 a2 a3, mix_byte_twice a2 a3 a0 a1]
  simp only [gm2_xor, Nat.xor_assoc, Nat.xor_comm, xor_left_comm,
    Nat.xor_self, Nat.xor_zero, Nat.zero_xor, Nat.xor_cancel_left]

/-- The MixColumns loop is injective on a column of bytes. -/
theorem mix_column_inj (a0 a1 a2 a3 b0 b1 b2 b3 : Nat)
    (ha0 : a0 < 256) (ha1 : a1 < 256) (ha2 : a2 < 256) (ha3 : a3 < 256)
    (hb0 : b0 < 256) (hb1 : b1 < 256) (hb2 : b2 < 256) (hb3 : b3 < 256)
    (e0 : (aes_xt a0 ^^^ aes_xt a1 ^^^ a1 ^^^ a2 ^^^ a3) % 256
        = (aes_xt b0 ^^^ aes_xt b1 ^^^ b1 ^^^ b2 ^^^ b3) % 256)
    (e1 : (a0 ^^^ aes_xt a1 ^^^ aes_xt a2 ^^^ a2 ^^^ a3) % 256
        = (b0 ^^^ aes_xt b1 ^^^ aes_xt b2 ^^^ b2 ^^^ b3) % 256)
    (e2 : (a0 ^^^ a1 ^^^ aes_xt a2 ^^^ aes_xt a3 ^^^ a3) % 256
        = (b0 ^^^ b1 ^^^ aes_xt b2 ^^^ aes_xt b3 ^^^ b3) % 256)
    (e3 : (aes_xt a0 ^^^ a0 ^^^ a1 ^^^ a2 ^^^ aes_xt a3) % 256
        = (aes_xt b0 ^^^ b0 ^^^ b1 ^^^ b2 ^^^ aes_xt b3) % 256) :
    a0 = b0 ∧ a1 = b1 ∧ a2 = b2 ∧ a3 = b3 := by
  obtain ⟨pa0, pa1, pa2, pa3⟩ := mix_code_eq a0 a1 a2 a3 ha0 ha1 ha2 ha3
  obtain ⟨pb0, pb1, pb2, pb3⟩ := mix_code_eq b0 b1 b2 b3 hb0 hb1 hb2 hb3
  rw [pa0, pb0] at e0
  rw [pa1, pb1] at e1
  rw [pa2, pb2] at e2
  rw [pa3, pb3] at e3
  refine ⟨?_, ?_, ?_, ?_⟩
  · rw [← inv_mix_byte_mix a0 a1 a2 a3, ← inv_mix_byte_mix b0 b1 b2 b3, e0, e1, e2, e3]
  · rw [← inv_mix_byte_mix a1 a2 a3 a0, ← inv_mix_byte_mix b1 b2 b3 b0, e0, e1, e2, e3]
  · rw [← inv_mix_byte_mix a2 a3 a0 a1, ← inv_mix_byte_mix b2 b3 b0 b1, e0, e1, e2, e3]
  · rw [← inv_mix_byte_mix a3 a0 a1 a2, ← inv_mix_byte_mix b3 b0 b1 b2, e0, e1, e2, e3]

theorem list16 (l : List Nat) (h : l.length = 16) :
    ∃ s0 s1 s2 s3 s4 s5 s6 s7 s8 s9 s10 s11 s12 s13 s14 s15,
      l = [s0, s1, s2, s3, s4, s5, s6, s7, s8, s9, s10, s11, s12, s13, s14, s15] := by
  match l, h with
  | [s0, s1, s2, s3, s4, s5, s6, s7, s8, s9, s10, s11, s12, s13, s14, s15], _ =>
    exact ⟨s0, s1, s2, s3, s4, s5, s6, s7, s8, s9, s10, s11, s12, s13, s14, s15, rfl⟩

theorem key_byte_lt (w k : Nat) : (w >>> k) &&& 0xff < 256 :=
  Nat.and_lt_two_pow _ (show 0xff < 2 ^ 8 by norm_num)

theorem key_byte_lt0 (w : Nat) : w &&& 0xff < 256 :=
  Nat.and_lt_two_pow _ (show 0xff < 2 ^ 8 by norm_num)

theorem xor_byte_lt (a b : Nat) (ha : a < 256) (hb : b < 256) : a ^^^ b < 256 :=
  Nat.xor_lt_two_pow (n := 8) ha hb

theorem ark_explicit (s0 s1 s2 s3 s4 s5 s6 s7 s8 s9 s10 s11 s12 s13 s14 s15 : Nat)
    (ek : List Nat) (base : Nat) :
    aes_add_round_key [s0, s1, s2, s3, s4, s5, s6, s7, s8, s9, s10, s11, s12, s13, s14, s15]
        ek base
      = [s0 ^^^ ((ek.getD (base + 0) 0 >>> 24) &&& 0xff),
         s1 ^^^ ((ek.getD (base + 0) 0 >>> 16) &&& 0xff),
         s2 ^^^ ((ek.getD (base + 0) 0 >>> 8) &&& 0xff),
         s3 ^^^ (ek.getD (base + 0) 0 &&& 0xff),
         s4 ^^^ ((ek.getD (base + 1) 0 >>> 24) &&& 0xff),
         s5 ^^^ ((ek.getD (base + 1) 0 >>> 16) &&& 0xff),
         s6 ^^^ ((ek.getD (base + 1) 0 >>> 8) &&& 0xff),
         s7 ^^^ (ek.getD (base + 1) 0 &&& 0xff),
         s8 ^^^ ((ek.getD (base + 2) 0 >>> 24) &&& 0xff),
         s9 ^^^ ((ek.getD (base + 2) 0 >>> 16) &&& 0xff),
         s10 ^^^ ((ek.getD (base + 2) 0 >>> 8) &&& 0xff),
         s11 ^^^ (ek.getD (base + 2) 0 &&& 0xff),
         s12 ^^^ ((ek.getD (base + 3) 0 >>> 24) &&& 0xff),
         s13 ^^^ ((ek.getD (base + 3) 0 >>> 16) &&& 0xff),
         s14 ^^^ ((ek.getD (base + 3) 0 >>> 8) &&& 0xff),
         s15 ^^^ (ek.getD (base + 3) 0 &&& 0xff)] := by
  simp [aes_add_round_key, range4]

theorem aes_add_round_key_length (st ek : List Nat) (base : Nat) :
    (aes_add_round_key st ek base).length = st.length := by
  simp [aes_add_round_key, range4]

/-- AddRoundKey keeps a block a block. -/
theorem aes_add_round_key_block (st ek : List Nat) (base : Nat) (h : IsBlock st) :
    IsBlock (aes_add_round_key st ek base) := by
  obtain ⟨s0, s1, s2, s3, s4, s5, s6, s7, s8, s9, s10, s11, s12, s13, s14, s15, rfl⟩ :=
    list16 st h.1
  have hb := h.2
  simp only [List.mem_cons, List.mem_singleton, forall_eq_or_imp, forall_eq,
    List.not_mem_nil, false_imp_iff, implies_true, and_true] at hb
  obtain ⟨b0, b1, b2, b3, b4, b5, b6, b7, b8, b9, b10, b11, b12, b13, b14, b15⟩ := hb
  refine ⟨by rw [aes_add_round_key_length]; rfl, ?_⟩
  rw [ark_explicit]
  simp only [List.mem_cons, List.mem_singleton, forall_eq_or_imp, forall_eq,
    List.not_mem_nil, false_imp_iff, implies_true, and_true]
  refine ⟨?_, ?_, ?_, ?_, ?_, ?_, ?_, ?_, ?_, ?_, ?_, ?_, ?_, ?_, ?_, ?_⟩ <;>
    first
    | exact xor_byte_lt _ _ (by assumption) (key_byte_lt _ _)
    | exact xor_byte_lt _ _ (by assumption) (key_byte_lt0 _)

/-- AddRoundKey is injective on 16-entry states. -/
theorem aes_add_round_key_inj (s t ek : List Nat) (base : Nat) (hs : s.length = 16)
    (ht : t.length = 16) (h : aes_add_round_key s ek base = aes_add_round_key t ek base) :
    s = t := by
  obtain ⟨s0, s1, s2, s3, s4, s5, s6, s7, s8, s9, s10, s11, s12, s13, s14, s15, rfl⟩ :=
    list16 s hs
  obtain ⟨t0, t1, t2, t3, t4, t5, t6, t7, t8, t9, t10, t11, t12, t13, t14, t15, rfl⟩ :=
    list16 t ht
  rw [ark_explicit, ark_explicit] at h
  simp only [List.cons.injEq, and_true, Nat.xor_left_inj] at h
  obtain ⟨e0, e1, e2, e3, e4, e5, e6, e7, e8, e9, e10, e11, e12, e13, e14, e15⟩ := h
  subst e0 e1 e2 e3 e4 e5 e6 e7 e8 e9 e10 e11 e12 e13 e14 e15
  rfl

theorem isBlock_explicit (s0 s1 s2 s3 s4 s5 s6 s7 s8 s9 s10 s11 s12 s13 s14 s15 : Nat) :
    IsBlock [s0, s1, s2, s3, s4, s5, s6, s7, s8, s9, s10, s11, s12, s13, s14, s15]
      ↔ (s0 < 256 ∧ s1 < 256 ∧ s2 < 256 ∧ s3 < 256 ∧ s4 < 256 ∧ s5 < 256 ∧ s6 < 256
          ∧ s7 < 256 ∧ s8 < 256 ∧ s9 < 256 ∧ s10 < 256 ∧ s11 < 256 ∧ s12 < 256 ∧ s13 < 256
          ∧ s14 < 256 ∧ s15 < 256) := by
  simp [IsBlock]

/-- SubBytes with ShiftRows gives a block, whatever the state. -/
theorem aes_sub_shift_block (st : List Nat) : IsBlock (aes_sub_shift st) := by
  unfold aes_sub_shift
  rw [isBlock_explicit]
  simp only [sbox_lt, and_self]

/-- SubBytes with ShiftRows is injective on blocks. -/
theorem aes_sub_shift_inj (s t : List Nat) (hs : IsBlock s) (ht : IsBlock t)
    (h : aes_sub_shift s = aes_sub_shift t) : s = t := by
  obtain ⟨s0, s1, s2, s3, s4, s5, s6, s7, s8, s9, s10, s11, s12, s13, s14, s15, rfl⟩ :=
    list16 s hs.1
  obtain ⟨t0, t1, t2, t3, t4, t5, t6, t7, t8, t9, t10, t11, t12, t13, t14, t15, rfl⟩ :=
    list16 t ht.1
  rw [isBlock_explicit] at hs ht
  obtain ⟨a0, a1, a2, a3, a4, a5, a6, a7, a8, a9, a10, a11, a12, a13, a14, a15⟩ := hs
  obtain ⟨b0, b1, b2, b3, b4, b5, b6, b7, b8, b9, b10, b11, b12, b13, b14, b15⟩ := ht
  simp only [aes_sub_shift, List.getD_cons_zero, List.getD_cons_succ, List.cons.injEq,
    and_true] at h
  obtain ⟨e0, e5, e10, e15, e4, e9, e14, e3, e8, e13, e2, e7, e12, e1, e6, e11⟩ := h
  rw [sbox_inj _ _ a0 b0 e0, sbox_inj _ _ a1 b1 e1, sbox_inj _ _ a2 b2 e2,
    sbox_inj _ _ a3 b3 e3, sbox_inj _ _ a4 b4 e4, sbox_inj _ _ a5 b5 e5,
    sbox_inj _ _ a6 b6 e6, sbox_inj _ _ a7 b7 e7, sbox_inj _ _ a8 b8 e8,
    sbox_inj _ _ a9 b9 e9, sbox_inj _ _ a10 b10 e10, sbox_inj _ _ a11 b11 e11,
    sbox_inj _ _ a12 b12 e12, sbox_inj _ _ a13 b13 e13, sbox_inj _ _ a14 b14 e14,
    sbox_inj _ _ a15 b15 e15]

theorem mix_explicit (s : List Nat)
    (t0 t1 t2 t3 t4 t5 t6 t7 t8 t9 t10 t11 t12 t13 t14 t15 : Nat) (hs : s.length = 16) :
    aes_mix_columns s [t0, t1, t2, t3, t4, t5, t6, t7, t8, t9, t10, t11, t12, t13, t14, t15]
      = [(aes_xt t0 ^^^ aes_xt t1 ^^^ t1 ^^^ t2 ^^^ t3) % 256,
         (t0 ^^^ aes_xt t1 ^^^ aes_xt t2 ^^^ t2 ^^^ t3) % 256,
         (t0 ^^^ t1 ^^^ aes_xt t2 ^^^ aes_xt t3 ^^^ t3) % 256,
         (aes_xt t0 ^^^ t0 ^^^ t1 ^^^ t2 ^^^ aes_xt t3) % 256,
         (aes_xt t4 ^^^ aes_xt t5 ^^^ t5 ^^^ t6 ^^^ t7) % 256,
         (t4 ^^^ aes_xt t5 ^^^ aes_xt t6 ^^^ t6 ^^^ t7) % 256,
         (t4 ^^^ t5 ^^^ aes_xt t6 ^^^ aes_xt t7 ^^^ t7) % 256,
         (aes_xt t4 ^^^ t4 ^^^ t5 ^^^ t6 ^^^ aes_xt t7) % 256,
         (aes_xt t8 ^^^ aes_xt t9 ^^^ t9 ^^^ t10 ^^^ t11) % 256,
         (t8 ^^^ aes_xt t9 ^^^ aes_xt t10 ^^^ t10 ^^^ t11) % 256,
         (t8 ^^^ t9 ^^^ aes_xt t10 ^^^ aes_xt t11 ^^^ t11) % 256,
         (aes_xt t8 ^^^ t8 ^^^ t9 ^^^ t10 ^^^ aes_xt t11) % 256,
         (aes_xt t12 ^^^ aes_xt t13 ^^^ t13 ^^^ t14 ^^^ t15) % 256,
         (t12 ^^^ aes_xt t13 ^^^ aes_xt t14 ^^^ t14 ^^^ t15) % 256,
         (t12 ^^^ t13 ^^^ aes_xt t14 ^^^ aes_xt t15 ^^^ t15) % 256,
         (aes_xt t12 ^^^ t12 ^^^ t13 ^^^ t14 ^^^ aes_xt t15) % 256] := by
  match s, hs with
  | [s0, s1, s2, s3, s4, s5, s6, s7, s8, s9, s10, s11, s12, s13, s14, s15], _ =>
    simp [aes_mix_columns, range4]

/-- The MixColumns loop gives a block. -/
theorem aes_mix_columns_block (s t : List Nat) (hs : s.length = 16) (ht : t.length = 16) :
    IsBlock (aes_mix_columns s t) := by
  obtain ⟨t0, t1, t2, t3, t4, t5, t6, t7, t8, t9, t10, t11, t12, t13, t14, t15, rfl⟩ :=
    list16 t ht
  rw [mix_explicit s _ _ _ _ _ _ _ _ _ _ _ _ _ _ _ _ hs, isBlock_explicit]
  refine ⟨?_, ?_, ?_, ?_, ?_, ?_, ?_, ?_, ?_, ?_, ?_, ?_, ?_, ?_, ?_, ?_⟩ <;>
    exact Nat.mod_lt _ (by norm_num)

/-- The MixColumns loop is injective on blocks. -/
theorem aes_mix_columns_inj (s s' t u : List Nat) (hs : s.length = 16) (hs' : s'.length = 16)
    (ht : IsBlock t) (hu : IsBlock u) (h : aes_mix_columns s t = aes_mix_columns s' u) :
    t = u := by
  obtain ⟨t0, t1, t2, t3, t4, t5, t6, t7, t8, t9, t10, t11, t12, t13, t14, t15, rfl⟩ :=
    list16 t ht.1
  obtain ⟨u0, u1, u2, u3, u4, u5, u6, u7, u8, u9, u10, u11, u12, u13, u14, u15, rfl⟩ :=
    list16 u hu.1
  rw [isBlock_explicit] at ht hu
  obtain ⟨a0, a1, a2, a3, a4, a5, a6, a7, a8, a9, a10, a11, a12, a13, a14, a15⟩ := ht
  obtain ⟨b0, b1, b2, b3, b4, b5, b6, b7, b8, b9, b10, b11, b12, b13, b14, b15⟩ := hu
  rw [mix_explicit s _ _ _ _ _ _ _ _ _ _ _ _ _ _ _ _ hs,
    mix_explicit s' _ _ _ _ _ _ _ _ _ _ _ _ _ _ _ _ hs'] at h
  simp only [List.cons.injEq, and_true] at h
  obtain ⟨e0, e1, e2, e3, e4, e5, e6, e7, e8, e9, e10, e11, e12, e13, e14, e15⟩ := h
  obtain ⟨r0, r1, r2, r3⟩ := mix_column_inj _ _ _ _ _ _ _ _ a0 a1 a2 a3 b0 b1 b2 b3 e0 e1 e2 e3
  obtain ⟨r4, r5, r6, r7⟩ := mix_column_inj _ _ _ _ _ _ _ _ a4 a5 a6 a7 b4 b5 b6 b7 e4 e5 e6 e7
  obtain ⟨r8, r9, r10, r11⟩ :=
    mix_column_inj _ _ _ _ _ _ _ _ a8 a9 a10 a11 b8 b9 b10 b11 e8 e9 e10 e11
  obtain ⟨r12, r13, r14, r15⟩ :=
    mix_column_inj _ _ _ _ _ _ _ _ a12 a13 a14 a15 b12 b13 b14 b15 e12 e13 e14 e15
  subst r0 r1 r2 r3 r4 r5 r6 r7 r8 r9 r10 r11 r12 r13 r14 r15
  rfl

theorem memcpy_full (state temp : List Nat) (hs : state.length = 16) (ht : temp.length = 16) :
    memcpy state 0 temp 16 = temp := by
  unfold memcpy
  rw [List.take_zero, List.nil_append, List.take_of_length_le (le_of_eq ht),
    List.drop_of_length_le (by omega), List.append_nil]

/-- One round of `aes_encrypt_block` keeps a block a block. -/
theorem aes_round_block (ek st : List Nat) (round : Nat) (h : IsBlock st) :
    IsBlock (aes_round ek st round) := by
  unfold aes_round
  apply aes_add_round_key_block
  split
  · exact aes_mix_columns_block _ _ h.1 (aes_sub_shift_block st).1
  · rw [memcpy_full _ _ h.1 (aes_sub_shift_block st).1]
    exact aes_sub_shift_block st

/-- One round of `aes_encrypt_block` is injective on blocks. -/
theorem aes_round_inj (ek s t : List Nat) (round : Nat) (hs : IsBlock s) (ht : IsBlock t)
    (h : aes_round ek s round = aes_round ek t round) : s = t := by
  unfold aes_round at h
  by_cases hr : round < 13
  · simp only [hr, if_true] at h
    have h1 := aes_add_round_key_inj _ _ _ _
      (aes_mix_columns_block _ _ hs.1 (aes_sub_shift_block s).1).1
      (aes_mix_columns_block _ _ ht.1 (aes_sub_shift_block t).1).1 h
    have h2 := aes_mix_columns_inj _ _ _ _ hs.1 ht.1 (aes_sub_shift_block s)
      (aes_sub_shift_block t) h1
    exact aes_sub_shift_inj s t hs ht h2
  · simp only [hr, if_false] at h
    rw [memcpy_full _ _ hs.1 (aes_sub_shift_block s).1,
      memcpy_full _ _ ht.1 (aes_sub_shift_block t).1] at h
    have h1 := aes_add_round_key_inj _ _ _ _ (aes_sub_shift_block s).1
      (aes_sub_shift_block t).1 h
    exact aes_sub_shift_inj s t hs ht h1

theorem aes_rounds_block (ek : List Nat) (ks : List Nat) (st : List Nat) (h : IsBlock st) :
    IsBlock (ks.foldl (fun st k => aes_round ek st (k + 1)) st) := by
  induction ks generalizing st with
  | nil => exact h
  | cons k ks ih =>
    rw [List.foldl_cons]
    exact ih (aes_round ek st (k + 1)) (aes_round_block ek st (k + 1) h)

theorem aes_rounds_inj (ek : List Nat) (ks : List Nat) (s t : List Nat) (hs : IsBlock s)
    (ht : IsBlock t)
    (h : ks.foldl (fun st k => aes_round ek st (k + 1)) s
      = ks.foldl (fun st k => aes_round ek st (k + 1)) t) : s = t := by
  induction ks generalizing s t with
  | nil => exact h
  | cons k ks ih =>
    rw [List.foldl_cons, List.foldl_cons] at h
    exact aes_round_inj ek s t (k + 1) hs ht
      (ih (aes_round ek s (k + 1)) (aes_round ek t (k + 1)) (aes_round_block ek s (k + 1) hs)
        (aes_round_block ek t (k + 1) ht) h)

theorem aes_encrypt_block_eq (input ek : List Nat) (h : input.length = 16) :
    aes_encrypt_block input ek
      = (List.range 13).foldl (fun st k => aes_round ek st (k + 1))
          (aes_add_round_key input ek 0) := by
  unfold aes_encrypt_block
  rw [memcpy_full _ _ (by simp) h]

/-- The output of `aes_encrypt_block` on a block is a block. -/
theorem aes_encrypt_block_block (input ek : List Nat) (h : IsBlock input) :
    IsBlock (aes_encrypt_block input ek) := by
  rw [aes_encrypt_block_eq input ek h.1]
  exact aes_rounds_block ek _ _ (aes_add_round_key_block input ek 0 h)

/-- On blocks, `aes_encrypt_block` is injective. -/
theorem aes_encrypt_block_inj (s t ek : List Nat) (hs : IsBlock s) (ht : IsBlock t)
    (h : aes_encrypt_block s ek = aes_encrypt_block t ek) : s = t := by
  rw [aes_encrypt_block_eq s ek hs.1, aes_encrypt_block_eq t ek ht.1] at h
  exact aes_add_round_key_inj s t ek 0 hs.1 ht.1
    (aes_rounds_inj ek _ _ _ (aes_add_round_key_block s ek 0 hs)
      (aes_add_round_key_block t ek 0 ht) h)

/-- C13: for every expanded key (any list of words), `aes_encrypt_block` is a
bijection on 16-byte blocks: it maps blocks to blocks, two different blocks
never give the same output, and every block is the output of a block. -/
theorem C13_aes_encrypt_block_bijective (expanded_key : List Nat) :
    (∀ b, IsBlock b → IsBlock (aes_encrypt_block b expanded_key))
      ∧ (∀ b c, IsBlock b → IsBlock c → b ≠ c →
          aes_encrypt_block b expanded_key ≠ aes_encrypt_block c expanded_key)
      ∧ (∀ c, IsBlock c → ∃ b, IsBlock b ∧ aes_encrypt_block b expanded_key = c) := by
  refine ⟨fun b hb => aes_encrypt_block_block b expanded_key hb, ?_, ?_⟩
  · intro b c hb hc hne h
    exact hne (aes_encrypt_block_inj b c expanded_key hb hc h)
  · exact surj_of_inj_on_finite {l | l.length = 16 ∧ ∀ x ∈ l, x < 256}
      (bounded_lists_finite 16 256) (fun b => aes_encrypt_block b expanded_key)
      (fun b hb => aes_encrypt_block_block b expanded_key hb)
      (fun b c hb hc h => aes_encrypt_block_inj b c expanded_key hb hc h)

theorem range8 : List.range 8 = [0, 1, 2, 3, 4, 5, 6, 7] := rfl

/-- A call of `aes_ctr_next` with `pos = 16`: a block is generated from the
counter, the counter is incremented, and the first eight bytes are packed. -/
theorem aes_ctr_next_fresh (prng : AES_CTR_PRNG) (hpos : prng.pos = 16) :
    aes_ctr_next prng
      = (load_lane (aes_encrypt_block prng.counter prng.expanded_key) 16 0,
         { prng with
           keystream := aes_encrypt_block prng.counter prng.expanded_key
           pos := 8
           counter := aes_ctr_increment 16 prng.counter }) := by
  simp [aes_ctr_next, aes_ctr_next_byte, load_lane, range8, hpos]

/-- A call of `aes_ctr_next` with `pos = 8`: the last eight bytes of the
current block are packed. -/
theorem aes_ctr_next_second (prng : AES_CTR_PRNG) (hpos : prng.pos = 8) :
    aes_ctr_next prng = (load_lane prng.keystream 16 1, { prng with pos := 16 }) := by
  simp [aes_ctr_next, aes_ctr_next_byte, load_lane, range8, hpos]

/-! ### The counter -/

theorem be_val_append_one (xs : List Nat) (b : Nat) : be_val (xs ++ [b]) = be_val xs * 256 + b := by
  simp [be_val, List.foldl_append]

theorem be_val_lt (c : List Nat) (h : ∀ b ∈ c, b < 256) : be_val c < 256 ^ c.length := by
  induction c using List.reverseRecOn with
  | nil => simp [be_val]
  | append_singleton xs b ih =>
    have hx : ∀ x ∈ xs, x < 256 := fun x hx => h x (List.mem_append_left _ hx)
    have hb : b < 256 := h b (by simp)
    have := ih hx
    rw [be_val_append_one, List.length_append, List.length_singleton, Nat.pow_succ]
    omega

theorem be_val_inj (xs ys : List Nat) (hl : xs.length = ys.length) (hx : ∀ b ∈ xs, b < 256)
    (hy : ∀ b ∈ ys, b < 256) (h : be_val xs = be_val ys) : xs = ys := by
  induction xs using List.reverseRecOn generalizing ys with
  | nil =>
    simp only [List.length_nil] at hl
    exact (List.length_eq_zero.mp hl.symm).symm
  | append_singleton xs a ih =>
    rcases List.eq_nil_or_concat ys with rfl | ⟨ys', b, rfl⟩
    · simp at hl
    · simp only [List.concat_eq_append] at *
      have hxa : a < 256 := hx a (by simp)
      have hyb : b < 256 := hy b (by simp)
      rw [be_val_append_one, be_val_append_one] at h
      have hab : a = b := by omega
      have hv : be_val xs = be_val ys' := by omega
      have hl' : xs.length = ys'.length := by simpa using hl
      rw [ih ys' hl' (fun x hx' => hx x (List.mem_append_left _ hx'))
        (fun y hy' => hy y (List.mem_append_left _ hy')) hv, hab]

theorem aes_ctr_increment_append (j : Nat) (xs ys : List Nat) (hj : j ≤ xs.length) :
    aes_ctr_increment j (xs ++ ys) = aes_ctr_increment j xs ++ ys := by
  induction j generalizing xs with
  | zero => rfl
  | succ j ih =>
    have hlt : j < xs.length := by omega
    simp only [aes_ctr_increment]
    rw [List.getD_append _ _ _ _ hlt, List.set_append_left _ _ hlt]
    split
    · rfl
    · have := ih (xs.set j ((xs.getD j 0 + 1) % 256)) (by simp; omega)
      exact this

theorem aes_ctr_increment_snoc (xs : List Nat) (b : Nat) :
    aes_ctr_increment (xs.length + 1) (xs ++ [b])
      = if (b + 1) % 256 ≠ 0 then xs ++ [(b + 1) % 256]
        else aes_ctr_increment xs.length xs ++ [0] := by
  simp only [aes_ctr_increment]
  have h1 : (xs ++ [b]).getD xs.length 0 = b := getD_append_cons xs [] b 0
  have h2 : ∀ v, (xs ++ [b]).set xs.length v = xs ++ [v] := fun v => set_append_cons xs [] b v
  rw [h1, h2]
  split
  · rfl
  · rename_i hv
    have hv0 : (b + 1) % 256 = 0 := by omega
    rw [hv0, aes_ctr_increment_append _ _ _ (le_refl _)]

/-- The counter loop adds one to a byte list read as a big-endian number,
modulo `256 ^ length`. -/
theorem aes_ctr_increment_val (c : List Nat) (h : ∀ b ∈ c, b < 256) :
    (aes_ctr_increment c.length c).length = c.length
      ∧ (∀ b ∈ aes_ctr_increment c.length c, b < 256)
      ∧ be_val (aes_ctr_increment c.length c) = (be_val c + 1) % 256 ^ c.length := by
  induction c using List.reverseRecOn with
  | nil => simp [aes_ctr_increment, be_val]
  | append_singleton xs b ih =>
    have hx : ∀ x ∈ xs, x < 256 := fun x hx => h x (List.mem_append_left _ hx)
    have hb : b < 256 := h b (by simp)
    obtain ⟨i1, i2, i3⟩ := ih hx
    have hlt := be_val_lt xs hx
    rw [List.length_append, List.length_singleton, aes_ctr_increment_snoc]
    by_cases hv : (b + 1) % 256 ≠ 0
    · rw [if_pos hv]
      have hb1 : (b + 1) % 256 = b + 1 := by omega
      refine ⟨by simp, ?_, ?_⟩
      · intro y hy
        rcases List.mem_append.mp hy with hy | hy
        · exact hx y hy
        · simp only [List.mem_singleton] at hy
          omega
      · have hlt2 : be_val xs * 256 + b + 1 < 256 ^ xs.length * 256 := by
          generalize 256 ^ xs.length = P at hlt
          omega
        rw [be_val_append_one, be_val_append_one, hb1, Nat.pow_succ, Nat.mod_eq_of_lt hlt2]
        ring
    · rw [if_neg hv]
      have hb255 : b = 255 := by omega
      refine ⟨by simp [i1], ?_, ?_⟩
      · intro y hy
        rcases List.mem_append.mp hy with hy | hy
        · exact i2 y hy
        · simp only [List.mem_singleton] at hy
          omega
      · rw [be_val_append_one, be_val_append_one, i3, hb255, Nat.pow_succ,
          show be_val xs * 256 + 255 + 1 = (be_val xs + 1) * 256 by ring,
          Nat.mul_mod_mul_right, Nat.add_zero]

theorem counter_block_length (n : Nat) : (counter_block n).length = 16 := by
  simp [counter_block]

theorem counter_block_lt (n : Nat) : ∀ b ∈ counter_block n, b < 256 := by
  intro b hb
  simp only [counter_block, List.mem_map] at hb
  obtain ⟨i, -, rfl⟩ := hb
  exact Nat.mod_lt _ (by norm_num)

theorem counter_block_isBlock (n : Nat) : IsBlock (counter_block n) :=
  ⟨counter_block_length n, counter_block_lt n⟩

theorem be_val_digits (k n : Nat) :
    be_val ((List.range k).map (fun i => (n >>> ((k - 1 - i) * 8)) % 256)) = n % 256 ^ k := by
  induction k generalizing n with
  | zero => simp [be_val, Nat.mod_one]
  | succ k ih =>
    rw [List.range_succ, List.map_append, List.map_singleton, be_val_append_one]
    have hc : (List.range k).map (fun i => (n >>> ((k + 1 - 1 - i) * 8)) % 256)
        = (List.range k).map (fun i => ((n >>> 8) >>> ((k - 1 - i) * 8)) % 256) := by
      apply List.map_congr_left
      intro i hi
      have hik : i < k := List.mem_range.mp hi
      rw [← Nat.shiftRight_add]
      congr 2
      omega
    rw [hc, ih (n >>> 8)]
    have e0 : (k + 1 - 1 - k) * 8 = 0 := by omega
    have e8 : n >>> 8 = n / 256 := by rw [Nat.shiftRight_eq_div_pow]
    have ep : 256 ^ (k + 1) = 256 * 256 ^ k := by rw [Nat.pow_succ, Nat.mul_comm]
    rw [e0, Nat.shiftRight_zero, e8, ep, Nat.mod_mul]
    ring

theorem be_val_counter_block (n : Nat) : be_val (counter_block n) = n % 256 ^ 16 :=
  be_val_digits 16 n

/-- The counter loop takes the encoding of `n` to the encoding of `n + 1`. -/
theorem aes_ctr_increment_counter_block (n : Nat) :
    aes_ctr_increment 16 (counter_block n) = counter_block (n + 1) := by
  obtain ⟨h1, h2, h3⟩ := aes_ctr_increment_val (counter_block n) (counter_block_lt n)
  rw [counter_block_length] at h1 h2 h3
  apply be_val_inj _ _ (by rw [h1, counter_block_length]) h2 (counter_block_lt _)
  rw [h3, be_val_counter_block, be_val_counter_block]
  exact Nat.mod_add_mod n (256 ^ 16) 1

/-! ### The generator after `k` calls -/

theorem aes_ctr_next_fresh_fields (prng : AES_CTR_PRNG) (hpos : prng.pos = 16) :
    (aes_ctr_next prng).1
        = load_lane (aes_encrypt_block prng.counter prng.expanded_key) 16 0
      ∧ (aes_ctr_next prng).2.expanded_key = prng.expanded_key
      ∧ (aes_ctr_next prng).2.counter = aes_ctr_increment 16 prng.counter
      ∧ (aes_ctr_next prng).2.pos = 8
      ∧ (aes_ctr_next prng).2.keystream
          = aes_encrypt_block prng.counter prng.expanded_key := by
  rw [aes_ctr_next_fresh prng hpos]
  simp only [and_self]

theorem aes_ctr_next_second_fields (prng : AES_CTR_PRNG) (hpos : prng.pos = 8) :
    (aes_ctr_next prng).1 = load_lane prng.keystream 16 1
      ∧ (aes_ctr_next prng).2.expanded_key = prng.expanded_key
      ∧ (aes_ctr_next prng).2.counter = prng.counter
      ∧ (aes_ctr_next prng).2.pos = 16 := by
  rw [aes_ctr_next_second prng hpos]
  simp only [and_self]

/-- The generator after `k` calls of `aes_ctr_next`: the counter holds
`ceil(k / 2)`, and `pos` is 16 after an even number of calls and 8 after an odd
one, when the buffer holds the block of counter `floor(k / 2)`. -/
theorem aes_ctr_state (seed : List Nat) (k : Nat) :
    (aes_ctr_words k (aes_ctr_init seed)).2.expanded_key = aes_expand_key (seed.take 32)
      ∧ (aes_ctr_words k (aes_ctr_init seed)).2.counter = counter_block ((k + 1) / 2)
      ∧ (aes_ctr_words k (aes_ctr_init seed)).2.pos = (if k % 2 = 0 then 16 else 8)
      ∧ (k % 2 = 1 → (aes_ctr_words k (aes_ctr_init seed)).2.keystream
          = aes_encrypt_block (counter_block (k / 2)) (aes_expand_key (seed.take 32))) := by
  induction k with
  | zero =>
    have hc : List.replicate 16 0 = counter_block ((0 + 1) / 2) := by decide
    exact ⟨rfl, hc, rfl, fun h => by omega⟩
  | succ k ih =>
    obtain ⟨h1, h2, h3, h4⟩ := ih
    rw [aes_ctr_words_state_succ]
    generalize (aes_ctr_words k (aes_ctr_init seed)).2 = S at h1 h2 h3 h4 ⊢
    by_cases hk : k % 2 = 0
    · rw [if_pos hk] at h3
      obtain ⟨-, f2, f3, f4, f5⟩ := aes_ctr_next_fresh_fields S h3
      have e1 : (k + 1) / 2 = k / 2 := by omega
      have e2 : (k + 1 + 1) / 2 = k / 2 + 1 := by omega
      rw [f2, f3, f4, f5, h1, h2, e1, e2, aes_ctr_increment_counter_block,
        if_neg (by omega)]
      exact ⟨rfl, rfl, rfl, fun _ => rfl⟩
    · rw [if_neg hk] at h3
      obtain ⟨-, f2, f3, f4⟩ := aes_ctr_next_second_fields S h3
      have e2 : (k + 1 + 1) / 2 = (k + 1) / 2 := by omega
      rw [f2, f3, f4, h1, h2, e2, if_pos (by omega)]
      exact ⟨rfl, rfl, rfl, fun h => by omega⟩

/-- C12: for every 32-byte seed and every `k`, value `k` (counted from 0) that
`aes_ctr_next` returns after `aes_ctr_init(seed)` is the little-endian packing
of the bytes `8 (k mod 2) .. 8 (k mod 2) + 7` of `aes_encrypt_block` applied to
the 16-byte big-endian encoding of `floor(k / 2)` under `aes_expand_key(seed)`;
before that call the counter holds the encoding of `ceil(k / 2)` and `pos` is 16
for even `k` (a block is generated) and 8 for odd `k` (none is). -/
theorem C12_ctr_stream (seed : List Nat) (k : Nat) (hseed : seed.length = 32) :
    (aes_ctr_words (k + 1) (aes_ctr_init seed)).1.getD k 0
        = pack_word (aes_encrypt_block (counter_block (k / 2)) (aes_expand_key seed)) (k % 2)
      ∧ (aes_ctr_words k (aes_ctr_init seed)).2.counter = counter_block ((k + 1) / 2)
      ∧ (aes_ctr_words k (aes_ctr_init seed)).2.pos = (if k % 2 = 0 then 16 else 8) := by
  obtain ⟨h1, h2, h3, h4⟩ := aes_ctr_state seed k
  have ht : seed.take 32 = seed := List.take_of_length_le (le_of_eq hseed)
  rw [ht] at h1 h4
  refine ⟨?_, h2, h3⟩
  rw [aes_ctr_words_getD (k + 1) k _ (by omega)]
  have hblk := aes_encrypt_block_block (counter_block (k / 2)) (aes_expand_key seed)
    (counter_block_isBlock (k / 2))
  have hbyte : ∀ i j, j < 8 →
      (aes_encrypt_block (counter_block (k / 2)) (aes_expand_key seed)).getD (i * 8 + j) 0
        < 256 := by
    intro i j _
    rw [List.getD_eq_getElem?_getD]
    rcases hg : (aes_encrypt_block (counter_block (k / 2)) (aes_expand_key seed))[i * 8 + j]?
      with _ | v
    · simp
    · exact hblk.2 v (List.getElem?_mem hg)
  generalize (aes_ctr_words k (aes_ctr_init seed)).2 = S at h1 h2 h3 h4 ⊢
  by_cases hk : k % 2 = 0
  · rw [if_pos hk] at h3
    have e1 : (k + 1) / 2 = k / 2 := by omega
    rw [(aes_ctr_next_fresh_fields S h3).1, h1, h2, e1, hk]
    exact load_lane_eq_pack_word _ 16 0 (hbyte 0) (by omega)
  · rw [if_neg hk] at h3
    have hk1 : k % 2 = 1 := by omega
    rw [(aes_ctr_next_second_fields S h3).1, h4 hk1, hk1]
    exact load_lane_eq_pack_word _ 16 1 (hbyte 1) (by omega)

/-- C12 at the all-zero seed, `k = 3`: the value is the packing of the bytes
`8 .. 15` of the block of counter 1. -/
theorem C12_ctr_stream_witness :
    (aes_ctr_words (3 + 1) (aes_ctr_init (List.replicate 32 0))).1.getD 3 0
        = pack_word (aes_encrypt_block (counter_block (3 / 2))
            (aes_expand_key (List.replicate 32 0))) (3 % 2)
      ∧ (aes_ctr_words 3 (aes_ctr_init (List.replicate 32 0))).2.counter = counter_block 2
      ∧ (aes_ctr_words (3 + 1) (aes_ctr_init (List.replicate 32 0))).1.getD 3 0
        = 6834105281443381967 :=
  ⟨(C12_ctr_stream (List.replicate 32 0) 3 (by decide)).1,
   (C12_ctr_stream (List.replicate 32 0) 3 (by decide)).2.1, by decide!⟩

/-! ## Iota -/

/-- The bits of the table `canonical_rc`, against the LFSR of FIPS 202. -/
theorem canonical_rc_bits : ∀ r, r < 24 →
    (∀ j, j < 7 → (canonical_rc.getD r 0).testBit (2 ^ j - 1) = fips202_rc (j + 7 * r))
      ∧ (∀ i, i < 64 → (∀ j, j < 7 → i ≠ 2 ^ j - 1) → (canonical_rc.getD r 0).testBit i = false)
      ∧ canonical_rc.getD r 0 < 2 ^ 64 := by
  decide!

/-- C18: for every round `r < 24` and every state, `iota_v0` XORs into lane 0
the value `canonical_rc[r]`, whose bit `2^j - 1` is `rc(j + 7 r)` for
`j = 0 .. 6` (`rc` the LFSR of FIPS 202) and whose other bits are zero: the
round constant `RC[r]` of Keccak-f[1600]. -/
theorem C18_canonical_round_constants (A : List Nat) (r : Nat) (hr : r < 24) :
    iota_v0 A r = A.set 0 (A.getD 0 0 ^^^ canonical_rc.getD r 0)
      ∧ (∀ j, j < 7 → (canonical_rc.getD r 0).testBit (2 ^ j - 1) = fips202_rc (j + 7 * r))
      ∧ (∀ i, (∀ j, j < 7 → i ≠ 2 ^ j - 1) → (canonical_rc.getD r 0).testBit i = false) := by
  obtain ⟨h1, h2, h3⟩ := canonical_rc_bits r hr
  refine ⟨rfl, h1, ?_⟩
  intro i hi
  by_cases h64 : i < 64
  · exact h2 i h64 hi
  · exact Nat.testBit_lt_two_pow
      (lt_of_lt_of_le h3 (Nat.pow_le_pow_right (by norm_num) (by omega)))

/-- C18 at round 2: the constant is `0x800000000000808A`, bits 1, 3, 7, 15 and
63, as `rc(15)`, `rc(16)`, `rc(17)`, `rc(18)` and `rc(20)` are set and `rc(14)`,
`rc(19)` are not. -/
theorem C18_canonical_round_constants_witness :
    iota_v0 (List.replicate 25 0) 2 = 0x800000000000808A :: List.replicate 24 0
      ∧ (∀ j, j < 7 → (canonical_rc.getD 2 0).testBit (2 ^ j - 1) = fips202_rc (j + 7 * 2))
      ∧ (List.range 7).map (fun j => fips202_rc (j + 7 * 2))
          = [false, true, true, true, true, false, true] := by
  have h := C18_canonical_round_constants (List.replicate 25 0) 2 (by decide)
  exact ⟨by rw [h.1]; decide, h.2.1, by decide⟩

/-- C19: for every iota variant, every round below 24 and every state, the call
changes lane 0 only: the lanes `1 .. 24` are unchanged and the new lane 0 is
`A[0] ^ c`, where `c` is the entry `round` of the table of the variant (for
`iota_v6`, the LFSR value after `round + 1` steps), a value that does not
depend on the state; every table is read inside its 24 entries. -/
theorem C19_iota_changes_lane_zero (A : List Nat) (round : Nat) (hA : A.length = 25)
    (hr : round < 24) :
    (iota_v0 A round = (A.getD 0 0 ^^^ canonical_rc.getD round 0) :: A.tail)
      ∧ (iota_v1 A round = (A.getD 0 0 ^^^ iota_phi_constants.getD round 0) :: A.tail)
      ∧ (iota_v2 A round = (A.getD 0 0 ^^^ ca_constants.getD round 0) :: A.tail)
      ∧ (iota_v3 A round = (A.getD 0 0 ^^^ sha256_style_constants.getD round 0) :: A.tail)
      ∧ (iota_v4 A round = (A.getD 0 0 ^^^ pi_constants.getD round 0) :: A.tail)
      ∧ (iota_v5 A round = (A.getD 0 0 ^^^ e_constants.getD round 0) :: A.tail)
      ∧ (iota_v6 A round = (A.getD 0 0 ^^^ iota_v6_lfsr round) :: A.tail)
      ∧ (∀ c i, 1 ≤ i → ((A.getD 0 0 ^^^ c) :: A.tail)[i]? = A[i]?)
      ∧ (round < canonical_rc.length ∧ round < iota_phi_constants.length
          ∧ round < ca_constants.length ∧ round < sha256_style_constants.length
          ∧ round < pi_constants.length ∧ round < e_constants.length) := by
  have hlen : canonical_rc.length = 24 ∧ iota_phi_constants.length = 24
      ∧ ca_constants.length = 24 ∧ sha256_style_constants.length = 24
      ∧ pi_constants.length = 24 ∧ e_constants.length = 24 := by decide
  obtain ⟨l0, l1, l2, l3, l4, l5⟩ := hlen
  match A, hA with
  | a :: rest, _ =>
    refine ⟨rfl, rfl, rfl, rfl, rfl, rfl, rfl, ?_, by omega⟩
    intro c i hi
    obtain ⟨k, rfl⟩ : ∃ k, i = k + 1 := ⟨i - 1, by omega⟩
    rfl

/-- C19 at the all-zero state, round 0: `iota_v0` leaves lane 0 equal to 1 and
every other lane zero. -/
theorem C19_iota_changes_lane_zero_witness :
    iota_v0 (List.replicate 25 0) 0 = 0x0000000000000001 :: List.replicate 24 0 := by
  have h := (C19_iota_changes_lane_zero (List.replicate 25 0) 0 (by decide) (by decide)).1
  rw [h]
  decide

/-! ## Theta at a concrete state -/

/-- C20: for the state with lane 0 equal to 1 and every other lane zero,
`theta_v0` computes `C = (1, 0, 0, 0, 0)` and `D = (0, 1, 0, 0, 2)`, so that
afterwards the lanes 4, 9, 14, 19, 24 are 2, the lanes 1, 6, 11, 16, 21 are 1,
lane 0 is 1 and every other lane is 0. -/
theorem C20_theta_v0_unit_state :
    theta_C (1 :: List.replicate 24 0) = [1, 0, 0, 0, 0]
      ∧ theta_D 1 (theta_C (1 :: List.replicate 24 0)) = [0, 1, 0, 0, 2]
      ∧ theta_v0 (1 :: List.replicate 24 0)
          = [1, 1, 0, 0, 2, 0, 1, 0, 0, 2, 0, 1, 0, 0, 2, 0, 1, 0, 0, 2, 0, 1, 0, 0, 2] := by
  decide!

/-! ## The rotation `rol64` -/

theorem testBit_of_lt_size (x i : Nat) (hx : x < SIZE_MOD) (hi : 64 ≤ i) : x.testBit i = false :=
  Nat.testBit_lt_two_pow (lt_of_lt_of_le hx (Nat.pow_le_pow_right (by norm_num) hi))

/-- Bit `i` of `rol64 x n` is bit `(i - n) mod 64` of `x`. -/
theorem rol64_testBit (x n i : Nat) (hx : x < SIZE_MOD) (hn : n < 64) :
    (rol64 x n).testBit i = (decide (i < 64) && x.testBit ((i + 64 - n) % 64)) := by
  unfold rol64
  simp only [SIZE_MOD, Nat.testBit_or, Nat.testBit_mod_two_pow, Nat.testBit_shiftLeft,
    Nat.testBit_shiftRight]
  by_cases hi : i < 64
  · by_cases hin : n ≤ i
    · have e1 : (i + 64 - n) % 64 = i - n := by omega
      have e2 : x.testBit (64 - n + i) = false := testBit_of_lt_size x _ hx (by omega)
      rw [e1, e2]
      simp [hi, hin]
    · have e1 : (i + 64 - n) % 64 = 64 - n + i := by omega
      rw [e1]
      simp [hi, hin]
  · have e2 : x.testBit (64 - n + i) = false := testBit_of_lt_size x _ hx (by omega)
    rw [e2]
    simp [hi]

theorem rol64_lt (x n : Nat) (hx : x < SIZE_MOD) : rol64 x n < SIZE_MOD := by
  unfold rol64 SIZE_MOD
  apply Nat.or_lt_two_pow
  · exact Nat.mod_lt _ (by norm_num)
  · rw [Nat.shiftRight_eq_div_pow]
    exact lt_of_le_of_lt (Nat.div_le_self _ _) hx

theorem xor_lt_size (a b : Nat) (ha : a < SIZE_MOD) (hb : b < SIZE_MOD) : a ^^^ b < SIZE_MOD :=
  Nat.xor_lt_two_pow (n := 64) ha hb

/-- On 64-bit lanes `rol64` by less than 64 is injective. -/
theorem rol64_inj (x y n : Nat) (hx : x < SIZE_MOD) (hy : y < SIZE_MOD) (hn : n < 64)
    (h : rol64 x n = rol64 y n) : x = y := by
  apply Nat.eq_of_testBit_eq
  intro j
  by_cases hj : j < 64
  · have hx' := rol64_testBit x n ((j + n) % 64) hx hn
    have hy' := rol64_testBit y n ((j + n) % 64) hy hn
    have e : ((j + n) % 64 + 64 - n) % 64 = j := by omega
    have hlt : (j + n) % 64 < 64 := Nat.mod_lt _ (by norm_num)
    rw [e] at hx' hy'
    simp only [hlt, decide_True, Bool.true_and] at hx' hy'
    rw [← hx', ← hy', h]
  · rw [testBit_of_lt_size x j hx (by omega), testBit_of_lt_size y j hy (by omega)]

/-- On 64-bit lanes `rol64` by less than 64 distributes over XOR. -/
theorem rol64_xor (x y n : Nat) (hx : x < SIZE_MOD) (hy : y < SIZE_MOD) (hn : n < 64) :
    rol64 (x ^^^ y) n = rol64 x n ^^^ rol64 y n := by
  apply Nat.eq_of_testBit_eq
  intro i
  rw [Nat.testBit_xor, rol64_testBit _ n i (xor_lt_size x y hx hy) hn, rol64_testBit x n i hx hn,
    rol64_testBit y n i hy hn, Nat.testBit_xor]
  cases decide (i < 64) <;> simp

theorem rol64_zero (n : Nat) : rol64 0 n = 0 := by
  simp [rol64]

/-! ## Rho-Pi -/

theorem range5 : List.range 5 = [0, 1, 2, 3, 4] := rfl

theorem list25 (l : List Nat) (h : l.length = 25) :
    ∃ a0 a1 a2 a3 a4 a5 a6 a7 a8 a9 a10 a11 a12 a13 a14 a15 a16 a17 a18 a19 a20 a21 a22 a23 a24,
      l = [a0, a1, a2, a3, a4, a5, a6, a7, a8, a9, a10, a11, a12, a13, a14, a15, a16, a17, a18,
        a19, a20, a21, a22, a23, a24] := by
  match l, h with
  | [a0, a1, a2, a3, a4, a5, a6, a7, a8, a9, a10, a11, a12, a13, a14, a15, a16, a17, a18, a19,
      a20, a21, a22, a23, a24], _ =>
    exact ⟨a0, a1, a2, a3, a4, a5, a6, a7, a8, a9, a10, a11, a12, a13, a14, a15, a16, a17, a18,
      a19, a20, a21, a22, a23, a24, rfl⟩

theorem getD_lt_of_state (A : List Nat) (hA : ∀ a ∈ A, a < SIZE_MOD) (i : Nat) :
    A.getD i 0 < SIZE_MOD := by
  rw [List.getD_eq_getElem?_getD]
  rcases h : A[i]? with _ | v
  · simp [SIZE_MOD]
  · exact hA v (List.getElem?_mem h)

theorem zipWith_rol64_lt (xs amts : List Nat) (hx : ∀ x ∈ xs, x < SIZE_MOD) :
    ∀ z ∈ List.zipWith rol64 xs amts, z < SIZE_MOD := by
  induction xs generalizing amts with
  | nil => simp
  | cons x xs ih =>
    cases amts with
    | nil => simp
    | cons r rs =>
      intro z hz
      simp only [List.zipWith_cons_cons, List.mem_cons] at hz
      rcases hz with rfl | hz
      · exact rol64_lt x r (hx x (List.mem_cons_self _ _))
      · exact ih rs (fun y hy => hx y (List.mem_cons_of_mem _ hy)) z hz

theorem zipWith_rol64_inj (amts xs ys : List Nat) (hxl : xs.length = amts.length)
    (hyl : ys.length = amts.length) (hamt : ∀ r ∈ amts, r < 64)
    (hx : ∀ x ∈ xs, x < SIZE_MOD) (hy : ∀ y ∈ ys, y < SIZE_MOD)
    (h : List.zipWith rol64 xs amts = List.zipWith rol64 ys amts) : xs = ys := by
  induction amts generalizing xs ys with
  | nil =>
    rw [List.length_eq_zero.mp hxl, List.length_eq_zero.mp hyl]
  | cons r rs ih =>
    cases xs with
    | nil => simp at hxl
    | cons x xs =>
      cases ys with
      | nil => simp at hyl
      | cons y ys =>
        simp only [List.zipWith_cons_cons, List.cons.injEq] at h
        have hxy : x = y := rol64_inj x y r (hx x (List.mem_cons_self _ _))
          (hy y (List.mem_cons_self _ _)) (hamt r (List.mem_cons_self _ _)) h.1
        have hrest := ih xs ys (by simpa using hxl) (by simpa using hyl)
          (fun q hq => hamt q (List.mem_cons_of_mem _ hq))
          (fun q hq => hx q (List.mem_cons_of_mem _ hq))
          (fun q hq => hy q (List.mem_cons_of_mem _ hq)) h.2
        rw [hxy, hrest]

/-- A step that moves every lane to a new place and rotates it by less than 64
is a bijection of the 25-lane states. -/
theorem rol_perm_bijective (f : List Nat → List Nat) (src amt : List Nat)
    (hs : src.length = 25) (ha : amt.length = 25) (hsrc : ∀ i, i < 25 → i ∈ src)
    (hamt : ∀ r ∈ amt, r < 64)
    (hf : ∀ A, A.length = 25 →
      f A = List.zipWith rol64 (src.map (fun i => A.getD i 0)) amt) :
    (∀ A, IsState A → IsState (f A))
      ∧ (∀ A B, IsState A → IsState B → f A = f B → A = B)
      ∧ (∀ B, IsState B → ∃ A, IsState A ∧ f A = B) := by
  have hmap : ∀ A, IsState A → IsState (f A) := by
    intro A hA
    rw [hf A hA.1]
    refine ⟨by simp [hs, ha], ?_⟩
    apply zipWith_rol64_lt
    intro x hx
    obtain ⟨i, -, rfl⟩ := List.mem_map.mp hx
    exact getD_lt_of_state A hA.2 i
  have hinj : ∀ A B, IsState A → IsState B → f A = f B → A = B := by
    intro A B hA hB h
    rw [hf A hA.1, hf B hB.1] at h
    have hm := zipWith_rol64_inj amt _ _ (by simp [hs, ha]) (by simp [hs, ha]) hamt
      (by
        intro x hx
        obtain ⟨i, -, rfl⟩ := List.mem_map.mp hx
        exact getD_lt_of_state A hA.2 i)
      (by
        intro x hx
        obtain ⟨i, -, rfl⟩ := List.mem_map.mp hx
        exact getD_lt_of_state B hB.2 i) h
    have hall := List.map_inj_left.mp hm
    apply List.ext_getElem (by rw [hA.1, hB.1])
    intro i h1 h2
    have hi : i < 25 := by rw [← hA.1]; exact h1
    have := hall i (hsrc i hi)
    rw [List.getD_eq_getElem A 0 h1, List.getD_eq_getElem B 0 h2] at this
    exact this
  exact ⟨hmap, hinj,
    surj_of_inj_on_finite {l | l.length = 25 ∧ ∀ a ∈ l, a < SIZE_MOD}
      (bounded_lists_finite 25 SIZE_MOD) f hmap hinj⟩

/-- The function `rhopi_v1` in closed form: destination lane `d` is the source
lane `src[d]` rotated by `amt[d]`. -/
theorem rhopi_v1_closed (A : List Nat) (hA : A.length = 25) :
    rhopi_v1 A = List.zipWith rol64
      ((([0, 6, 12, 18, 24, 3, 9, 10, 16, 22, 1, 7, 13, 19, 20, 4, 5, 11, 17, 23, 2, 8, 14, 15, 21] : List Nat)).map (fun i => A.getD i 0))
      [0, 8, 16, 24, 14, 34, 18, 1, 21, 57, 5, 25, 61, 7, 3, 45, 1, 13, 41, 21, 55, 27, 63, 2, 34] := by
  obtain ⟨a0, a1, a2, a3, a4, a5, a6, a7, a8, a9, a10, a11, a12, a13, a14, a15, a16, a17, a18,
    a19, a20, a21, a22, a23, a24, rfl⟩ := list25 A hA
  simp [rhopi_v1, rhopi_loop, range5, memcpy, table_at, fib_offsets, newY_std]

theorem rhopi_v1_bijective :
    (∀ A, IsState A → IsState (rhopi_v1 A))
      ∧ (∀ A B, IsState A → IsState B → rhopi_v1 A = rhopi_v1 B → A = B)
      ∧ (∀ B, IsState B → ∃ A, IsState A ∧ rhopi_v1 A = B) :=
  rol_perm_bijective rhopi_v1 _ _ (by decide) (by decide) (by decide) (by decide)
    rhopi_v1_closed

/-- The function `rhopi_v2` in closed form: destination lane `d` is the source
lane `src[d]` rotated by `amt[d]`. -/
theorem rhopi_v2_closed (A : List Nat) (hA : A.length = 25) :
    rhopi_v2 A = List.zipWith rol64
      ((([0, 6, 12, 18, 24, 3, 9, 10, 16, 22, 1, 7, 13, 19, 20, 4, 5, 11, 17, 23, 2, 8, 14, 15, 21] : List Nat)).map (fun i => A.getD i 0))
      [0, 13, 37, 61, 19, 47, 11, 3, 19, 43, 11, 31, 59, 17, 7, 7, 2, 17, 41, 1, 29, 53, 13, 5, 23] := by
  obtain ⟨a0, a1, a2, a3, a4, a5, a6, a7, a8, a9, a10, a11, a12, a13, a14, a15, a16, a17, a18,
    a19, a20, a21, a22, a23, a24, rfl⟩ := list25 A hA
  simp [rhopi_v2, rhopi_loop, range5, memcpy, table_at, prime_offsets, newY_std]

theorem rhopi_v2_bijective :
    (∀ A, IsState A → IsState (rhopi_v2 A))
      ∧ (∀ A B, IsState A → IsState B → rhopi_v2 A = rhopi_v2 B → A = B)
      ∧ (∀ B, IsState B → ∃ A, IsState A ∧ rhopi_v2 A = B) :=
  rol_perm_bijective rhopi_v2 _ _ (by decide) (by decide) (by decide) (by decide)
    rhopi_v2_closed

/-- The function `rhopi_v3` in closed form: destination lane `d` is the source
lane `src[d]` rotated by `amt[d]`. -/
theorem rhopi_v3_closed (A : List Nat) (hA : A.length = 25) :
    rhopi_v3 A = List.zipWith rol64
      ((([0, 6, 12, 18, 24, 3, 9, 10, 16, 22, 1, 7, 13, 19, 20, 4, 5, 11, 17, 23, 2, 8, 14, 15, 21] : List Nat)).map (fun i => A.getD i 0))
      [0, 15, 31, 46, 62, 38, 54, 5, 21, 36, 13, 28, 44, 59, 10, 51, 3, 18, 33, 49, 26, 41, 56, 8, 23] := by
  obtain ⟨a0, a1, a2, a3, a4, a5, a6, a7, a8, a9, a10, a11, a12, a13, a14, a15, a16, a17, a18,
    a19, a20, a21, a22, a23, a24, rfl⟩ := list25 A hA
  simp [rhopi_v3, rhopi_loop, range5, memcpy, table_at, uniform_offsets, newY_std]

theorem rhopi_v3_bijective :
    (∀ A, IsState A → IsState (rhopi_v3 A))
      ∧ (∀ A B, IsState A → IsState B → rhopi_v3 A = rhopi_v3 B → A = B)
      ∧ (∀ B, IsState B → ∃ A, IsState A ∧ rhopi_v3 A = B) :=
  rol_perm_bijective rhopi_v3 _ _ (by decide) (by decide) (by decide) (by decide)
    rhopi_v3_closed

/-- The function `rhopi_v4` in closed form: destination lane `d` is the source
lane `src[d]` rotated by `amt[d]`. -/
theorem rhopi_v4_closed (A : List Nat) (hA : A.length = 25) :
    rhopi_v4 A = List.zipWith rol64
      ((([0, 9, 13, 17, 21, 1, 5, 14, 18, 22, 2, 6, 10, 19, 23, 3, 7, 11, 15, 24, 4, 8, 12, 16, 20] : List Nat)).map (fun i => A.getD i 0))
      [0, 20, 25, 15, 2, 1, 36, 39, 21, 61, 62, 44, 3, 8, 56, 28, 6, 10, 41, 14, 27, 55, 43, 45, 18] := by
  obtain ⟨a0, a1, a2, a3, a4, a5, a6, a7, a8, a9, a10, a11, a12, a13, a14, a15, a16, a17, a18,
    a19, a20, a21, a22, a23, a24, rfl⟩ := list25 A hA
  simp [rhopi_v4, rhopi_loop, range5, memcpy, table_at, rho, newY_v4]

theorem rhopi_v4_bijective :
    (∀ A, IsState A → IsState (rhopi_v4 A))
      ∧ (∀ A B, IsState A → IsState B → rhopi_v4 A = rhopi_v4 B → A = B)
      ∧ (∀ B, IsState B → ∃ A, IsState A ∧ rhopi_v4 A = B) :=
  rol_perm_bijective rhopi_v4 _ _ (by decide) (by decide) (by decide) (by decide)
    rhopi_v4_closed

/-- The function `rhopi_v5` in closed form: destination lane `d` is the source
lane `src[d]` rotated by `amt[d]`. -/
theorem rhopi_v5_closed (A : List Nat) (hA : A.length = 25) :
    rhopi_v5 A = List.zipWith rol64
      ((([0, 6, 12, 18, 24, 3, 9, 10, 16, 22, 1, 7, 13, 19, 20, 4, 5, 11, 17, 23, 2, 8, 14, 15, 21] : List Nat)).map (fun i => A.getD i 0))
      [0, 31, 62, 29, 60, 38, 5, 1, 32, 63, 41, 8, 39, 6, 2, 15, 11, 42, 9, 40, 18, 49, 16, 12, 43] := by
  obtain ⟨a0, a1, a2, a3, a4, a5, a6, a7, a8, a9, a10, a11, a12, a13, a14, a15, a16, a17, a18,
    a19, a20, a21, a22, a23, a24, rfl⟩ := list25 A hA
  simp [rhopi_v5, rhopi_loop, range5, memcpy, rot_v5, newY_std]

theorem rhopi_v5_bijective :
    (∀ A, IsState A → IsState (rhopi_v5 A))
      ∧ (∀ A B, IsState A → IsState B → rhopi_v5 A = rhopi_v5 B → A = B)
      ∧ (∀ B, IsState B → ∃ A, IsState A ∧ rhopi_v5 A = B) :=
  rol_perm_bijective rhopi_v5 _ _ (by decide) (by decide) (by decide) (by decide)
    rhopi_v5_closed

/-- The function `rhopi_v6` in closed form: destination lane `d` is the source
lane `src[d]` rotated by `amt[d]`. -/
theorem rhopi_v6_closed (A : List Nat) (hA : A.length = 25) :
    rhopi_v6 A = List.zipWith rol64
      ((([0, 6, 12, 18, 24, 3, 9, 10, 16, 22, 1, 7, 13, 19, 20, 4, 5, 11, 17, 23, 2, 8, 14, 15, 21] : List Nat)).map (fun i => A.getD i 0))
      [0, 13, 9, 50, 49, 35, 22, 2, 34, 2, 8, 16, 44, 39, 5, 15, 1, 21, 4, 57, 25, 39, 30, 3, 55] := by
  obtain ⟨a0, a1, a2, a3, a4, a5, a6, a7, a8, a9, a10, a11, a12, a13, a14, a15, a16, a17, a18,
    a19, a20, a21, a22, a23, a24, rfl⟩ := list25 A hA
  simp [rhopi_v6, rhopi_loop, range5, memcpy, table_at, row_major_offsets, newY_std]

theorem rhopi_v6_bijective :
    (∀ A, IsState A → IsState (rhopi_v6 A))
      ∧ (∀ A B, IsState A → IsState B → rhopi_v6 A = rhopi_v6 B → A = B)
      ∧ (∀ B, IsState B → ∃ A, IsState A ∧ rhopi_v6 A = B) :=
  rol_perm_bijective rhopi_v6 _ _ (by decide) (by decide) (by decide) (by decide)
    rhopi_v6_closed

/-- C14: each of `rhopi_v1 .. rhopi_v6` is a bijection on the 25-lane states.
The destination index map `(x, y) -> y + 5*((2x+3y) mod 5)` (for `rhopi_v4`:
`y + 5*((x+y) mod 5)`) sends the 25 source indices into `0 .. 24`, no two to
the same index, and reaches every index; every rotation amount used is below
64; each of the six functions maps states to states, sends distinct states to
distinct states, and every state is an output. -/
theorem C14_rhopi_bijective :
    ((∀ idx, idx < 25 → rhopi_dest newY_std idx < 25)
        ∧ (∀ i, i < 25 → ∀ j, j < 25 → rhopi_dest newY_std i = rhopi_dest newY_std j → i = j)
        ∧ (∀ d, d < 25 → ∃ idx, idx < 25 ∧ rhopi_dest newY_std idx = d))
      ∧ ((∀ idx, idx < 25 → rhopi_dest newY_v4 idx < 25)
        ∧ (∀ i, i < 25 → ∀ j, j < 25 → rhopi_dest newY_v4 i = rhopi_dest newY_v4 j → i = j)
        ∧ (∀ d, d < 25 → ∃ idx, idx < 25 ∧ rhopi_dest newY_v4 idx = d))
      ∧ (∀ x, x < 5 → ∀ y, y < 5 →
          table_at fib_offsets x y < 64 ∧ table_at prime_offsets x y < 64
            ∧ table_at uniform_offsets x y < 64 ∧ table_at rho x y < 64
            ∧ rot_v5 x y < 64 ∧ table_at row_major_offsets x y < 64)
      ∧ ((∀ A B, IsState A → IsState B → A ≠ B → rhopi_v1 A ≠ rhopi_v1 B)
        ∧ (∀ B, IsState B → ∃ A, IsState A ∧ rhopi_v1 A = B))
      ∧ ((∀ A B, IsState A → IsState B → A ≠ B → rhopi_v2 A ≠ rhopi_v2 B)
        ∧ (∀ B, IsState B → ∃ A, IsState A ∧ rhopi_v2 A = B))
      ∧ ((∀ A B, IsState A → IsState B → A ≠ B → rhopi_v3 A ≠ rhopi_v3 B)
        ∧ (∀ B, IsState B → ∃ A, IsState A ∧ rhopi_v3 A = B))
      ∧ ((∀ A B, IsState A → IsState B → A ≠ B → rhopi_v4 A ≠ rhopi_v4 B)
        ∧ (∀ B, IsState B → ∃ A, IsState A ∧ rhopi_v4 A = B))
      ∧ ((∀ A B, IsState A → IsState B → A ≠ B → rhopi_v5 A ≠ rhopi_v5 B)
        ∧ (∀ B, IsState B → ∃ A, IsState A ∧ rhopi_v5 A = B))
      ∧ ((∀ A B, IsState A → IsState B → A ≠ B → rhopi_v6 A ≠ rhopi_v6 B)
        ∧ (∀ B, IsState B → ∃ A, IsState A ∧ rhopi_v6 A = B)) := by
  refine ⟨by decide, by decide, by decide, ?_, ?_, ?_, ?_, ?_, ?_⟩
  · exact ⟨fun A B hA hB hne h => hne (rhopi_v1_bijective.2.1 A B hA hB h),
      rhopi_v1_bijective.2.2⟩
  · exact ⟨fun A B hA hB hne h => hne (rhopi_v2_bijective.2.1 A B hA hB h),
      rhopi_v2_bijective.2.2⟩
  · exact ⟨fun A B hA hB hne h => hne (rhopi_v3_bijective.2.1 A B hA hB h),
      rhopi_v3_bijective.2.2⟩
  · exact ⟨fun A B hA hB hne h => hne (rhopi_v4_bijective.2.1 A B hA hB h),
      rhopi_v4_bijective.2.2⟩
  · exact ⟨fun A B hA hB hne h => hne (rhopi_v5_bijective.2.1 A B hA hB h),
      rhopi_v5_bijective.2.2⟩
  · exact ⟨fun A B hA hB hne h => hne (rhopi_v6_bijective.2.1 A B hA hB h),
      rhopi_v6_bijective.2.2⟩

/-! ## Chi -/

theorem list5 (l : List Nat) (h : l.length = 5) :
    ∃ t0 t1 t2 t3 t4, l = [t0, t1, t2, t3, t4] := by
  match l, h with
  | [t0, t1, t2, t3, t4], _ => exact ⟨t0, t1, t2, t3, t4, rfl⟩

theorem chi_v0_row_explicit (t0 t1 t2 t3 t4 : Nat) :
    chi_v0_row [t0, t1, t2, t3, t4]
      = [t0 ^^^ (not64 t1 &&& t2), t1 ^^^ (not64 t2 &&& t3), t2 ^^^ (not64 t3 &&& t4),
         t3 ^^^ (not64 t4 &&& t0), t4 ^^^ (not64 t0 &&& t1)] := by
  simp [chi_v0_row, chi_v0_lane, range5]

/-- The function `chi_v0` row by row. -/
theorem chi_v0_rows (a0 a1 a2 a3 a4 a5 a6 a7 a8 a9 a10 a11 a12 a13 a14 a15 a16 a17 a18 a19 a20
    a21 a22 a23 a24 : Nat) :
    chi_v0 [a0, a1, a2, a3, a4, a5, a6, a7, a8, a9, a10, a11, a12, a13, a14, a15, a16, a17, a18,
        a19, a20, a21, a22, a23, a24]
      = chi_v0_row [a0, a1, a2, a3, a4] ++ chi_v0_row [a5, a6, a7, a8, a9]
        ++ chi_v0_row [a10, a11, a12, a13, a14] ++ chi_v0_row [a15, a16, a17, a18, a19]
        ++ chi_v0_row [a20, a21, a22, a23, a24] := by
  simp [chi_v0, chi_row, chi_v0_row, chi_v0_lane, range5]

/-- The chi map on the five bits of a row at one bit position is injective. -/
theorem chi_bits_inj : ∀ a0 a1 a2 a3 a4 b0 b1 b2 b3 b4 : Bool,
    xor a0 (!a1 && a2) = xor b0 (!b1 && b2) → xor a1 (!a2 && a3) = xor b1 (!b2 && b3) →
    xor a2 (!a3 && a4) = xor b2 (!b3 && b4) → xor a3 (!a4 && a0) = xor b3 (!b4 && b0) →
    xor a4 (!a0 && a1) = xor b4 (!b0 && b1) →
    a0 = b0 ∧ a1 = b1 ∧ a2 = b2 ∧ a3 = b3 ∧ a4 = b4 := by
  decide

theorem chi_lane_testBit (a b c i : Nat) (hi : i < 64) :
    (a ^^^ (not64 b &&& c)).testBit i = xor (a.testBit i) (!b.testBit i && c.testBit i) := by
  have hm : (0xFFFFFFFFFFFFFFFF : Nat) = 2 ^ 64 - 1 := by norm_num
  simp only [not64, hm, Nat.testBit_xor, Nat.testBit_and, Nat.testBit_two_pow_sub_one, hi,
    decide_True, Bool.xor_true]

theorem chi_lane_lt (a b c : Nat) (ha : a < SIZE_MOD) (hc : c < SIZE_MOD) :
    a ^^^ (not64 b &&& c) < SIZE_MOD :=
  xor_lt_size _ _ ha (Nat.and_lt_two_pow _ (n := 64) hc)

/-- The row map of `chi_v0` is injective on rows of five 64-bit lanes. -/
theorem chi_v0_row_inj (t u : List Nat) (ht : t.length = 5 ∧ ∀ a ∈ t, a < SIZE_MOD)
    (hu : u.length = 5 ∧ ∀ a ∈ u, a < SIZE_MOD) (h : chi_v0_row t = chi_v0_row u) : t = u := by
  obtain ⟨t0, t1, t2, t3, t4, rfl⟩ := list5 t ht.1
  obtain ⟨u0, u1, u2, u3, u4, rfl⟩ := list5 u hu.1
  have htb := ht.2
  have hub := hu.2
  simp only [List.mem_cons, List.mem_singleton, forall_eq_or_imp, forall_eq,
    List.not_mem_nil, false_imp_iff, implies_true, and_true] at htb hub
  obtain ⟨x0, x1, x2, x3, x4⟩ := htb
  obtain ⟨y0, y1, y2, y3, y4⟩ := hub
  rw [chi_v0_row_explicit, chi_v0_row_explicit] at h
  simp only [List.cons.injEq, and_true] at h
  obtain ⟨e0, e1, e2, e3, e4⟩ := h
  have key : ∀ i, t0.testBit i = u0.testBit i ∧ t1.testBit i = u1.testBit i
      ∧ t2.testBit i = u2.testBit i ∧ t3.testBit i = u3.testBit i
      ∧ t4.testBit i = u4.testBit i := by
    intro i
    by_cases hi : i < 64
    · have b0 := congrArg (fun z => Nat.testBit z i) e0
      have b1 := congrArg (fun z => Nat.testBit z i) e1
      have b2 := congrArg (fun z => Nat.testBit z i) e2
      have b3 := congrArg (fun z => Nat.testBit z i) e3
      have b4 := congrArg (fun z => Nat.testBit z i) e4
      simp only [chi_lane_testBit _ _ _ i hi] at b0 b1 b2 b3 b4
      exact chi_bits_inj _ _ _ _ _ _ _ _ _ _ b0 b1 b2 b3 b4
    · have hi' : 64 ≤ i := by omega
      simp only [testBit_of_lt_size _ i x0 hi', testBit_of_lt_size _ i x1 hi',
        testBit_of_lt_size _ i x2 hi', testBit_of_lt_size _ i x3 hi',
        testBit_of_lt_size _ i x4 hi', testBit_of_lt_size _ i y0 hi',
        testBit_of_lt_size _ i y1 hi', testBit_of_lt_size _ i y2 hi',
        testBit_of_lt_size _ i y3 hi', testBit_of_lt_size _ i y4 hi', and_self]
  rw [Nat.eq_of_testBit_eq (fun i => (key i).1), Nat.eq_of_testBit_eq (fun i => (key i).2.1),
    Nat.eq_of_testBit_eq (fun i => (key i).2.2.1),
    Nat.eq_of_testBit_eq (fun i => (key i).2.2.2.1),
    Nat.eq_of_testBit_eq (fun i => (key i).2.2.2.2)]

/-- The row map of `chi_v0` keeps rows of five 64-bit lanes. -/
theorem chi_v0_row_maps (t : List Nat) (ht : t.length = 5 ∧ ∀ a ∈ t, a < SIZE_MOD) :
    (chi_v0_row t).length = 5 ∧ ∀ a ∈ chi_v0_row t, a < SIZE_MOD := by
  obtain ⟨t0, t1, t2, t3, t4, rfl⟩ := list5 t ht.1
  have htb := ht.2
  simp only [List.mem_cons, List.mem_singleton, forall_eq_or_imp, forall_eq,
    List.not_mem_nil, false_imp_iff, implies_true, and_true] at htb
  obtain ⟨x0, x1, x2, x3, x4⟩ := htb
  rw [chi_v0_row_explicit]
  refine ⟨rfl, ?_⟩
  simp only [List.mem_cons, List.mem_singleton, forall_eq_or_imp, forall_eq,
    List.not_mem_nil, false_imp_iff, implies_true, and_true]
  exact ⟨chi_lane_lt _ _ _ x0 x2, chi_lane_lt _ _ _ x1 x3, chi_lane_lt _ _ _ x2 x4,
    chi_lane_lt _ _ _ x3 x0, chi_lane_lt _ _ _ x4 x1⟩

theorem isState_explicit (a0 a1 a2 a3 a4 a5 a6 a7 a8 a9 a10 a11 a12 a13 a14 a15 a16 a17 a18 a19
    a20 a21 a22 a23 a24 : Nat) :
    IsState [a0, a1, a2, a3, a4, a5, a6, a7, a8, a9, a10, a11, a12, a13, a14, a15, a16, a17, a18,
        a19, a20, a21, a22, a23, a24]
      ↔ ((a0 < SIZE_MOD ∧ a1 < SIZE_MOD ∧ a2 < SIZE_MOD ∧ a3 < SIZE_MOD ∧ a4 < SIZE_MOD)
        ∧ (a5 < SIZE_MOD ∧ a6 < SIZE_MOD ∧ a7 < SIZE_MOD ∧ a8 < SIZE_MOD ∧ a9 < SIZE_MOD)
        ∧ (a10 < SIZE_MOD ∧ a11 < SIZE_MOD ∧ a12 < SIZE_MOD ∧ a13 < SIZE_MOD ∧ a14 < SIZE_MOD)
        ∧ (a15 < SIZE_MOD ∧ a16 < SIZE_MOD ∧ a17 < SIZE_MOD ∧ a18 < SIZE_MOD ∧ a19 < SIZE_MOD)
        ∧ (a20 < SIZE_MOD ∧ a21 < SIZE_MOD ∧ a22 < SIZE_MOD ∧ a23 < SIZE_MOD
          ∧ a24 < SIZE_MOD)) := by
  simp [IsState, and_assoc]

theorem isRow_explicit (t0 t1 t2 t3 t4 : Nat) :
    ([t0, t1, t2, t3, t4].length = 5 ∧ ∀ a ∈ [t0, t1, t2, t3, t4], a < SIZE_MOD)
      ↔ (t0 < SIZE_MOD ∧ t1 < SIZE_MOD ∧ t2 < SIZE_MOD ∧ t3 < SIZE_MOD ∧ t4 < SIZE_MOD) := by
  simp

/-- The function `chi_v0` keeps states and is injective on them. -/
theorem chi_v0_inj (A B : List Nat) (hA : IsState A) (hB : IsState B)
    (h : chi_v0 A = chi_v0 B) : A = B := by
  obtain ⟨a0, a1, a2, a3, a4, a5, a6, a7, a8, a9, a10, a11, a12, a13, a14, a15, a16, a17, a18,
    a19, a20, a21, a22, a23, a24, rfl⟩ := list25 A hA.1
  obtain ⟨b0, b1, b2, b3, b4, b5, b6, b7, b8, b9, b10, b11, b12, b13, b14, b15, b16, b17, b18,
    b19, b20, b21, b22, b23, b24, rfl⟩ := list25 B hB.1
  rw [isState_explicit] at hA hB
  obtain ⟨hA0, hA1, hA2, hA3, hA4⟩ := hA
  obtain ⟨hB0, hB1, hB2, hB3, hB4⟩ := hB
  rw [chi_v0_rows, chi_v0_rows] at h
  have hl : ∀ t : List Nat, (chi_v0_row t).length = 5 := fun t => by simp [chi_v0_row]
  have h4 := List.append_inj h (by simp [hl])
  have h3 := List.append_inj h4.1 (by simp [hl])
  have h2 := List.append_inj h3.1 (by simp [hl])
  have h1 := List.append_inj h2.1 (by simp [hl])
  have r0 := chi_v0_row_inj _ _ ((isRow_explicit _ _ _ _ _).mpr hA0)
    ((isRow_explicit _ _ _ _ _).mpr hB0) h1.1
  have r1 := chi_v0_row_inj _ _ ((isRow_explicit _ _ _ _ _).mpr hA1)
    ((isRow_explicit _ _ _ _ _).mpr hB1) h1.2
  have r2 := chi_v0_row_inj _ _ ((isRow_explicit _ _ _ _ _).mpr hA2)
    ((isRow_explicit _ _ _ _ _).mpr hB2) h2.2
  have r3 := chi_v0_row_inj _ _ ((isRow_explicit _ _ _ _ _).mpr hA3)
    ((isRow_explicit _ _ _ _ _).mpr hB3) h3.2
  have r4 := chi_v0_row_inj _ _ ((isRow_explicit _ _ _ _ _).mpr hA4)
    ((isRow_explicit _ _ _ _ _).mpr hB4) h4.2
  simp only [List.cons.injEq, and_true] at r0 r1 r2 r3 r4
  obtain ⟨e0, e1, e2, e3, e4⟩ := r0
  obtain ⟨e5, e6, e7, e8, e9⟩ := r1
  obtain ⟨e10, e11, e12, e13, e14⟩ := r2
  obtain ⟨e15, e16, e17, e18, e19⟩ := r3
  obtain ⟨e20, e21, e22, e23, e24⟩ := r4
  subst e0 e1 e2 e3 e4 e5 e6 e7 e8 e9 e10 e11 e12 e13 e14 e15 e16 e17 e18 e19 e20 e21 e22 e23 e24
  rfl

theorem chi_v0_state (A : List Nat) (hA : IsState A) : IsState (chi_v0 A) := by
  obtain ⟨a0, a1, a2, a3, a4, a5, a6, a7, a8, a9, a10, a11, a12, a13, a14, a15, a16, a17, a18,
    a19, a20, a21, a22, a23, a24, rfl⟩ := list25 A hA.1
  rw [isState_explicit] at hA
  obtain ⟨hA0, hA1, hA2, hA3, hA4⟩ := hA
  rw [chi_v0_rows]
  have m0 := chi_v0_row_maps _ ((isRow_explicit _ _ _ _ _).mpr hA0)
  have m1 := chi_v0_row_maps _ ((isRow_explicit _ _ _ _ _).mpr hA1)
  have m2 := chi_v0_row_maps _ ((isRow_explicit _ _ _ _ _).mpr hA2)
  have m3 := chi_v0_row_maps _ ((isRow_explicit _ _ _ _ _).mpr hA3)
  have m4 := chi_v0_row_maps _ ((isRow_explicit _ _ _ _ _).mpr hA4)
  refine ⟨by simp only [List.length_append, m0.1, m1.1, m2.1, m3.1, m4.1], ?_⟩
  intro a ha
  simp only [List.mem_append] at ha
  rcases ha with (((ha | ha) | ha) | ha) | ha
  · exact m0.2 a ha
  · exact m1.2 a ha
  · exact m2.2 a ha
  · exact m3.2 a ha
  · exact m4.2 a ha

/-- Claim C15: `chi_v0` is a bijection. The row map `chi_v0_row`, which sends a row
`t` of five lanes to the lanes `t[x] xor (not t[(x+1) mod 5] and t[(x+2) mod 5])`,
`x = 0 .. 4`, keeps rows of five 64-bit lanes, sends distinct such rows to distinct
rows and reaches every such row; `chi_v0` applies it to each of the five rows of a
25-lane state; and `chi_v0` keeps states of 25 64-bit lanes, sends distinct states
to distinct states and reaches every state. -/
theorem C15_chi_v0_bijective :
    (∀ t : List Nat, chi_v0_row t = (List.range 5).map (fun x =>
        t.getD x 0 ^^^ (not64 (t.getD ((x + 1) % 5) 0) &&& t.getD ((x + 2) % 5) 0)))
      ∧ (∀ t, (t.length = 5 ∧ ∀ a ∈ t, a < SIZE_MOD) →
          (chi_v0_row t).length = 5 ∧ ∀ a ∈ chi_v0_row t, a < SIZE_MOD)
      ∧ (∀ t u, (t.length = 5 ∧ ∀ a ∈ t, a < SIZE_MOD) →
          (u.length = 5 ∧ ∀ a ∈ u, a < SIZE_MOD) → t ≠ u → chi_v0_row t ≠ chi_v0_row u)
      ∧ (∀ u, (u.length = 5 ∧ ∀ a ∈ u, a < SIZE_MOD) →
          ∃ t, (t.length = 5 ∧ ∀ a ∈ t, a < SIZE_MOD) ∧ chi_v0_row t = u)
      ∧ (∀ A : List Nat, A.length = 25 →
          chi_v0 A = chi_v0_row (A.take 5) ++ chi_v0_row ((A.drop 5).take 5)
            ++ chi_v0_row ((A.drop 10).take 5) ++ chi_v0_row ((A.drop 15).take 5)
            ++ chi_v0_row ((A.drop 20).take 5))
      ∧ (∀ A, IsState A → IsState (chi_v0 A))
      ∧ (∀ A B, IsState A → IsState B → A ≠ B → chi_v0 A ≠ chi_v0 B)
      ∧ (∀ B, IsState B → ∃ A, IsState A ∧ chi_v0 A = B) := by
  refine ⟨fun t => rfl, chi_v0_row_maps, ?_, ?_, ?_, chi_v0_state, ?_, ?_⟩
  · intro t u ht hu hne h
    exact hne (chi_v0_row_inj t u ht hu h)
  · exact surj_of_inj_on_finite {l | l.length = 5 ∧ ∀ a ∈ l, a < SIZE_MOD}
      (bounded_lists_finite 5 SIZE_MOD) chi_v0_row chi_v0_row_maps chi_v0_row_inj
  · intro A hA
    obtain ⟨a0, a1, a2, a3, a4, a5, a6, a7, a8, a9, a10, a11, a12, a13, a14, a15, a16, a17,
      a18, a19, a20, a21, a22, a23, a24, rfl⟩ := list25 A hA
    rw [chi_v0_rows]
    rfl
  · intro A B hA hB hne h
    exact hne (chi_v0_inj A B hA hB h)
  · exact surj_of_inj_on_finite {l | l.length = 25 ∧ ∀ a ∈ l, a < SIZE_MOD}
      (bounded_lists_finite 25 SIZE_MOD) chi_v0 chi_v0_state chi_v0_inj

/-! ## Theta -/

theorem range25 : List.range 25 = [0, 1, 2, 3, 4, 5, 6, 7, 8, 9, 10, 11, 12, 13, 14, 15, 16,
    17, 18, 19, 20, 21, 22, 23, 24] := rfl

theorem state_xor_length (A B : List Nat) (n : Nat) (hA : A.length = n) (hB : B.length = n) :
    (state_xor A B).length = n := by
  simp [state_xor, hA, hB]

theorem state_xor_lt (A B : List Nat) (hA : ∀ a ∈ A, a < SIZE_MOD) (hB : ∀ a ∈ B, a < SIZE_MOD) :
    ∀ a ∈ state_xor A B, a < SIZE_MOD := by
  induction A generalizing B with
  | nil => intro a ha; simp [state_xor] at ha
  | cons x xs ih =>
    cases B with
    | nil => intro a ha; simp [state_xor] at ha
    | cons y ys =>
      intro a ha
      simp only [state_xor, List.zipWith_cons_cons, List.mem_cons] at ha
      rcases ha with rfl | ha
      · exact xor_lt_size _ _ (hA x (List.mem_cons_self _ _)) (hB y (List.mem_cons_self _ _))
      · exact ih ys (fun a h => hA a (List.mem_cons_of_mem _ h))
          (fun a h => hB a (List.mem_cons_of_mem _ h)) a ha

theorem isState_xor (A B : List Nat) (hA : IsState A) (hB : IsState B) :
    IsState (state_xor A B) :=
  ⟨state_xor_length A B 25 hA.1 hB.1, state_xor_lt A B hA.2 hB.2⟩

theorem theta_C_explicit (a0 a1 a2 a3 a4 a5 a6 a7 a8 a9 a10 a11 a12 a13 a14 a15 a16 a17 a18 a19 a20 a21 a22 a23 a24 : Nat) :
    theta_C [a0, a1, a2, a3, a4, a5, a6, a7, a8, a9, a10, a11, a12, a13, a14, a15, a16, a17, a18, a19, a20, a21, a22, a23, a24]
      = [a0 ^^^ a5 ^^^ a10 ^^^ a15 ^^^ a20, a1 ^^^ a6 ^^^ a11 ^^^ a16 ^^^ a21,
         a2 ^^^ a7 ^^^ a12 ^^^ a17 ^^^ a22, a3 ^^^ a8 ^^^ a13 ^^^ a18 ^^^ a23,
         a4 ^^^ a9 ^^^ a14 ^^^ a19 ^^^ a24] := by
  simp [theta_C, range5]

theorem theta_C_weighted_explicit (a0 a1 a2 a3 a4 a5 a6 a7 a8 a9 a10 a11 a12 a13 a14 a15 a16 a17 a18 a19 a20 a21 a22 a23 a24 : Nat) :
    theta_C_weighted [a0, a1, a2, a3, a4, a5, a6, a7, a8, a9, a10, a11, a12, a13, a14, a15, a16, a17, a18, a19, a20, a21, a22, a23, a24]
      = [a0 ^^^ rol64 a5 7 ^^^ rol64 a10 13 ^^^ a15 ^^^ rol64 a20 19,
         a1 ^^^ rol64 a6 7 ^^^ rol64 a11 13 ^^^ a16 ^^^ rol64 a21 19,
         a2 ^^^ rol64 a7 7 ^^^ rol64 a12 13 ^^^ a17 ^^^ rol64 a22 19,
         a3 ^^^ rol64 a8 7 ^^^ rol64 a13 13 ^^^ a18 ^^^ rol64 a23 19,
         a4 ^^^ rol64 a9 7 ^^^ rol64 a14 13 ^^^ a19 ^^^ rol64 a24 19] := by
  simp [theta_C_weighted, range5]

theorem theta_R_explicit (a0 a1 a2 a3 a4 a5 a6 a7 a8 a9 a10 a11 a12 a13 a14 a15 a16 a17 a18 a19 a20 a21 a22 a23 a24 : Nat) :
    theta_R [a0, a1, a2, a3, a4, a5, a6, a7, a8, a9, a10, a11, a12, a13, a14, a15, a16, a17, a18, a19, a20, a21, a22, a23, a24]
      = [a0 ^^^ a1 ^^^ a2 ^^^ a3 ^^^ a4, a5 ^^^ a6 ^^^ a7 ^^^ a8 ^^^ a9,
         a10 ^^^ a11 ^^^ a12 ^^^ a13 ^^^ a14, a15 ^^^ a16 ^^^ a17 ^^^ a18 ^^^ a19,
         a20 ^^^ a21 ^^^ a22 ^^^ a23 ^^^ a24] := by
  simp [theta_R, range5]

theorem theta_D_explicit (k c0 c1 c2 c3 c4 : Nat) :
    theta_D k [c0, c1, c2, c3, c4]
      = [c4 ^^^ rol64 c1 k, c0 ^^^ rol64 c2 k, c1 ^^^ rol64 c3 k, c2 ^^^ rol64 c4 k,
         c3 ^^^ rol64 c0 k] := by
  simp [theta_D, range5]

theorem theta_D_v5_explicit (c0 c1 c2 c3 c4 : Nat) :
    theta_D_v5 [c0, c1, c2, c3, c4]
      = [rol64 c4 1 ^^^ rol64 c1 1, rol64 c0 1 ^^^ rol64 c2 1, rol64 c1 1 ^^^ rol64 c3 1,
         rol64 c2 1 ^^^ rol64 c4 1, rol64 c3 1 ^^^ rol64 c0 1] := by
  simp [theta_D_v5, range5]

theorem theta_D_v6_explicit (c0 c1 c2 c3 c4 : Nat) :
    theta_D_v6 [c0, c1, c2, c3, c4]
      = [c4 ^^^ rol64 c1 1 ^^^ rol64 c2 5, c0 ^^^ rol64 c2 1 ^^^ rol64 c3 5,
         c1 ^^^ rol64 c3 1 ^^^ rol64 c4 5, c2 ^^^ rol64 c4 1 ^^^ rol64 c0 5,
         c3 ^^^ rol64 c0 1 ^^^ rol64 c1 5] := by
  simp [theta_D_v6, range5]

theorem theta_apply_explicit (a0 a1 a2 a3 a4 a5 a6 a7 a8 a9 a10 a11 a12 a13 a14 a15 a16 a17 a18 a19 a20 a21 a22 a23 a24 d0 d1 d2 d3 d4 : Nat) :
    theta_apply [a0, a1, a2, a3, a4, a5, a6, a7, a8, a9, a10, a11, a12, a13, a14, a15, a16, a17, a18, a19, a20, a21, a22, a23, a24] [d0, d1, d2, d3, d4]
      = [a0 ^^^ d0, a1 ^^^ d1, a2 ^^^ d2, a3 ^^^ d3, a4 ^^^ d4, a5 ^^^ d0, a6 ^^^ d1, a7 ^^^ d2, a8 ^^^ d3, a9 ^^^ d4, a10 ^^^ d0, a11 ^^^ d1, a12 ^^^ d2, a13 ^^^ d3, a14 ^^^ d4, a15 ^^^ d0, a16 ^^^ d1, a17 ^^^ d2, a18 ^^^ d3, a19 ^^^ d4, a20 ^^^ d0, a21 ^^^ d1, a22 ^^^ d2, a23 ^^^ d3, a24 ^^^ d4] := by
  simp [theta_apply, range25]

theorem theta_v2_apply_explicit (a0 a1 a2 a3 a4 a5 a6 a7 a8 a9 a10 a11 a12 a13 a14 a15 a16 a17 a18 a19 a20 a21 a22 a23 a24 c0 c1 c2 c3 c4 r0 r1 r2 r3 r4 : Nat) :
    theta_v2_apply [a0, a1, a2, a3, a4, a5, a6, a7, a8, a9, a10, a11, a12, a13, a14, a15, a16, a17, a18, a19, a20, a21, a22, a23, a24] [c0, c1, c2, c3, c4] [r0, r1, r2, r3, r4]
      = [a0 ^^^ (c4 ^^^ rol64 c1 1 ^^^ rol64 r1 1), a1 ^^^ (c0 ^^^ rol64 c2 1 ^^^ rol64 r1 1), a2 ^^^ (c1 ^^^ rol64 c3 1 ^^^ rol64 r1 1), a3 ^^^ (c2 ^^^ rol64 c4 1 ^^^ rol64 r1 1), a4 ^^^ (c3 ^^^ rol64 c0 1 ^^^ rol64 r1 1), a5 ^^^ (c4 ^^^ rol64 c1 1 ^^^ rol64 r2 1), a6 ^^^ (c0 ^^^ rol64 c2 1 ^^^ rol64 r2 1), a7 ^^^ (c1 ^^^ rol64 c3 1 ^^^ rol64 r2 1), a8 ^^^ (c2 ^^^ rol64 c4 1 ^^^ rol64 r2 1), a9 ^^^ (c3 ^^^ rol64 c0 1 ^^^ rol64 r2 1), a10 ^^^ (c4 ^^^ rol64 c1 1 ^^^ rol64 r3 1), a11 ^^^ (c0 ^^^ rol64 c2 1 ^^^ rol64 r3 1), a12 ^^^ (c1 ^^^ rol64 c3 1 ^^^ rol64 r3 1), a13 ^^^ (c2 ^^^ rol64 c4 1 ^^^ rol64 r3 1), a14 ^^^ (c3 ^^^ rol64 c0 1 ^^^ rol64 r3 1), a15 ^^^ (c4 ^^^ rol64 c1 1 ^^^ rol64 r4 1), a16 ^^^ (c0 ^^^ rol64 c2 1 ^^^ rol64 r4 1), a17 ^^^ (c1 ^^^ rol64 c3 1 ^^^ rol64 r4 1), a18 ^^^ (c2 ^^^ rol64 c4 1 ^^^ rol64 r4 1), a19 ^^^ (c3 ^^^ rol64 c0 1 ^^^ rol64 r4 1), a20 ^^^ (c4 ^^^ rol64 c1 1 ^^^ rol64 r0 1), a21 ^^^ (c0 ^^^ rol64 c2 1 ^^^ rol64 r0 1), a22 ^^^ (c1 ^^^ rol64 c3 1 ^^^ rol64 r0 1), a23 ^^^ (c2 ^^^ rol64 c4 1 ^^^ rol64 r0 1), a24 ^^^ (c3 ^^^ rol64 c0 1 ^^^ rol64 r0 1)] := by
  simp [theta_v2_apply, range5]

theorem row_explicit_lt (t0 t1 t2 t3 t4 : Nat) (h : ∀ a ∈ [t0, t1, t2, t3, t4], a < SIZE_MOD) :
    t0 < SIZE_MOD ∧ t1 < SIZE_MOD ∧ t2 < SIZE_MOD ∧ t3 < SIZE_MOD ∧ t4 < SIZE_MOD := by
  simpa using h

theorem theta_C_xor (A B : List Nat) (hA : A.length = 25) (hB : B.length = 25) :
    theta_C (state_xor A B) = state_xor (theta_C A) (theta_C B) := by
  obtain ⟨a0, a1, a2, a3, a4, a5, a6, a7, a8, a9, a10, a11, a12, a13, a14, a15, a16, a17, a18, a19, a20, a21, a22, a23, a24, rfl⟩ := list25 A hA
  obtain ⟨b0, b1, b2, b3, b4, b5, b6, b7, b8, b9, b10, b11, b12, b13, b14, b15, b16, b17, b18, b19, b20, b21, b22, b23, b24, rfl⟩ := list25 B hB
  simp only [state_xor, List.zipWith_cons_cons, List.zipWith_nil_right, theta_C_explicit]
  simp only [List.cons.injEq, and_true]
  refine ⟨?_, ?_, ?_, ?_, ?_⟩ <;> ac_rfl

theorem theta_R_xor (A B : List Nat) (hA : A.length = 25) (hB : B.length = 25) :
    theta_R (state_xor A B) = state_xor (theta_R A) (theta_R B) := by
  obtain ⟨a0, a1, a2, a3, a4, a5, a6, a7, a8, a9, a10, a11, a12, a13, a14, a15, a16, a17, a18, a19, a20, a21, a22, a23, a24, rfl⟩ := list25 A hA
  obtain ⟨b0, b1, b2, b3, b4, b5, b6, b7, b8, b9, b10, b11, b12, b13, b14, b15, b16, b17, b18, b19, b20, b21, b22, b23, b24, rfl⟩ := list25 B hB
  simp only [state_xor, List.zipWith_cons_cons, List.zipWith_nil_right, theta_R_explicit]
  simp only [List.cons.injEq, and_true]
  refine ⟨?_, ?_, ?_, ?_, ?_⟩ <;> ac_rfl

theorem theta_C_weighted_xor (A B : List Nat) (hA : IsState A) (hB : IsState B) :
    theta_C_weighted (state_xor A B)
      = state_xor (theta_C_weighted A) (theta_C_weighted B) := by
  obtain ⟨a0, a1, a2, a3, a4, a5, a6, a7, a8, a9, a10, a11, a12, a13, a14, a15, a16, a17, a18, a19, a20, a21, a22, a23, a24, rfl⟩ := list25 A hA.1
  obtain ⟨b0, b1, b2, b3, b4, b5, b6, b7, b8, b9, b10, b11, b12, b13, b14, b15, b16, b17, b18, b19, b20, b21, b22, b23, b24, rfl⟩ := list25 B hB.1
  rw [isState_explicit] at hA hB
  obtain ⟨⟨x0, x1, x2, x3, x4⟩, ⟨x5, x6, x7, x8, x9⟩, ⟨x10, x11, x12, x13, x14⟩,
    ⟨x15, x16, x17, x18, x19⟩, ⟨x20, x21, x22, x23, x24⟩⟩ := hA
  obtain ⟨⟨y0, y1, y2, y3, y4⟩, ⟨y5, y6, y7, y8, y9⟩, ⟨y10, y11, y12, y13, y14⟩,
    ⟨y15, y16, y17, y18, y19⟩, ⟨y20, y21, y22, y23, y24⟩⟩ := hB
  simp only [state_xor, List.zipWith_cons_cons, List.zipWith_nil_right,
    theta_C_weighted_explicit]
  rw [rol64_xor a5 b5 7 x5 y5 (by norm_num), rol64_xor a6 b6 7 x6 y6 (by norm_num), rol64_xor a7 b7 7 x7 y7 (by norm_num), rol64_xor a8 b8 7 x8 y8 (by norm_num), rol64_xor a9 b9 7 x9 y9 (by norm_num), rol64_xor a10 b10 13 x10 y10 (by norm_num), rol64_xor a11 b11 13 x11 y11 (by norm_num), rol64_xor a12 b12 13 x12 y12 (by norm_num), rol64_xor a13 b13 13 x13 y13 (by norm_num), rol64_xor a14 b14 13 x14 y14 (by norm_num), rol64_xor a20 b20 19 x20 y20 (by norm_num), rol64_xor a21 b21 19 x21 y21 (by norm_num), rol64_xor a22 b22 19 x22 y22 (by norm_num), rol64_xor a23 b23 19 x23 y23 (by norm_num), rol64_xor a24 b24 19 x24 y24 (by norm_num)]
  simp only [List.cons.injEq, and_true]
  refine ⟨?_, ?_, ?_, ?_, ?_⟩ <;> ac_rfl

theorem theta_C_row (A : List Nat) (hA : IsState A) :
    (theta_C A).length = 5 ∧ ∀ c ∈ theta_C A, c < SIZE_MOD := by
  refine ⟨by simp [theta_C], ?_⟩
  intro c hc
  simp only [theta_C, List.mem_map] at hc
  obtain ⟨x, -, rfl⟩ := hc
  exact xor_lt_size _ _ (xor_lt_size _ _ (xor_lt_size _ _ (xor_lt_size _ _
    (getD_lt_of_state A hA.2 _) (getD_lt_of_state A hA.2 _)) (getD_lt_of_state A hA.2 _))
    (getD_lt_of_state A hA.2 _)) (getD_lt_of_state A hA.2 _)

theorem theta_R_row (A : List Nat) (hA : IsState A) :
    (theta_R A).length = 5 ∧ ∀ c ∈ theta_R A, c < SIZE_MOD := by
  refine ⟨by simp [theta_R], ?_⟩
  intro c hc
  simp only [theta_R, List.mem_map] at hc
  obtain ⟨x, -, rfl⟩ := hc
  exact xor_lt_size _ _ (xor_lt_size _ _ (xor_lt_size _ _ (xor_lt_size _ _
    (getD_lt_of_state A hA.2 _) (getD_lt_of_state A hA.2 _)) (getD_lt_of_state A hA.2 _))
    (getD_lt_of_state A hA.2 _)) (getD_lt_of_state A hA.2 _)

theorem theta_C_weighted_row (A : List Nat) (hA : IsState A) :
    (theta_C_weighted A).length = 5 ∧ ∀ c ∈ theta_C_weighted A, c < SIZE_MOD := by
  refine ⟨by simp [theta_C_weighted], ?_⟩
  intro c hc
  simp only [theta_C_weighted, List.mem_map] at hc
  obtain ⟨x, -, rfl⟩ := hc
  exact xor_lt_size _ _ (xor_lt_size _ _ (xor_lt_size _ _ (xor_lt_size _ _
    (getD_lt_of_state A hA.2 _) (rol64_lt _ _ (getD_lt_of_state A hA.2 _)))
    (rol64_lt _ _ (getD_lt_of_state A hA.2 _)))
    (getD_lt_of_state A hA.2 _)) (rol64_lt _ _ (getD_lt_of_state A hA.2 _))

theorem theta_D_xor (k : Nat) (hk : k < 64) (C E : List Nat)
    (hC : C.length = 5 ∧ ∀ c ∈ C, c < SIZE_MOD) (hE : E.length = 5 ∧ ∀ c ∈ E, c < SIZE_MOD) :
    theta_D k (state_xor C E) = state_xor (theta_D k C) (theta_D k E) := by
  obtain ⟨c0, c1, c2, c3, c4, rfl⟩ := list5 C hC.1
  obtain ⟨e0, e1, e2, e3, e4, rfl⟩ := list5 E hE.1
  obtain ⟨x0, x1, x2, x3, x4⟩ := row_explicit_lt _ _ _ _ _ hC.2
  obtain ⟨y0, y1, y2, y3, y4⟩ := row_explicit_lt _ _ _ _ _ hE.2
  simp only [state_xor, List.zipWith_cons_cons, List.zipWith_nil_right, theta_D_explicit]
  rw [rol64_xor c0 e0 k x0 y0 hk, rol64_xor c1 e1 k x1 y1 hk, rol64_xor c2 e2 k x2 y2 hk, rol64_xor c3 e3 k x3 y3 hk, rol64_xor c4 e4 k x4 y4 hk]
  simp only [List.cons.injEq, and_true]
  refine ⟨?_, ?_, ?_, ?_, ?_⟩ <;> ac_rfl

theorem theta_D_v5_xor (C E : List Nat)
    (hC : C.length = 5 ∧ ∀ c ∈ C, c < SIZE_MOD) (hE : E.length = 5 ∧ ∀ c ∈ E, c < SIZE_MOD) :
    theta_D_v5 (state_xor C E) = state_xor (theta_D_v5 C) (theta_D_v5 E) := by
  obtain ⟨c0, c1, c2, c3, c4, rfl⟩ := list5 C hC.1
  obtain ⟨e0, e1, e2, e3, e4, rfl⟩ := list5 E hE.1
  obtain ⟨x0, x1, x2, x3, x4⟩ := row_explicit_lt _ _ _ _ _ hC.2
  obtain ⟨y0, y1, y2, y3, y4⟩ := row_explicit_lt _ _ _ _ _ hE.2
  simp only [state_xor, List.zipWith_cons_cons, List.zipWith_nil_right, theta_D_v5_explicit]
  rw [rol64_xor c0 e0 1 x0 y0 (by norm_num), rol64_xor c1 e1 1 x1 y1 (by norm_num), rol64_xor c2 e2 1 x2 y2 (by norm_num), rol64_xor c3 e3 1 x3 y3 (by norm_num), rol64_xor c4 e4 1 x4 y4 (by norm_num)]
  simp only [List.cons.injEq, and_true]
  refine ⟨?_, ?_, ?_, ?_, ?_⟩ <;> ac_rfl

theorem theta_D_v6_xor (C E : List Nat)
    (hC : C.length = 5 ∧ ∀ c ∈ C, c < SIZE_MOD) (hE : E.length = 5 ∧ ∀ c ∈ E, c < SIZE_MOD) :
    theta_D_v6 (state_xor C E) = state_xor (theta_D_v6 C) (theta_D_v6 E) := by
  obtain ⟨c0, c1, c2, c3, c4, rfl⟩ := list5 C hC.1
  obtain ⟨e0, e1, e2, e3, e4, rfl⟩ := list5 E hE.1
  obtain ⟨x0, x1, x2, x3, x4⟩ := row_explicit_lt _ _ _ _ _ hC.2
  obtain ⟨y0, y1, y2, y3, y4⟩ := row_explicit_lt _ _ _ _ _ hE.2
  simp only [state_xor, List.zipWith_cons_cons, List.zipWith_nil_right, theta_D_v6_explicit]
  rw [rol64_xor c0 e0 1 x0 y0 (by norm_num), rol64_xor c1 e1 1 x1 y1 (by norm_num), rol64_xor c2 e2 1 x2 y2 (by norm_num), rol64_xor c3 e3 1 x3 y3 (by norm_num), rol64_xor c4 e4 1 x4 y4 (by norm_num),
    rol64_xor c0 e0 5 x0 y0 (by norm_num), rol64_xor c1 e1 5 x1 y1 (by norm_num), rol64_xor c2 e2 5 x2 y2 (by norm_num), rol64_xor c3 e3 5 x3 y3 (by norm_num), rol64_xor c4 e4 5 x4 y4 (by norm_num)]
  simp only [List.cons.injEq, and_true]
  refine ⟨?_, ?_, ?_, ?_, ?_⟩ <;> ac_rfl

theorem theta_apply_xor (A B D E : List Nat) (hA : A.length = 25) (hB : B.length = 25)
    (hD : D.length = 5) (hE : E.length = 5) :
    theta_apply (state_xor A B) (state_xor D E)
      = state_xor (theta_apply A D) (theta_apply B E) := by
  obtain ⟨a0, a1, a2, a3, a4, a5, a6, a7, a8, a9, a10, a11, a12, a13, a14, a15, a16, a17, a18, a19, a20, a21, a22, a23, a24, rfl⟩ := list25 A hA
  obtain ⟨b0, b1, b2, b3, b4, b5, b6, b7, b8, b9, b10, b11, b12, b13, b14, b15, b16, b17, b18, b19, b20, b21, b22, b23, b24, rfl⟩ := list25 B hB
  obtain ⟨d0, d1, d2, d3, d4, rfl⟩ := list5 D hD
  obtain ⟨e0, e1, e2, e3, e4, rfl⟩ := list5 E hE
  simp only [state_xor, List.zipWith_cons_cons, List.zipWith_nil_right, theta_apply_explicit]
  simp only [List.cons.injEq, and_true]
  refine ⟨?_, ?_, ?_, ?_, ?_, ?_, ?_, ?_, ?_, ?_, ?_, ?_, ?_, ?_, ?_, ?_, ?_, ?_, ?_, ?_, ?_, ?_, ?_, ?_, ?_⟩ <;> ac_rfl

theorem theta_v2_apply_xor (A B C E R S : List Nat) (hA : A.length = 25) (hB : B.length = 25)
    (hC : C.length = 5 ∧ ∀ c ∈ C, c < SIZE_MOD) (hE : E.length = 5 ∧ ∀ c ∈ E, c < SIZE_MOD)
    (hR : R.length = 5 ∧ ∀ c ∈ R, c < SIZE_MOD) (hS : S.length = 5 ∧ ∀ c ∈ S, c < SIZE_MOD) :
    theta_v2_apply (state_xor A B) (state_xor C E) (state_xor R S)
      = state_xor (theta_v2_apply A C R) (theta_v2_apply B E S) := by
  obtain ⟨a0, a1, a2, a3, a4, a5, a6, a7, a8, a9, a10, a11, a12, a13, a14, a15, a16, a17, a18, a19, a20, a21, a22, a23, a24, rfl⟩ := list25 A hA
  obtain ⟨b0, b1, b2, b3, b4, b5, b6, b7, b8, b9, b10, b11, b12, b13, b14, b15, b16, b17, b18, b19, b20, b21, b22, b23, b24, rfl⟩ := list25 B hB
  obtain ⟨c0, c1, c2, c3, c4, rfl⟩ := list5 C hC.1
  obtain ⟨e0, e1, e2, e3, e4, rfl⟩ := list5 E hE.1
  obtain ⟨r0, r1, r2, r3, r4, rfl⟩ := list5 R hR.1
  obtain ⟨s0, s1, s2, s3, s4, rfl⟩ := list5 S hS.1
  obtain ⟨x0, x1, x2, x3, x4⟩ := row_explicit_lt _ _ _ _ _ hC.2
  obtain ⟨y0, y1, y2, y3, y4⟩ := row_explicit_lt _ _ _ _ _ hE.2
  obtain ⟨z0, z1, z2, z3, z4⟩ := row_explicit_lt _ _ _ _ _ hR.2
  obtain ⟨w0, w1, w2, w3, w4⟩ := row_explicit_lt _ _ _ _ _ hS.2
  simp only [state_xor, List.zipWith_cons_cons, List.zipWith_nil_right,
    theta_v2_apply_explicit]
  rw [rol64_xor c0 e0 1 x0 y0 (by norm_num), rol64_xor c1 e1 1 x1 y1 (by norm_num), rol64_xor c2 e2 1 x2 y2 (by norm_num), rol64_xor c3 e3 1 x3 y3 (by norm_num), rol64_xor c4 e4 1 x4 y4 (by norm_num),
    rol64_xor r0 s0 1 z0 w0 (by norm_num), rol64_xor r1 s1 1 z1 w1 (by norm_num), rol64_xor r2 s2 1 z2 w2 (by norm_num), rol64_xor r3 s3 1 z3 w3 (by norm_num), rol64_xor r4 s4 1 z4 w4 (by norm_num)]
  simp only [List.cons.injEq, and_true]
  refine ⟨?_, ?_, ?_, ?_, ?_, ?_, ?_, ?_, ?_, ?_, ?_, ?_, ?_, ?_, ?_, ?_, ?_, ?_, ?_, ?_, ?_, ?_, ?_, ?_, ?_⟩ <;> ac_rfl

theorem theta_D_row (k : Nat) (C : List Nat) (hC : ∀ c ∈ C, c < SIZE_MOD) :
    (theta_D k C).length = 5 ∧ ∀ d ∈ theta_D k C, d < SIZE_MOD := by
  refine ⟨by simp [theta_D], ?_⟩
  intro d hd
  simp only [theta_D, List.mem_map] at hd
  obtain ⟨x, -, rfl⟩ := hd
  exact xor_lt_size _ _ (getD_lt_of_state C hC _) (rol64_lt _ _ (getD_lt_of_state C hC _))

theorem state_xor_getD (A B : List Nat) (hA : A.length = 25) (hB : B.length = 25) (i : Nat)
    (hi : i < 25) : (state_xor A B).getD i 0 = A.getD i 0 ^^^ B.getD i 0 := by
  have h1 : i < (state_xor A B).length := by rw [state_xor_length A B 25 hA hB]; exact hi
  have h2 : i < A.length := by rw [hA]; exact hi
  have h3 : i < B.length := by rw [hB]; exact hi
  rw [List.getD_eq_getElem _ 0 h1, List.getD_eq_getElem A 0 h2, List.getD_eq_getElem B 0 h3]
  simp [state_xor]

theorem theta_v0_xor (A B : List Nat) (hA : IsState A) (hB : IsState B) :
    theta_v0 (state_xor A B) = state_xor (theta_v0 A) (theta_v0 B) := by
  unfold theta_v0
  rw [theta_C_xor A B hA.1 hB.1,
    theta_D_xor 1 (by norm_num) _ _ (theta_C_row A hA) (theta_C_row B hB),
    theta_apply_xor A B _ _ hA.1 hB.1 (theta_D_row 1 _ (theta_C_row A hA).2).1
      (theta_D_row 1 _ (theta_C_row B hB).2).1]

theorem theta_v1_xor (A B : List Nat) (hA : IsState A) (hB : IsState B) :
    theta_v1 (state_xor A B) = state_xor (theta_v1 A) (theta_v1 B) := by
  unfold theta_v1
  rw [theta_C_weighted_xor A B hA hB,
    theta_D_xor 1 (by norm_num) _ _ (theta_C_weighted_row A hA) (theta_C_weighted_row B hB),
    theta_apply_xor A B _ _ hA.1 hB.1 (theta_D_row 1 _ (theta_C_weighted_row A hA).2).1
      (theta_D_row 1 _ (theta_C_weighted_row B hB).2).1]

theorem theta_v2_xor (A B : List Nat) (hA : IsState A) (hB : IsState B) :
    theta_v2 (state_xor A B) = state_xor (theta_v2 A) (theta_v2 B) := by
  unfold theta_v2
  rw [theta_C_xor A B hA.1 hB.1, theta_R_xor A B hA.1 hB.1,
    theta_v2_apply_xor A B _ _ _ _ hA.1 hB.1 (theta_C_row A hA) (theta_C_row B hB)
      (theta_R_row A hA) (theta_R_row B hB)]

theorem theta_v3_xor (A B : List Nat) (hA : IsState A) (hB : IsState B) :
    theta_v3 (state_xor A B) = state_xor (theta_v3 A) (theta_v3 B) := by
  unfold theta_v3
  rw [theta_C_xor A B hA.1 hB.1,
    theta_D_xor 2 (by norm_num) _ _ (theta_C_row A hA) (theta_C_row B hB),
    theta_apply_xor A B _ _ hA.1 hB.1 (theta_D_row 2 _ (theta_C_row A hA).2).1
      (theta_D_row 2 _ (theta_C_row B hB).2).1]

theorem theta_v4_xor (A B : List Nat) (hA : IsState A) (hB : IsState B) :
    theta_v4 (state_xor A B) = state_xor (theta_v4 A) (theta_v4 B) := by
  unfold theta_v4
  rw [theta_C_xor A B hA.1 hB.1,
    theta_D_xor 3 (by norm_num) _ _ (theta_C_row A hA) (theta_C_row B hB),
    theta_apply_xor A B _ _ hA.1 hB.1 (theta_D_row 3 _ (theta_C_row A hA).2).1
      (theta_D_row 3 _ (theta_C_row B hB).2).1]

theorem theta_v5_xor (A B : List Nat) (hA : IsState A) (hB : IsState B) :
    theta_v5 (state_xor A B) = state_xor (theta_v5 A) (theta_v5 B) := by
  unfold theta_v5
  rw [theta_C_xor A B hA.1 hB.1,
    theta_D_v5_xor _ _ (theta_C_row A hA) (theta_C_row B hB),
    theta_apply_xor A B _ _ hA.1 hB.1 (by simp [theta_D_v5]) (by simp [theta_D_v5])]

theorem theta_v6_xor (A B : List Nat) (hA : IsState A) (hB : IsState B) :
    theta_v6 (state_xor A B) = state_xor (theta_v6 A) (theta_v6 B) := by
  unfold theta_v6
  rw [theta_C_weighted_xor A B hA hB,
    theta_D_v6_xor _ _ (theta_C_weighted_row A hA) (theta_C_weighted_row B hB),
    theta_apply_xor A B _ _ hA.1 hB.1 (by simp [theta_D_v6]) (by simp [theta_D_v6])]

/-- Claim C16: every theta variant `theta_v0 .. theta_v6` is linear over GF(2). For
all states `A` and `B` of 25 64-bit lanes, `state_xor A B` is the state whose lane
`i` is `A[i] xor B[i]`, and `theta_vN (state_xor A B)` is the lane-by-lane XOR of
`theta_vN A` and `theta_vN B`, for `N = 0 .. 6`; the all-zero state is a fixed
point of each variant. -/
theorem C16_theta_linear (A B : List Nat) (hA : IsState A) (hB : IsState B) :
    (IsState (state_xor A B)
        ∧ ∀ i, i < 25 → (state_xor A B).getD i 0 = A.getD i 0 ^^^ B.getD i 0)
      ∧ theta_v0 (state_xor A B) = state_xor (theta_v0 A) (theta_v0 B)
      ∧ theta_v1 (state_xor A B) = state_xor (theta_v1 A) (theta_v1 B)
      ∧ theta_v2 (state_xor A B) = state_xor (theta_v2 A) (theta_v2 B)
      ∧ theta_v3 (state_xor A B) = state_xor (theta_v3 A) (theta_v3 B)
      ∧ theta_v4 (state_xor A B) = state_xor (theta_v4 A) (theta_v4 B)
      ∧ theta_v5 (state_xor A B) = state_xor (theta_v5 A) (theta_v5 B)
      ∧ theta_v6 (state_xor A B) = state_xor (theta_v6 A) (theta_v6 B)
      ∧ (theta_v0 (List.replicate 25 0) = List.replicate 25 0
        ∧ theta_v1 (List.replicate 25 0) = List.replicate 25 0
        ∧ theta_v2 (List.replicate 25 0) = List.replicate 25 0
        ∧ theta_v3 (List.replicate 25 0) = List.replicate 25 0
        ∧ theta_v4 (List.replicate 25 0) = List.replicate 25 0
        ∧ theta_v5 (List.replicate 25 0) = List.replicate 25 0
        ∧ theta_v6 (List.replicate 25 0) = List.replicate 25 0) :=
  ⟨⟨isState_xor A B hA hB, state_xor_getD A B hA.1 hB.1⟩, theta_v0_xor A B hA hB,
    theta_v1_xor A B hA hB, theta_v2_xor A B hA hB, theta_v3_xor A B hA hB,
    theta_v4_xor A B hA hB, theta_v5_xor A B hA hB, theta_v6_xor A B hA hB, by decide!⟩

/-- Claim C16 at the states with lanes `0, 1, .., 24` and with every lane
`0xFFFFFFFFFFFFFFFF`, for `theta_v0` and `theta_v6`. -/
theorem C16_theta_linear_witness :
    IsState (List.range 25) ∧ IsState (List.replicate 25 0xFFFFFFFFFFFFFFFF)
      ∧ theta_v0 (state_xor (List.range 25) (List.replicate 25 0xFFFFFFFFFFFFFFFF))
          = state_xor (theta_v0 (List.range 25))
              (theta_v0 (List.replicate 25 0xFFFFFFFFFFFFFFFF))
      ∧ theta_v6 (state_xor (List.range 25) (List.replicate 25 0xFFFFFFFFFFFFFFFF))
          = state_xor (theta_v6 (List.range 25))
              (theta_v6 (List.replicate 25 0xFFFFFFFFFFFFFFFF)) :=
  ⟨⟨by decide, by decide⟩, ⟨by decide, by decide⟩,
    (C16_theta_linear _ _ ⟨by decide, by decide⟩ ⟨by decide, by decide⟩).2.1,
    (C16_theta_linear _ _ ⟨by decide, by decide⟩ ⟨by decide, by decide⟩).2.2.2.2.2.2.2.1⟩

/-! ### Theta applied twice -/

theorem xor5_cancel (a b c d e x : Nat) :
    (a ^^^ x) ^^^ (b ^^^ x) ^^^ (c ^^^ x) ^^^ (d ^^^ x) ^^^ (e ^^^ x)
      = (a ^^^ b ^^^ c ^^^ d ^^^ e) ^^^ x := by
  apply Nat.eq_of_testBit_eq
  intro i
  simp only [Nat.testBit_xor]
  generalize a.testBit i = p
  generalize b.testBit i = q
  generalize c.testBit i = r
  generalize d.testBit i = s
  generalize e.testBit i = t
  generalize x.testBit i = u
  revert p q r s t u
  decide

theorem xor_cancel_mid (a d e : Nat) : (a ^^^ d) ^^^ (d ^^^ e) = a ^^^ e := by
  rw [Nat.xor_assoc, ← Nat.xor_assoc d, Nat.xor_self, Nat.zero_xor]

theorem xor_eq_left_iff (a e : Nat) : a ^^^ e = a ↔ e = 0 := by
  constructor
  · intro h
    have h2 := Nat.xor_cancel_left a e
    rw [h, Nat.xor_self] at h2
    exact h2.symm
  · rintro rfl
    exact Nat.xor_zero a

/-- The column parities after the last loop of theta: each changes by `D[x]`. -/
theorem theta_C_apply (A D : List Nat) (hA : A.length = 25) (hD : D.length = 5) :
    theta_C (theta_apply A D) = state_xor (theta_C A) D := by
  obtain ⟨a0, a1, a2, a3, a4, a5, a6, a7, a8, a9, a10, a11, a12, a13, a14, a15, a16, a17, a18, a19, a20, a21, a22, a23, a24, rfl⟩ := list25 A hA
  obtain ⟨d0, d1, d2, d3, d4, rfl⟩ := list5 D hD
  simp only [state_xor, List.zipWith_cons_cons, List.zipWith_nil_right, theta_apply_explicit,
    theta_C_explicit, xor5_cancel]

theorem theta_apply_apply (A D E : List Nat) (hA : A.length = 25) (hD : D.length = 5)
    (hE : E.length = 5) : theta_apply (theta_apply A D) (state_xor D E) = theta_apply A E := by
  obtain ⟨a0, a1, a2, a3, a4, a5, a6, a7, a8, a9, a10, a11, a12, a13, a14, a15, a16, a17, a18, a19, a20, a21, a22, a23, a24, rfl⟩ := list25 A hA
  obtain ⟨d0, d1, d2, d3, d4, rfl⟩ := list5 D hD
  obtain ⟨e0, e1, e2, e3, e4, rfl⟩ := list5 E hE
  simp only [state_xor, List.zipWith_cons_cons, List.zipWith_nil_right, theta_apply_explicit,
    xor_cancel_mid]

theorem theta_apply_eq_self_iff (A E : List Nat) (hA : A.length = 25) (hE : E.length = 5) :
    theta_apply A E = A ↔ E = List.replicate 5 0 := by
  obtain ⟨a0, a1, a2, a3, a4, a5, a6, a7, a8, a9, a10, a11, a12, a13, a14, a15, a16, a17, a18, a19, a20, a21, a22, a23, a24, rfl⟩ := list25 A hA
  obtain ⟨e0, e1, e2, e3, e4, rfl⟩ := list5 E hE
  simp only [theta_apply_explicit, List.cons.injEq, and_true, xor_eq_left_iff, List.replicate]
  constructor
  · intro h
    exact ⟨h.1, h.2.1, h.2.2.1, h.2.2.2.1, h.2.2.2.2.1⟩
  · rintro ⟨rfl, rfl, rfl, rfl, rfl⟩
    simp

/-- Two applications of `theta_v0` add to each lane of column `x` the entry `x`
of the vector obtained from `C` by two applications of the `D` formula. -/
theorem theta_v0_twice (A : List Nat) (hA : IsState A) :
    theta_v0 (theta_v0 A) = theta_apply A (theta_D 1 (theta_D 1 (theta_C A))) := by
  have hC := theta_C_row A hA
  have hD := theta_D_row 1 _ hC.2
  have hE := theta_D_row 1 _ hD.2
  unfold theta_v0
  rw [theta_C_apply A _ hA.1 hD.1, theta_D_xor 1 (by norm_num) _ _ hC hD,
    theta_apply_apply A _ _ hA.1 hD.1 hE.1]

/-- Claim C17, as stated, fails: for the state whose lanes 0 .. 4 are
`0xAAAAAAAAAAAAAAAA` and whose other lanes are zero, every column parity is
`0xAAAAAAAAAAAAAAAA`, the vector `D` that `theta_v0` computes has every entry
`0xFFFFFFFFFFFFFFFF`, so it is not all zero, and yet two applications of
`theta_v0` return the state. -/
theorem C17_nonzero_D_with_double_theta_identity :
    IsState (List.replicate 5 0xAAAAAAAAAAAAAAAA ++ List.replicate 20 0)
      ∧ theta_C (List.replicate 5 0xAAAAAAAAAAAAAAAA ++ List.replicate 20 0) = List.replicate 5 0xAAAAAAAAAAAAAAAA
      ∧ theta_D 1 (theta_C (List.replicate 5 0xAAAAAAAAAAAAAAAA ++ List.replicate 20 0)) = List.replicate 5 0xFFFFFFFFFFFFFFFF
      ∧ theta_v0 (theta_v0 (List.replicate 5 0xAAAAAAAAAAAAAAAA ++ List.replicate 20 0)) = (List.replicate 5 0xAAAAAAAAAAAAAAAA ++ List.replicate 20 0)
      ∧ ¬ (theta_v0 (theta_v0 (List.replicate 5 0xAAAAAAAAAAAAAAAA ++ List.replicate 20 0)) = (List.replicate 5 0xAAAAAAAAAAAAAAAA ++ List.replicate 20 0)
            ↔ theta_D 1 (theta_C (List.replicate 5 0xAAAAAAAAAAAAAAAA ++ List.replicate 20 0)) = List.replicate 5 0) := by
  refine ⟨⟨by decide, by decide⟩, by decide!, by decide!, by decide!, ?_⟩
  intro h
  have h1 : theta_D 1 (theta_C (List.replicate 5 0xAAAAAAAAAAAAAAAA ++ List.replicate 20 0)) = List.replicate 5 0 := h.mp (by decide!)
  revert h1
  decide!

/-- Claim C17, amended: for every state `A` of 25 64-bit lanes,
`theta_v0 (theta_v0 A) = A` if and only if the vector obtained from the diffusion
vector `D` of `theta_v0` on `A` by the same formula,
`D2[x] = D[(x+4) mod 5] xor rol64(D[(x+1) mod 5], 1)`, is all zero; this is so in
particular when `D` itself is all zero, where `D[x] = C[(x+4) mod 5] xor
rol64(C[(x+1) mod 5], 1)` and `C` holds the column parities of `A`. -/
theorem C17_double_theta_iff (A : List Nat) (hA : IsState A) :
    (theta_v0 (theta_v0 A) = A
        ↔ theta_D 1 (theta_D 1 (theta_C A)) = List.replicate 5 0)
      ∧ (theta_D 1 (theta_C A) = List.replicate 5 0 → theta_v0 (theta_v0 A) = A) := by
  have hiff : theta_v0 (theta_v0 A) = A
      ↔ theta_D 1 (theta_D 1 (theta_C A)) = List.replicate 5 0 := by
    rw [theta_v0_twice A hA]
    exact theta_apply_eq_self_iff A _ hA.1
      (theta_D_row 1 _ (theta_D_row 1 _ (theta_C_row A hA).2).2).1
  refine ⟨hiff, ?_⟩
  intro h
  apply hiff.mpr
  rw [h]
  decide!

/-- Claim C17, amended, at the state with lane 0 equal to 1 and all other lanes
zero: there the twice-derived vector is `[0, 0, 1, 4, 0]`, not zero, and two
applications of `theta_v0` do not return the state. -/
theorem C17_double_theta_iff_witness :
    IsState (1 :: List.replicate 24 0)
      ∧ theta_D 1 (theta_D 1 (theta_C (1 :: List.replicate 24 0))) = [0, 0, 1, 4, 0]
      ∧ (theta_v0 (theta_v0 (1 :: List.replicate 24 0)) = (1 :: List.replicate 24 0)
          ↔ theta_D 1 (theta_D 1 (theta_C (1 :: List.replicate 24 0))) = List.replicate 5 0) :=
  ⟨⟨by decide, by decide⟩, by decide!,
    (C17_double_theta_iff (1 :: List.replicate 24 0) ⟨by decide, by decide⟩).1⟩

/-! ## The LFSR of `iota_v6` -/

theorem and_top_bit (v : Nat) : (v &&& 0x8000000000000000 ≠ 0) ↔ v.testBit 63 = true := by
  have h : (0x8000000000000000 : Nat) = 2 ^ 63 := by norm_num
  rw [h, Nat.and_two_pow]
  cases v.testBit 63 <;> simp

theorem lfsr_step_eq (v : Nat) :
    lfsr_step v
      = if v.testBit 63 then ((v <<< 1) % 2 ^ 64) ^^^ 0x1B else (v <<< 1) % 2 ^ 64 := by
  unfold lfsr_step SIZE_MOD
  by_cases h : v.testBit 63 = true
  · rw [if_pos ((and_top_bit v).mpr h), if_pos h]
  · rw [if_neg (fun c => h ((and_top_bit v).mp c)), if_neg h]

theorem foldl_range_iterate (f : Nat → Nat) (n x : Nat) :
    (List.range n).foldl (fun acc _ => f acc) x = f^[n] x := by
  induction n with
  | zero => rfl
  | succ n ih => rw [List.range_succ, List.foldl_append, ih, Function.iterate_succ_apply']; rfl

/-- Claim C21: for every round `r` and every state `A`, `iota_v6` XORs into lane 0
the value obtained from `0x243f6a8885a308d3` by exactly `r + 1` steps of the LFSR,
one step sending `v` to `((v << 1) mod 2^64) xor 0x1B` if bit 63 of `v` is set and
to `(v << 1) mod 2^64` otherwise; for `r = 0` the value is `0x487ed5110b4611a6`. -/
theorem C21_iota_v6_lfsr (A : List Nat) (r : Nat) :
    iota_v6 A r = A.set 0 (A.getD 0 0 ^^^
        (fun v => if v.testBit 63 then ((v <<< 1) % 2 ^ 64) ^^^ 0x1B
          else (v <<< 1) % 2 ^ 64)^[r + 1] 0x243f6a8885a308d3)
      ∧ iota_v6_lfsr 0 = 0x487ed5110b4611a6
      ∧ iota_v6 (List.replicate 25 0) 0 = 0x487ed5110b4611a6 :: List.replicate 24 0 := by
  refine ⟨?_, by decide!, by decide!⟩
  have hstep : lfsr_step = (fun v => if v.testBit 63 then ((v <<< 1) % 2 ^ 64) ^^^ 0x1B
      else (v <<< 1) % 2 ^ 64) := funext lfsr_step_eq
  unfold iota_v6 iota_xor iota_v6_lfsr
  rw [foldl_range_iterate lfsr_step (r + 1), hstep]

/-! ## Chi, variant 1 -/

/-- Claim C28: `chi_v1` is not injective. The states whose only non-zero lanes are
`A[0] = A[2] = 1` and `A[0] = A[1] = A[4] = 1` are distinct, and `chi_v1` maps
both to the state whose only non-zero lanes are `A[0] = A[4] = 1`. -/
theorem C28_chi_v1_not_injective :
    IsState ([1, 0, 1, 0, 0] ++ List.replicate 20 0)
      ∧ IsState ([1, 1, 0, 0, 1] ++ List.replicate 20 0)
      ∧ [1, 0, 1, 0, 0] ++ List.replicate 20 0 ≠ [1, 1, 0, 0, 1] ++ List.replicate 20 0
      ∧ chi_v1 ([1, 0, 1, 0, 0] ++ List.replicate 20 0) = [1, 0, 0, 0, 1] ++ List.replicate 20 0
      ∧ chi_v1 ([1, 1, 0, 0, 1] ++ List.replicate 20 0) = [1, 0, 0, 0, 1] ++ List.replicate 20 0
      ∧ ¬ (∀ A B, IsState A → IsState B → chi_v1 A = chi_v1 B → A = B) := by
  have h1 : IsState ([1, 0, 1, 0, 0] ++ List.replicate 20 0) := ⟨by decide, by decide⟩
  have h2 : IsState ([1, 1, 0, 0, 1] ++ List.replicate 20 0) := ⟨by decide, by decide⟩
  have hne : [1, 0, 1, 0, 0] ++ List.replicate 20 0 ≠ [1, 1, 0, 0, 1] ++ List.replicate 20 0 := by
    decide
  have e1 : chi_v1 ([1, 0, 1, 0, 0] ++ List.replicate 20 0)
      = [1, 0, 0, 0, 1] ++ List.replicate 20 0 := by decide!
  have e2 : chi_v1 ([1, 1, 0, 0, 1] ++ List.replicate 20 0)
      = [1, 0, 0, 0, 1] ++ List.replicate 20 0 := by decide!
  exact ⟨h1, h2, hne, e1, e2, fun h => hne (h _ _ h1 h2 (e1.trans e2.symm))⟩

/-! ## The padded buffer of `sha256` -/

/-- The size of the allocation of `sha256` leaves remainder 57 modulo 64, and
the zero padding ends at a length that leaves remainder 49. -/
theorem sha256_total_len_mod (len : Nat) (h : len + 128 < SIZE_MOD) :
    sha256_total_len len % 64 = 57 ∧ (len + 1 + sha256_pad_len len) % 64 = 49
      ∧ sha256_total_len len = len + 1 + sha256_pad_len len + 8 := by
  have hb : len + 128 < 18446744073709551616 := by
    have h2 : SIZE_MOD = 18446744073709551616 := by norm_num [SIZE_MOD]
    rw [h2] at h
    exact h
  have hS : SIZE_MOD = 18446744073709551616 := by norm_num [SIZE_MOD]
  unfold sha256_total_len sha256_pad_len
  rw [hS]
  have h8 : (len + 8) % 18446744073709551616 = len + 8 := Nat.mod_eq_of_lt (by omega)
  rw [h8]
  split
  · have hlt : len + 1 + (56 - (len + 8) % 64) + 8 < 18446744073709551616 := by omega
    rw [Nat.mod_eq_of_lt hlt]; omega
  · have hlt : len + 1 + (120 - (len + 8) % 64) + 8 < 18446744073709551616 := by omega
    rw [Nat.mod_eq_of_lt hlt]; omega

theorem foldl_set_length (g : Nat → Nat) (v : Nat → Nat) (l : List Nat) (p : List Nat) :
    (l.foldl (fun p i => p.set (g i) (v i)) p).length = p.length := by
  induction l generalizing p with
  | nil => rfl
  | cons x xs ih => rw [List.foldl_cons, ih, List.length_set]

theorem sha256_padded_length (input : List Nat) (h : input.length + 128 < SIZE_MOD) :
    (sha256_padded input).length = sha256_total_len input.length := by
  obtain ⟨-, -, h3⟩ := sha256_total_len_mod input.length h
  unfold sha256_padded
  simp only []
  rw [foldl_set_length]
  simp only [memset, memcpy, List.length_append, List.length_take, List.length_drop,
    List.length_replicate, List.length_set, List.take_zero, List.length_nil]
  omega

/-- A block whose last word lies outside the memory has no value. -/
theorem sha256_load_block_none (mem : List Nat) (offset : Nat)
    (h : mem.length ≤ offset + 63) : sha256_load_block mem offset = none := by
  have hw : sha256_load_word mem offset 15 = none := by
    unfold sha256_load_word
    have h3 : mem[offset + 15 * 4 + 3]? = none := List.getElem?_eq_none (by omega)
    rw [h3]
    split
    · rename_i e1 e2 e3 e4; cases e4
    · rfl
  unfold sha256_load_block
  rw [show List.range 16 = List.range 15 ++ [15] from List.range_succ 15, List.foldl_append,
    List.foldl_cons, List.foldl_nil, hw]
  split
  · rename_i e1 e2; cases e2
  · rfl

/-- The block loop has no value when the last block reaches outside the memory. -/
theorem sha256_blocks_none (mem : List Nat) (total_len : Nat)
    (hm : total_len % 64 = 57) (hl : mem.length ≤ total_len) :
    sha256_blocks mem total_len = none := by
  unfold sha256_blocks
  have hq : (total_len + 63) / 64 = total_len / 64 + 1 := by omega
  rw [hq, List.range_succ, List.foldl_append, List.foldl_cons, List.foldl_nil]
  have hb : sha256_load_block mem (64 * (total_len / 64)) = none :=
    sha256_load_block_none mem _ (by omega)
  split
  · rfl
  · rw [hb]

/-- Claim C22, on the code: the padded message of `sha256` is not a whole number
of 64-byte blocks. For every input length `len` the zero bytes stop at a length
congruent to 49 (not 56) modulo 64, and `total_len` is congruent to 57 (not 0)
modulo 64. For the empty input the buffer is `0x80` followed by 56 zero bytes,
57 bytes, while the padding of FIPS 180-4 has 64 bytes; for `abc` the buffer
has 57 bytes and ends in the bit length `0x18`. -/
theorem C22_sha256_total_len_is_57_mod_64 :
    (∀ len, len + 128 < SIZE_MOD →
        sha256_total_len len % 64 = 57 ∧ (len + 1 + sha256_pad_len len) % 64 = 49)
      ∧ (∀ input : List Nat, input.length + 128 < SIZE_MOD →
          (sha256_padded input).length = sha256_total_len input.length)
      ∧ sha256_pad_len 0 = 48 ∧ sha256_total_len 0 = 57
      ∧ sha256_padded [] = 0x80 :: List.replicate 56 0
      ∧ (fips180_pad []).length = 64
      ∧ sha256_padded [0x61, 0x62, 0x63]
          = [0x61, 0x62, 0x63, 0x80] ++ List.replicate 52 0 ++ [0x18]
      ∧ fips180_pad [0x61, 0x62, 0x63]
          = [0x61, 0x62, 0x63, 0x80] ++ List.replicate 59 0 ++ [0x18] := by
  refine ⟨fun len h => ⟨(sha256_total_len_mod len h).1, (sha256_total_len_mod len h).2.1⟩,
    sha256_padded_length, by decide!, by decide!, by decide!, by decide!, by decide!,
    by decide!⟩

/-- Claim C24, on the code: the block loop of `sha256` reads past the end of the
padded buffer. For the empty input the buffer has `total_len = 57` bytes, the
only block has offset 0, and the reads of `W[14]` and `W[15]` use the indices
`56 .. 63`, of which `57 .. 63` are not below `total_len`; for every input the
last block reads the seven bytes that follow the buffer, so that the function
has no value when no byte after the buffer can be read. -/
theorem C24_sha256_block_reads_past_end :
    sha256_total_len 0 = 57 ∧ (sha256_padded []).length = 57
      ∧ 0 < sha256_total_len 0 ∧ ¬ (0 + 4 * 15 + 3 < sha256_total_len 0)
      ∧ sha256_load_word (sha256_padded []) 0 13 = some 0
      ∧ sha256_load_word (sha256_padded []) 0 14 = none
      ∧ sha256_load_word (sha256_padded []) 0 15 = none
      ∧ sha256_load_word (sha256_padded [] ++ [0, 0, 0, 0, 0, 0, 0]) 0 15 = some 0
      ∧ sha256 [] [] = none
      ∧ (∀ input : List Nat, input.length + 128 < SIZE_MOD →
          ∃ offset, offset % 64 = 0 ∧ offset < sha256_total_len input.length
            ∧ sha256_total_len input.length + 6 = offset + 4 * 15 + 3
            ∧ sha256_load_word (sha256_padded input) offset 15 = none
            ∧ sha256 [] input = none) := by
  refine ⟨by decide!, by decide!, by decide!, by decide!, by decide!, by decide!, by decide!,
    by decide!, by decide!, ?_⟩
  intro input h
  obtain ⟨h1, -, -⟩ := sha256_total_len_mod input.length h
  have hlen := sha256_padded_length input h
  refine ⟨64 * (sha256_total_len input.length / 64), by omega, by omega, by omega, ?_, ?_⟩
  · unfold sha256_load_word
    have h3 : (sha256_padded input)[64 * (sha256_total_len input.length / 64) + 15 * 4 + 3]?
        = none := List.getElem?_eq_none (by omega)
    rw [h3]
    split
    · rename_i e1 e2 e3 e4; cases e4
    · rfl
  · unfold sha256
    rw [List.append_nil, sha256_blocks_none _ _ h1 (le_of_eq hlen)]
    rfl

/-! ## The state of `init_state_from_message` -/

/-- The lanes that `init_state_from_message` returns when the padding fits. -/
theorem init_state_lanes (message stack state : List Nat)
    (hbytes : ∀ b ∈ message, b < 256)
    (hn : message.length + 145 < SIZE_MOD)
    (hfit : padded_len message.length ≤ 1088) (hstate : state.length = 25) :
    (init_state_from_message message stack state).length = 25
      ∧ (∀ i, i ≤ 16 → (init_state_from_message message stack state)[i]?
          = some (pack_word (apply_sha3_padding message stack 1088).2 i))
      ∧ (∀ i, 17 ≤ i → i < 25 → (init_state_from_message message stack state)[i]? = some 0) := by
  obtain ⟨h1, h2, h3⟩ := padded_len_bounds message.length hn
  have hL : (apply_sha3_padding message stack 1088).1 = padded_len message.length := by
    rw [apply_sha3_padding_buffer message stack 1088 hn hfit]
  have hzero : memset state 0 0 25 = List.replicate 25 0 := by
    simp [memset, List.drop_of_length_le (le_of_eq hstate)]
  have hne : ¬ padded_len message.length = 0 := by omega
  unfold init_state_from_message
  simp only [hL, hne, if_false, hzero]
  refine ⟨?_, ?_, ?_⟩
  · rw [foldl_set_range_length]; simp
  · intro i hi
    rw [foldl_set_range_getElem?, if_pos ⟨by omega, by simp; omega⟩]
    congr 1
    apply load_lane_eq_pack_word
    · intro j hj
      exact padding_output_byte_lt message stack 1088 hbytes hn hfit _ (by omega)
    · omega
  · intro i hi1 hi2
    rw [foldl_set_range_getElem?, if_neg (by omega), List.getElem?_replicate, if_pos hi2]

/-- The value `pack_word s k` depends on the bytes `8 k .. 8 k + 7` of `s` only. -/
theorem pack_word_congr (s t : List Nat) (k : Nat)
    (h : ∀ j, j < 8 → s.getD (8 * k + j) 0 = t.getD (8 * k + j) 0) :
    pack_word s k = pack_word t k := by
  simp only [pack_word, range8, List.foldl_cons, List.foldl_nil]
  rw [h 0 (by omega), h 1 (by omega), h 2 (by omega), h 3 (by omega), h 4 (by omega),
    h 5 (by omega), h 6 (by omega), h 7 (by omega)]

theorem padded_len_fits_iff (n : Nat) (hn : n + 145 < SIZE_MOD) :
    padded_len n ≤ 1088 ↔ n ≤ 1078 := by
  rw [padded_len_eq n hn]
  omega

/-- For a message of at least 136 bytes whose padding fits, the state is the
packing of the first 136 message bytes, followed by eight zero lanes. -/
theorem init_state_long_message (message stack state : List Nat)
    (hbytes : ∀ b ∈ message, b < 256) (hlo : 136 ≤ message.length)
    (hhi : message.length ≤ 1078) (hstate : state.length = 25) :
    init_state_from_message message stack state
      = (List.range 17).map (pack_word (message.take 136)) ++ List.replicate 8 0 := by
  have hn : message.length + 145 < SIZE_MOD := by
    have h2 : SIZE_MOD = 18446744073709551616 := by norm_num [SIZE_MOD]
    rw [h2]; omega
  have hfit := (padded_len_fits_iff message.length hn).mpr hhi
  obtain ⟨hlen, hlow, hhigh⟩ := init_state_lanes message stack state hbytes hn hfit hstate
  apply List.ext_getElem?
  intro i
  by_cases h16 : i ≤ 16
  · rw [hlow i h16, List.getElem?_append_left (by simp; omega), List.getElem?_map,
      List.getElem?_range (by omega), Option.map_some']
    congr 1
    apply pack_word_congr
    intro j hj
    rw [apply_sha3_padding_buffer message stack 1088 hn hfit]
    simp only [List.getD_eq_getElem?_getD]
    rw [List.getElem?_append_left (by omega), List.getElem?_take_of_lt (by omega)]
  · by_cases h25 : i < 25
    · rw [hhigh i (by omega) h25, List.getElem?_append_right (by simp; omega),
        List.getElem?_replicate, if_pos (by simp; omega)]
    · rw [List.getElem?_eq_none (by omega), List.getElem?_eq_none (by simp; omega)]

/-- Claim C25: for any two messages (of bytes) whose lengths are both in
`136 .. 1078` and whose first 136 bytes are equal, `init_state_from_message`
produces the same state, whatever the local array and the state hold on entry:
the little-endian packing of the first 136 message bytes in the lanes `0 .. 16`
and zero in the lanes `17 .. 24`. -/
theorem C25_state_depends_on_first_block (m1 m2 stack1 stack2 state1 state2 : List Nat)
    (hb1 : ∀ b ∈ m1, b < 256) (hb2 : ∀ b ∈ m2, b < 256)
    (hlo1 : 136 ≤ m1.length) (hhi1 : m1.length ≤ 1078)
    (hlo2 : 136 ≤ m2.length) (hhi2 : m2.length ≤ 1078)
    (hs1 : state1.length = 25) (hs2 : state2.length = 25)
    (heq : m1.take 136 = m2.take 136) :
    init_state_from_message m1 stack1 state1 = init_state_from_message m2 stack2 state2
      ∧ init_state_from_message m1 stack1 state1
          = (List.range 17).map (pack_word (m1.take 136)) ++ List.replicate 8 0 := by
  rw [init_state_long_message m1 stack1 state1 hb1 hlo1 hhi1 hs1,
    init_state_long_message m2 stack2 state2 hb2 hlo2 hhi2 hs2, heq]
  exact ⟨rfl, rfl⟩

/-- Claim C25 at the messages of 136 bytes `0x01` followed by one byte `0x02`, and
by 900 bytes `0x03`: both give the state with `0x0101010101010101` in the lanes
`0 .. 16`. -/
theorem C25_state_depends_on_first_block_witness :
    init_state_from_message (List.replicate 136 1 ++ [2]) (List.replicate 1088 0xff)
        (List.replicate 25 0xff)
      = init_state_from_message (List.replicate 136 1 ++ List.replicate 900 3)
          (List.replicate 1088 0) (List.replicate 25 0)
      ∧ init_state_from_message (List.replicate 136 1 ++ [2]) (List.replicate 1088 0xff)
          (List.replicate 25 0xff)
        = List.replicate 17 0x0101010101010101 ++ List.replicate 8 0 := by
  have h := C25_state_depends_on_first_block (List.replicate 136 1 ++ [2])
    (List.replicate 136 1 ++ List.replicate 900 3) (List.replicate 1088 0xff)
    (List.replicate 1088 0) (List.replicate 25 0xff) (List.replicate 25 0)
    (by decide!) (by decide!) (by decide!) (by decide!) (by decide!) (by decide!)
    (by decide!) (by decide!) (by decide!)
  refine ⟨h.1, ?_⟩
  rw [h.2]
  decide!

/-- Claim C26: for every message of length `n ≥ 1079` (with `n + 145 < 2^64`) the
padding does not fit the 1088-byte array, `apply_sha3_padding` returns 0, and
`init_state_from_message` returns the all-zero state; the result is a state
only, and it is the state that the message of 136 zero bytes gives, so nothing
tells the caller of the failure. For every `n ≤ 1078` the padding succeeds: the
returned length is the positive padded length, at most 1088. -/
theorem C26_oversized_message (message stack state : List Nat)
    (hn : message.length + 145 < SIZE_MOD) (hstate : state.length = 25) :
    (1079 ≤ message.length →
        (apply_sha3_padding message stack 1088).1 = 0
          ∧ init_state_from_message message stack state = List.replicate 25 0
          ∧ init_state_from_message message stack state
              = init_state_from_message (List.replicate 136 0) stack state)
      ∧ (message.length ≤ 1078 →
          (apply_sha3_padding message stack 1088).1 = padded_len message.length
            ∧ 0 < padded_len message.length ∧ padded_len message.length ≤ 1088) := by
  have hzero : memset state 0 0 25 = List.replicate 25 0 := by
    simp [memset, List.drop_of_length_le (le_of_eq hstate)]
  constructor
  · intro hbig
    have hgt : padded_len message.length > 1088 := by
      have := padded_len_fits_iff message.length hn
      omega
    have hfail := apply_sha3_padding_fail message stack 1088 hgt
    have hres : init_state_from_message message stack state = List.replicate 25 0 := by
      unfold init_state_from_message
      simp only [hfail, if_true, hzero]
    refine ⟨by rw [hfail], hres, ?_⟩
    rw [hres, init_state_long_message (List.replicate 136 0) stack state (by simp)
      (by simp) (by simp) hstate]
    decide!
  · intro hsmall
    have hfit := (padded_len_fits_iff message.length hn).mpr hsmall
    obtain ⟨h1, -, -⟩ := padded_len_bounds message.length hn
    refine ⟨by rw [apply_sha3_padding_buffer message stack 1088 hn hfit], by omega, hfit⟩

/-- Claim C26 at the messages of 1079 and of 1078 zero bytes: the first leaves the
state all-zero with return value 0 of the padding, the second is padded to 1088
bytes. -/
theorem C26_oversized_message_witness :
    ((apply_sha3_padding (List.replicate 1079 0) (List.replicate 1088 0xff) 1088).1 = 0
        ∧ init_state_from_message (List.replicate 1079 0) (List.replicate 1088 0xff)
            (List.replicate 25 0xff) = List.replicate 25 0)
      ∧ (apply_sha3_padding (List.replicate 1078 0) (List.replicate 1088 0xff) 1088).1
          = 1088 := by
  have h1 := C26_oversized_message (List.replicate 1079 0) (List.replicate 1088 0xff)
    (List.replicate 25 0xff) (by decide!) (by decide!)
  have h2 := C26_oversized_message (List.replicate 1078 0) (List.replicate 1088 0xff)
    (List.replicate 25 0xff) (by decide!) (by decide!)
  refine ⟨⟨(h1.1 (by decide!)).1, (h1.1 (by decide!)).2.1⟩, ?_⟩
  rw [(h2.2 (by decide!)).1]
  decide!

/-- Claim C29: for every message length `n` (with `n + 145 < 2^64`) the padded
length `L` that `apply_sha3_padding` computes is a multiple of 136 with
`n + 10 ≤ L ≤ n + 145`; when it fits the buffer, the function returns `L`, the
byte at index `n` is `0x06`, the byte at index `L - 1` is `0x80`, the two
indices differ, the bytes strictly between them are zero and there are at least
8 of them, and no byte from index `n` on is `0x86`. -/
theorem C29_padding_length_window (message padded : List Nat) (max_padded_len : Nat)
    (hn : message.length + 145 < SIZE_MOD) :
    (padded_len message.length % 136 = 0 ∧ message.length + 10 ≤ padded_len message.length
        ∧ padded_len message.length ≤ message.length + 145)
      ∧ (padded_len message.length ≤ max_padded_len →
          (apply_sha3_padding message padded max_padded_len).1 = padded_len message.length
            ∧ (apply_sha3_padding message padded max_padded_len).2[message.length]? = some 0x06
            ∧ (apply_sha3_padding message padded max_padded_len).2[
                padded_len message.length - 1]? = some 0x80
            ∧ message.length ≠ padded_len message.length - 1
            ∧ 8 ≤ padded_len message.length - 1 - (message.length + 1)
            ∧ (∀ i, message.length < i → i < padded_len message.length - 1 →
                (apply_sha3_padding message padded max_padded_len).2[i]? = some 0)
            ∧ (∀ i, message.length ≤ i → i < padded_len message.length →
                (apply_sha3_padding message padded max_padded_len).2[i]? ≠ some 0x86)) := by
  obtain ⟨h1, h2, h3⟩ := padded_len_bounds message.length hn
  refine ⟨⟨h3, h1, h2⟩, ?_⟩
  intro hfit
  rw [apply_sha3_padding_buffer message padded max_padded_len hn hfit]
  refine ⟨rfl, ?_, ?_, by omega, by omega, ?_, ?_⟩
  · rw [padded_form_getElem?, if_neg (by omega), if_pos rfl]
  · rw [padded_form_getElem?, if_neg (by omega), if_neg (by omega), if_neg (by omega),
      if_pos (by omega)]
  · intro i hi1 hi2
    rw [padded_form_getElem?, if_neg (by omega), if_neg (by omega), if_pos (by omega)]
  · intro i hi1 hi2
    rw [padded_form_getElem?]
    by_cases c2 : i = message.length
    · rw [if_neg (by omega), if_pos c2]; decide
    · rw [if_neg (by omega), if_neg c2]
      by_cases c3 : i < message.length + 1 + (padded_len message.length - message.length - 2)
      · rw [if_pos c3]; decide
      · rw [if_neg c3, if_pos (by omega)]; decide

/-- Claim C29 at a 135-byte message and a 272-byte buffer: `L = 272`, the byte
`0x06` is at index 135 and the byte `0x80` at index 271. -/
theorem C29_padding_length_window_witness :
    (apply_sha3_padding (List.replicate 135 0x61) (List.replicate 272 0xff) 272).1 = 272
      ∧ (apply_sha3_padding (List.replicate 135 0x61) (List.replicate 272 0xff) 272).2[135]?
          = some 0x06
      ∧ (∀ i, 135 ≤ i → i < 272 →
          (apply_sha3_padding (List.replicate 135 0x61) (List.replicate 272 0xff) 272).2[i]?
            ≠ some 0x86) := by
  have h := (C29_padding_length_window (List.replicate 135 0x61) (List.replicate 272 0xff) 272
    (by decide!)).2 (by decide!)
  have hL : padded_len (List.replicate 135 0x61).length = 272 := by decide!
  have hl : (List.replicate 135 0x61).length = 135 := by decide!
  rw [hL, hl] at h
  exact ⟨h.1, h.2.1, h.2.2.2.2.2.2⟩

/-! ## Rho-Pi, variant 0 -/

theorem range24 : List.range 24 = [0, 1, 2, 3, 4, 5, 6, 7, 8, 9, 10, 11, 12, 13, 14, 15, 16,
    17, 18, 19, 20, 21, 22, 23] := rfl

theorem rol64_by_zero (x : Nat) (hx : x < SIZE_MOD) : rol64 x 0 = x := by
  unfold rol64
  rw [Nat.shiftLeft_zero, Nat.mod_eq_of_lt hx, Nat.shiftRight_eq_div_pow]
  have h : x / 2 ^ (64 - 0) = 0 := Nat.div_eq_of_lt hx
  rw [h, Nat.or_zero]

/-- The table-driven loop with the standard lane permutation and the table `rho`,
in closed form. -/
theorem rhopi_rho_closed (A : List Nat) (hA : A.length = 25) :
    rhopi_loop newY_std (table_at rho) A = List.zipWith rol64
      ((([0, 6, 12, 18, 24, 3, 9, 10, 16, 22, 1, 7, 13, 19, 20, 4, 5, 11, 17, 23, 2, 8, 14, 15, 21] : List Nat)).map (fun i => A.getD i 0))
      [0, 44, 43, 21, 14, 28, 20, 3, 45, 61, 1, 6, 25, 8, 18, 27, 36, 10, 15, 56, 62, 55, 39, 41, 2] := by
  obtain ⟨a0, a1, a2, a3, a4, a5, a6, a7, a8, a9, a10, a11, a12, a13, a14, a15, a16, a17, a18, a19, a20, a21, a22, a23, a24, rfl⟩ := list25 A hA
  simp [rhopi_loop, range5, memcpy, table_at, rho, newY_std]

/-- The function `rhopi_v0` in closed form: lane 0 is kept, and destination lane
`d > 0` is the source lane `src[d]` rotated by `amt[d]`. -/
theorem rhopi_v0_closed (A : List Nat) (hA : A.length = 25) :
    rhopi_v0 A = A.getD 0 0 :: List.zipWith rol64
      ((([6, 12, 18, 24, 3, 9, 10, 16, 22, 1, 7, 13, 19, 20, 4, 5, 11, 17, 23, 2, 8, 14, 15, 21] : List Nat)).map (fun i => A.getD i 0))
      [44, 43, 21, 14, 28, 20, 3, 45, 61, 1, 6, 25, 8, 18, 27, 36, 10, 15, 56, 62, 55, 39, 41, 2] := by
  obtain ⟨a0, a1, a2, a3, a4, a5, a6, a7, a8, a9, a10, a11, a12, a13, a14, a15, a16, a17, a18, a19, a20, a21, a22, a23, a24, rfl⟩ := list25 A hA
  simp [rhopi_v0, range24, memcpy, PILN, ROTC]

theorem rhopi_v0_eq_table (A : List Nat) (hA : IsState A) :
    rhopi_v0 A = rhopi_loop newY_std (table_at rho) A := by
  rw [rhopi_v0_closed A hA.1, rhopi_rho_closed A hA.1]
  simp only [List.map_cons, List.zipWith_cons_cons]
  rw [rol64_by_zero _ (getD_lt_of_state A hA.2 0)]

theorem rhopi_rho_bijective :
    (∀ A, IsState A → IsState (rhopi_loop newY_std (table_at rho) A))
      ∧ (∀ A B, IsState A → IsState B →
          rhopi_loop newY_std (table_at rho) A = rhopi_loop newY_std (table_at rho) B → A = B)
      ∧ (∀ B, IsState B → ∃ A, IsState A ∧ rhopi_loop newY_std (table_at rho) A = B) :=
  rol_perm_bijective (rhopi_loop newY_std (table_at rho)) _ _ (by decide) (by decide)
    (by decide) (by decide) rhopi_rho_closed


theorem rhopi_v0_state (A : List Nat) (hA : IsState A) : IsState (rhopi_v0 A) := by
  rw [rhopi_v0_eq_table A hA]
  exact rhopi_rho_bijective.1 A hA

theorem rhopi_v0_inj (A B : List Nat) (hA : IsState A) (hB : IsState B)
    (h : rhopi_v0 A = rhopi_v0 B) : A = B := by
  rw [rhopi_v0_eq_table A hA, rhopi_v0_eq_table B hB] at h
  exact rhopi_rho_bijective.2.1 A B hA hB h

theorem rhopi_v0_surj (B : List Nat) (hB : IsState B) : ∃ A, IsState A ∧ rhopi_v0 A = B := by
  obtain ⟨A, hA, h⟩ := rhopi_rho_bijective.2.2 B hB
  exact ⟨A, hA, by rw [rhopi_v0_eq_table A hA, h]⟩

theorem rhopi_v0_lane_zero (A : List Nat) (hA : A.length = 25) :
    (rhopi_v0 A).getD 0 0 = A.getD 0 0 := by
  rw [rhopi_v0_closed A hA]
  rfl

theorem zipWith_rol64_getD (f : Nat → Nat) (src amt : List Nat) (d : Nat)
    (hs : d < src.length) (ha : d < amt.length) :
    (List.zipWith rol64 (src.map f) amt).getD d 0
      = rol64 (f (src.getD d 0)) (amt.getD d 0) := by
  rw [List.getD_eq_getElem _ _ (by simp; omega), List.getElem_zipWith, List.getElem_map,
    List.getD_eq_getElem _ _ hs, List.getD_eq_getElem _ _ ha]

/-- The source index and the rotation amount of the destination index
`y + 5*((2x+3y) mod 5)` in the closed form. -/
theorem rhopi_rho_tables : ∀ x, x < 5 → ∀ y, y < 5 →
    y + 5 * ((2 * x + 3 * y) % 5) < 25
      ∧ ([0, 6, 12, 18, 24, 3, 9, 10, 16, 22, 1, 7, 13, 19, 20, 4, 5, 11, 17, 23, 2, 8, 14, 15, 21] : List Nat).getD
          (y + 5 * ((2 * x + 3 * y) % 5)) 0 = x + 5 * y
      ∧ ([0, 44, 43, 21, 14, 28, 20, 3, 45, 61, 1, 6, 25, 8, 18, 27, 36, 10, 15, 56, 62, 55, 39, 41, 2] : List Nat).getD
          (y + 5 * ((2 * x + 3 * y) % 5)) 0 = table_at rho x y := by
  decide

theorem rhopi_v0_lanes (A : List Nat) (hA : IsState A) (x : Nat) (hx : x < 5) (y : Nat)
    (hy : y < 5) :
    (rhopi_v0 A).getD (y + 5 * ((2 * x + 3 * y) % 5)) 0
      = rol64 (A.getD (x + 5 * y) 0) (table_at rho x y) := by
  obtain ⟨h1, h2, h3⟩ := rhopi_rho_tables x hx y hy
  rw [rhopi_v0_eq_table A hA, rhopi_rho_closed A hA.1,
    zipWith_rol64_getD _ _ _ _ (by simpa using h1) (by simpa using h1), h2, h3]

/-- Claim C27: `rhopi_v0`, the walk along `PILN` and `ROTC`, equals the table-driven
form: on every state of 25 64-bit lanes it returns what the loop of the other
variants returns with the standard lane permutation and the table `rho` of
`rhopi_v4`; the output lane at index `y + 5*((2x+3y) mod 5)` is
`rol64(A[x + 5y], rho[x][y])` for all `x`, `y` in `0 .. 4`; `rhopi_v0` maps
states to states, sends distinct states to distinct states, reaches every
state, and leaves lane 0 unchanged. -/
theorem C27_rhopi_v0_table_form :
    rho = [[0, 36, 3, 41, 18], [1, 44, 10, 45, 2], [62, 6, 43, 15, 61], [28, 55, 25, 21, 56],
        [27, 20, 39, 8, 14]]
      ∧ (∀ A, IsState A → rhopi_v0 A = rhopi_loop newY_std (table_at rho) A)
      ∧ (∀ A, IsState A → ∀ x, x < 5 → ∀ y, y < 5 →
          (rhopi_v0 A).getD (y + 5 * ((2 * x + 3 * y) % 5)) 0
            = rol64 (A.getD (x + 5 * y) 0) (table_at rho x y))
      ∧ (∀ A, IsState A → IsState (rhopi_v0 A))
      ∧ (∀ A B, IsState A → IsState B → A ≠ B → rhopi_v0 A ≠ rhopi_v0 B)
      ∧ (∀ B, IsState B → ∃ A, IsState A ∧ rhopi_v0 A = B)
      ∧ (∀ A : List Nat, A.length = 25 → (rhopi_v0 A).getD 0 0 = A.getD 0 0) :=
  ⟨rfl, rhopi_v0_eq_table, rhopi_v0_lanes, rhopi_v0_state,
    fun A B hA hB hne h => hne (rhopi_v0_inj A B hA hB h), rhopi_v0_surj, rhopi_v0_lane_zero⟩

/-! ## The key expansion against FIPS-197 -/

/-- The inverse of the reference is an inverse, and the table `AES_SBOX` is the
S-box of the reference. -/
theorem fips197_tables :
    (∀ b, b < 256 → fips197_gf_mul b (fips197_gf_inv b) = (if b = 0 then 0 else 1))
      ∧ AES_SBOX = (List.range 256).map fips197_sbox := by
  decide!

theorem fips197_rcon_table : ∀ j, j < 15 → AES_RCON.getD j 0 = fips197_rcon (j + 1) := by
  decide!

theorem sbox_eq_fips197 (b : Nat) (hb : b < 256) : sbox b = fips197_sbox b := by
  unfold sbox
  rw [fips197_tables.2, List.getD_eq_getElem?_getD, List.getElem?_map,
    List.getElem?_range hb]
  rfl

theorem or_shift_add (x k y : Nat) (hy : y < 2 ^ k) : (x <<< k) ||| y = x * 2 ^ k + y := by
  rw [Nat.shiftLeft_eq, Nat.mul_comm, ← Nat.mul_add_lt_is_or hy]

theorem and_ff (x : Nat) : x &&& 0xff = x % 256 := by
  have h := Nat.and_pow_two_sub_one_eq_mod x 8
  norm_num at h
  exact h

/-- Four bytes assembled by shifts and ORs are the word of the four bytes. -/
theorem or_bytes_eq_word (a b c d : Nat) (hb : b < 256) (hc : c < 256) (hd : d < 256) :
    (a <<< 24) ||| (b <<< 16) ||| (c <<< 8) ||| d = fips197_word a b c d := by
  have h1 : (c <<< 8) ||| d = c * 2 ^ 8 + d := or_shift_add c 8 d (by norm_num; omega)
  have h2 : (b <<< 16) ||| (c * 2 ^ 8 + d) = b * 2 ^ 16 + (c * 2 ^ 8 + d) :=
    or_shift_add b 16 _ (by norm_num; omega)
  have h3 : (a <<< 24) ||| (b * 2 ^ 16 + (c * 2 ^ 8 + d))
      = a * 2 ^ 24 + (b * 2 ^ 16 + (c * 2 ^ 8 + d)) :=
    or_shift_add a 24 _ (by norm_num; omega)
  rw [Nat.or_assoc, Nat.or_assoc, h1, h2, h3]
  unfold fips197_word
  omega

theorem fips197_word_lt (a b c d : Nat) (ha : a < 256) (hb : b < 256) (hc : c < 256)
    (hd : d < 256) : fips197_word a b c d < WORD_MOD := by
  unfold fips197_word WORD_MOD
  norm_num
  omega

theorem aes_sub_word_eq (x : Nat) : aes_sub_word x = fips197_sub_word x := by
  unfold aes_sub_word fips197_sub_word
  rw [or_bytes_eq_word _ _ _ _ (sbox_lt _) (sbox_lt _) (sbox_lt _)]
  have b0 : (x >>> 24) &&& 0xff = fips197_byte x 0 := by
    rw [and_ff, Nat.shiftRight_eq_div_pow]; rfl
  have b1 : (x >>> 16) &&& 0xff = fips197_byte x 1 := by
    rw [and_ff, Nat.shiftRight_eq_div_pow]; rfl
  have b2 : (x >>> 8) &&& 0xff = fips197_byte x 2 := by
    rw [and_ff, Nat.shiftRight_eq_div_pow]; rfl
  have b3 : x &&& 0xff = fips197_byte x 3 := by
    rw [and_ff]; unfold fips197_byte; norm_num
  have hlt : ∀ k, fips197_byte x k < 256 := fun k => Nat.mod_lt _ (by norm_num)
  rw [b0, b1, b2, b3, sbox_eq_fips197 _ (hlt 0), sbox_eq_fips197 _ (hlt 1),
    sbox_eq_fips197 _ (hlt 2), sbox_eq_fips197 _ (hlt 3)]

theorem aes_sub_word_lt (x : Nat) : aes_sub_word x < WORD_MOD := by
  rw [aes_sub_word_eq]
  have hlt : ∀ b, fips197_sbox (b % 256) < 256 := fun b => by
    rw [← sbox_eq_fips197 _ (Nat.mod_lt _ (by norm_num))]; exact sbox_lt _
  exact fips197_word_lt _ _ _ _ (hlt _) (hlt _) (hlt _) (hlt _)

/-- The rotation of `aes_expand_key` is `RotWord`. -/
theorem rot_word_eq (w : Nat) (hw : w < WORD_MOD) :
    ((w <<< 8) % WORD_MOD) ||| (w >>> 24) = fips197_rot_word w := by
  have hw2 : w < 4294967296 := by
    have h : WORD_MOD = 4294967296 := by norm_num [WORD_MOD]
    rw [h] at hw; exact hw
  have h1 : (w <<< 8) % WORD_MOD = (w % 2 ^ 24) <<< 8 := by
    rw [Nat.shiftLeft_eq, Nat.shiftLeft_eq]
    unfold WORD_MOD
    norm_num
    omega
  have h2 : w >>> 24 < 2 ^ 8 := by
    rw [Nat.shiftRight_eq_div_pow]
    norm_num
    omega
  rw [h1, or_shift_add _ 8 _ h2, Nat.shiftRight_eq_div_pow]
  unfold fips197_rot_word fips197_word fips197_byte
  norm_num
  omega

/-! ### The loop of `aes_expand_key` -/

theorem expand_fold_succ (g : List Nat → Nat → Nat) (first : List Nat) (n : Nat) :
    (List.range (n + 1)).foldl (fun expanded k => expanded ++ [g expanded (k + 8)]) first
      = (List.range n).foldl (fun expanded k => expanded ++ [g expanded (k + 8)]) first
        ++ [g ((List.range n).foldl (fun expanded k => expanded ++ [g expanded (k + 8)]) first)
              (n + 8)] := by
  rw [List.range_succ, List.foldl_append, List.foldl_cons, List.foldl_nil]

theorem expand_fold_length (g : List Nat → Nat → Nat) (first : List Nat) (n : Nat) :
    ((List.range n).foldl (fun expanded k => expanded ++ [g expanded (k + 8)]) first).length
      = first.length + n := by
  induction n with
  | zero => rfl
  | succ n ih => rw [expand_fold_succ, List.length_append, ih]; rfl

/-- Every stage of the loop is an initial segment of every later stage. -/
theorem expand_fold_initial (g : List Nat → Nat → Nat) (first : List Nat) (n m : Nat)
    (h : n ≤ m) :
    ∃ rest, (List.range m).foldl (fun expanded k => expanded ++ [g expanded (k + 8)]) first
      = (List.range n).foldl (fun expanded k => expanded ++ [g expanded (k + 8)]) first
        ++ rest := by
  induction m with
  | zero =>
    have h0 : n = 0 := by omega
    subst h0
    exact ⟨[], (List.append_nil _).symm⟩
  | succ m ih =>
    by_cases hm : n ≤ m
    · obtain ⟨rest, hr⟩ := ih hm
      refine ⟨rest ++ [g ((List.range m).foldl
        (fun expanded k => expanded ++ [g expanded (k + 8)]) first) (m + 8)], ?_⟩
      rw [expand_fold_succ, ← List.append_assoc, ← hr]
    · have hn : n = m + 1 := by omega
      subst hn
      exact ⟨[], (List.append_nil _).symm⟩

/-- Entry `n + 8` of the result is the word computed at iteration `n` from the
words before it, and the earlier entries are those of stage `n`. -/
theorem expand_fold_getD (g : List Nat → Nat → Nat) (first : List Nat) (hf : first.length = 8)
    (n m : Nat) (h : n < m) :
    ((List.range m).foldl (fun expanded k => expanded ++ [g expanded (k + 8)]) first).getD
        (n + 8) 0
      = g ((List.range n).foldl (fun expanded k => expanded ++ [g expanded (k + 8)]) first)
          (n + 8)
    ∧ ∀ j, j < n + 8 →
        ((List.range m).foldl (fun expanded k => expanded ++ [g expanded (k + 8)]) first).getD
            j 0
          = ((List.range n).foldl (fun expanded k => expanded ++ [g expanded (k + 8)])
              first).getD j 0 := by
  have hlen := expand_fold_length g first n
  constructor
  · obtain ⟨rest, hr⟩ := expand_fold_initial g first (n + 1) m (by omega)
    rw [hr, expand_fold_succ, List.append_assoc,
      List.getD_append_right _ _ _ _ (by rw [hlen, hf]; omega), hlen, hf]
    have h0 : n + 8 - (8 + n) = 0 := by omega
    rw [h0]
    rfl
  · intro j hj
    obtain ⟨rest, hr⟩ := expand_fold_initial g first n m (by omega)
    rw [hr, List.getD_append _ _ _ _ (by rw [hlen, hf]; omega)]

theorem aes_expand_word_congr (e f : List Nat) (i : Nat)
    (h1 : e.getD (i - 1) 0 = f.getD (i - 1) 0) (h8 : e.getD (i - 8) 0 = f.getD (i - 8) 0) :
    aes_expand_word e i = aes_expand_word f i := by
  unfold aes_expand_word
  rw [h1, h8]

theorem aes_expand_key_length (key : List Nat) : (aes_expand_key key).length = 60 := by
  unfold aes_expand_key
  rw [expand_fold_length aes_expand_word]
  simp

/-- Each word from index 8 on is the body of the loop applied to the final array. -/
theorem aes_expand_key_getD (key : List Nat) (i : Nat) (h8 : 8 ≤ i) (h60 : i < 60) :
    (aes_expand_key key).getD i 0 = aes_expand_word (aes_expand_key key) i := by
  obtain ⟨n, rfl⟩ : ∃ n, i = n + 8 := ⟨i - 8, by omega⟩
  unfold aes_expand_key
  obtain ⟨hnew, hold⟩ := expand_fold_getD aes_expand_word
    ((List.range 8).map (fun i =>
      (key.getD (i * 4) 0 <<< 24) ||| (key.getD (i * 4 + 1) 0 <<< 16)
        ||| (key.getD (i * 4 + 2) 0 <<< 8) ||| key.getD (i * 4 + 3) 0)) (by simp) n 52 (by omega)
  rw [hnew]
  apply aes_expand_word_congr
  · exact (hold _ (by omega)).symm
  · exact (hold _ (by omega)).symm

theorem aes_expand_key_first (key : List Nat) (i : Nat) (hi : i < 8) :
    (aes_expand_key key).getD i 0
      = (key.getD (i * 4) 0 <<< 24) ||| (key.getD (i * 4 + 1) 0 <<< 16)
          ||| (key.getD (i * 4 + 2) 0 <<< 8) ||| key.getD (i * 4 + 3) 0 := by
  unfold aes_expand_key
  obtain ⟨rest, hr⟩ := expand_fold_initial aes_expand_word
    ((List.range 8).map (fun i =>
      (key.getD (i * 4) 0 <<< 24) ||| (key.getD (i * 4 + 1) 0 <<< 16)
        ||| (key.getD (i * 4 + 2) 0 <<< 8) ||| key.getD (i * 4 + 3) 0)) 0 52 (by omega)
  rw [hr]
  simp only [List.range_zero, List.foldl_nil]
  rw [List.getD_append _ _ _ _ (by simp; omega), List.getD_eq_getElem?_getD, List.getElem?_map,
    List.getElem?_range hi]
  rfl

theorem key_byte_getD_lt (key : List Nat) (hb : ∀ b ∈ key, b < 256) (j : Nat) :
    key.getD j 0 < 256 := by
  rw [List.getD_eq_getElem?_getD]
  rcases h : key[j]? with _ | v
  · simp
  · exact hb v (List.getElem?_mem h)

theorem aes_expand_word_lt (e : List Nat) (i : Nat) (h8 : e.getD (i - 8) 0 < WORD_MOD)
    (h1 : e.getD (i - 1) 0 < WORD_MOD) : aes_expand_word e i < WORD_MOD := by
  unfold aes_expand_word
  simp only []
  apply Nat.xor_lt_two_pow (n := 32) h8
  split
  · apply Nat.xor_lt_two_pow (n := 32) (aes_sub_word_lt _)
    have hr : AES_RCON.getD (i / 8 - 1) 0 < 2 ^ 8 := by
      rw [List.getD_eq_getElem?_getD]
      rcases h : AES_RCON[i / 8 - 1]? with _ | v
      · simp
      · have hall : ∀ b ∈ AES_RCON, b < 2 ^ 8 := by decide
        exact hall v (List.getElem?_mem h)
    exact Nat.shiftLeft_lt hr
  · split
    · exact aes_sub_word_lt _
    · exact h1

/-- Every word of the expanded key of a key of bytes is a 32-bit word. -/
theorem aes_expand_key_word_lt (key : List Nat) (hb : ∀ b ∈ key, b < 256) (i : Nat) :
    (aes_expand_key key).getD i 0 < WORD_MOD := by
  induction i using Nat.strong_induction_on with
  | _ i ih =>
    by_cases h8 : i < 8
    · rw [aes_expand_key_first key i h8,
        or_bytes_eq_word _ _ _ _ (key_byte_getD_lt key hb _) (key_byte_getD_lt key hb _)
          (key_byte_getD_lt key hb _)]
      exact fips197_word_lt _ _ _ _ (key_byte_getD_lt key hb _) (key_byte_getD_lt key hb _)
        (key_byte_getD_lt key hb _) (key_byte_getD_lt key hb _)
    · by_cases h60 : i < 60
      · rw [aes_expand_key_getD key i (by omega) h60]
        exact aes_expand_word_lt _ i (ih _ (by omega)) (ih _ (by omega))
      · rw [List.getD_eq_getElem?_getD, List.getElem?_eq_none
          (by rw [aes_expand_key_length]; omega)]
        simp [WORD_MOD]

/-- Claim C23: for every 32-byte key, `aes_expand_key` produces the 60 words of the
AES-256 key expansion of FIPS-197 (`Nk = 8`): `w[0 .. 7]` are the big-endian key
words and, for `i` in `8 .. 59`, `w[i]` is
`w[i-8] xor SubWord(RotWord(w[i-1])) xor (Rcon[i/8] << 24)` when `i mod 8 = 0`,
`w[i-8] xor SubWord(w[i-1])` when `i mod 8 = 4`, and `w[i-8] xor w[i-1]`
otherwise, with `SubWord`, `RotWord` and `Rcon` as FIPS-197 defines them (the
S-box from the inverse in GF(2^8) and the affine transformation); every word is
below `2^32`. -/
theorem C23_key_expansion (key : List Nat) (hlen : key.length = 32)
    (hb : ∀ b ∈ key, b < 256) :
    (aes_expand_key key).length = 60
      ∧ (∀ i, i < 8 → 4 * i + 3 < key.length
          ∧ (aes_expand_key key).getD i 0
            = fips197_word (key.getD (4 * i) 0) (key.getD (4 * i + 1) 0)
                (key.getD (4 * i + 2) 0) (key.getD (4 * i + 3) 0))
      ∧ (∀ i, 8 ≤ i → i < 60 →
          (aes_expand_key key).getD i 0
            = if i % 8 = 0 then
                (aes_expand_key key).getD (i - 8) 0
                  ^^^ fips197_sub_word (fips197_rot_word ((aes_expand_key key).getD (i - 1) 0))
                  ^^^ (fips197_rcon (i / 8) <<< 24)
              else if i % 8 = 4 then
                (aes_expand_key key).getD (i - 8) 0
                  ^^^ fips197_sub_word ((aes_expand_key key).getD (i - 1) 0)
              else
                (aes_expand_key key).getD (i - 8) 0 ^^^ (aes_expand_key key).getD (i - 1) 0)
      ∧ (∀ i, i < 60 → (aes_expand_key key).getD i 0 < 2 ^ 32) := by
  refine ⟨aes_expand_key_length key, ?_, ?_, fun i _ => aes_expand_key_word_lt key hb i⟩
  · intro i hi
    refine ⟨by omega, ?_⟩
    rw [aes_expand_key_first key i hi,
      or_bytes_eq_word _ _ _ _ (key_byte_getD_lt key hb _) (key_byte_getD_lt key hb _)
        (key_byte_getD_lt key hb _), Nat.mul_comm i 4]
  · intro i h8 h60
    rw [aes_expand_key_getD key i h8 h60]
    unfold aes_expand_word
    simp only []
    by_cases c0 : i % 8 = 0
    · rw [if_pos c0, if_pos c0, rot_word_eq _ (aes_expand_key_word_lt key hb _),
        aes_sub_word_eq, Nat.xor_assoc]
      have hj : i / 8 - 1 < 15 := by omega
      have hj2 : i / 8 - 1 + 1 = i / 8 := by omega
      rw [fips197_rcon_table _ hj, hj2]
    · rw [if_neg c0, if_neg c0]
      by_cases c4 : i % 8 = 4
      · rw [if_pos c4, if_pos c4, aes_sub_word_eq]
      · rw [if_neg c4, if_neg c4]

/-- Claim C23 at the key `603deb10 15ca71be 2b73aef0 857d7781 1f352c07 3b6108d7
2d9810a3 0914dff4`: `w[8] = 0x9ba35411`, obtained from `w[0]` and `w[7]` by the
rule for `i mod 8 = 0`, and `w[59] = 0x706c631e`. -/
theorem C23_key_expansion_witness :
    (aes_expand_key
      [0x60, 0x3d, 0xeb, 0x10, 0x15, 0xca, 0x71, 0xbe, 0x2b, 0x73, 0xae, 0xf0, 0x85, 0x7d, 0x77, 0x81,
        0x1f, 0x35, 0x2c, 0x07, 0x3b, 0x61, 0x08, 0xd7, 0x2d, 0x98, 0x10, 0xa3, 0x09, 0x14, 0xdf, 0xf4]).length = 60
      ∧ (aes_expand_key
      [0x60, 0x3d, 0xeb, 0x10, 0x15, 0xca, 0x71, 0xbe, 0x2b, 0x73, 0xae, 0xf0, 0x85, 0x7d, 0x77, 0x81,
        0x1f, 0x35, 0x2c, 0x07, 0x3b, 0x61, 0x08, 0xd7, 0x2d, 0x98, 0x10, 0xa3, 0x09, 0x14, 0xdf, 0xf4]).getD 8 0 = 0x9ba35411
      ∧ (aes_expand_key
      [0x60, 0x3d, 0xeb, 0x10, 0x15, 0xca, 0x71, 0xbe, 0x2b, 0x73, 0xae, 0xf0, 0x85, 0x7d, 0x77, 0x81,
        0x1f, 0x35, 0x2c, 0x07, 0x3b, 0x61, 0x08, 0xd7, 0x2d, 0x98, 0x10, 0xa3, 0x09, 0x14, 0xdf, 0xf4]).getD 8 0
        = 0x603deb10 ^^^ fips197_sub_word (fips197_rot_word 0x0914dff4)
            ^^^ (fips197_rcon 1 <<< 24)
      ∧ (aes_expand_key
      [0x60, 0x3d, 0xeb, 0x10, 0x15, 0xca, 0x71, 0xbe, 0x2b, 0x73, 0xae, 0xf0, 0x85, 0x7d, 0x77, 0x81,
        0x1f, 0x35, 0x2c, 0x07, 0x3b, 0x61, 0x08, 0xd7, 0x2d, 0x98, 0x10, 0xa3, 0x09, 0x14, 0xdf, 0xf4]).getD 59 0 = 0x706c631e := by
  have h := C23_key_expansion
    [0x60, 0x3d, 0xeb, 0x10, 0x15, 0xca, 0x71, 0xbe, 0x2b, 0x73, 0xae, 0xf0, 0x85, 0x7d, 0x77, 0x81,
        0x1f, 0x35, 0x2c, 0x07, 0x3b, 0x61, 0x08, 0xd7, 0x2d, 0x98, 0x10, 0xa3, 0x09, 0x14, 0xdf, 0xf4]
    (by decide) (by decide)
  refine ⟨h.1, by decide!, ?_, by decide!⟩
  have h8 := h.2.2.1 8 (by decide) (by decide)
  rw [if_pos (by decide)] at h8
  rw [h8]
  decide!

end PolyMTD
